import Mathlib

/-!
Verification of the `nithin-post-generator` repository against its
natural-language specification.

The development shallowly embeds the Python sources:

* `app/nithin_corpus_utils.py` — text normalizer/tokenizer, temporal
  normalizer (`parse_date`), style analyzer (`analyze_posts`), corpus store
  (`write_corpus` / `read_corpus`);
* `scripts/ingest_linkedin_pdf.py` / `scripts/ingest_nitter_pdf.py` — the
  relative-age resolver (`parse_activity_date`) and the dedup/filter loop of
  `main`;
* `app/research_client.py` and `app/nithin_post_generator.py` — the research
  client and the generation orchestrator (`generate`).

Modelling conventions:

* Python strings are Lean `String`/`List Char`; Python's `\s`, `str.strip`,
  `str.split` and `str.lower` are modelled over ASCII (non-ASCII Unicode
  whitespace/case is outside the embedding, and none of the claims uses it).
* Fallible Python code returns `Option`/`Except`: an uncaught Python
  exception is `Except.error`.
* Network collaborators (the search HTTP call, the model provider call) are
  oracle functions carried in an environment record, exactly at the
  request/response boundary the code gives them.
* Python `float` arithmetic appears only in `len(edited) > len(draft) * 1.2`
  and in the style statistics.  The former is modelled exactly with integer
  arithmetic (`5 * len(edited) > 6 * len(draft)`, which agrees with the IEEE
  evaluation at every integer length), the latter with `ℚ`.
* Left-to-right regex scanners (`re.sub`, `re.findall`, `re.split`) are
  written with an explicit fuel argument so that they stay structurally
  recursive and kernel-computable; the fuel is always instantiated with the
  input length, which is enough for every step (each step consumes at least
  one character), and a congruence lemma per scanner recovers the natural
  fuel-free step equations.
-/

/-- Python `\s` / `str.strip` whitespace test, restricted to the six ASCII
whitespace characters (space, tab, newline, carriage return, vertical tab,
form feed).  Non-ASCII Unicode whitespace is not modelled. -/
def pyIsSpace (c : Char) : Bool :=
  c = ' ' || c = '\t' || c = '\n' || c = '\r' || c = '\x0b' || c = '\x0c'

/-- Python `str.strip()` on a character list: drop whitespace from both ends. -/
def pyStripList (l : List Char) : List Char :=
  ((l.dropWhile pyIsSpace).reverse.dropWhile pyIsSpace).reverse

/-- Python `str.strip()`. -/
def pyStrip (s : String) : String :=
  ⟨pyStripList s.data⟩

/-- One position of the regex `http\S+` from `normalize_text`
(`app/nithin_corpus_utils.py` line 18): the list starts with the four
characters `http` followed by at least one non-whitespace character. -/
def isHttpAt (l : List Char) : Bool :=
  match l with
  | 'h' :: 't' :: 't' :: 'p' :: c :: _ => !pyIsSpace c
  | _ => false

/-- Fuelled scanner for `re.sub(r"http\S+", "", text)`. -/
def stripHttpF : Nat → List Char → List Char
  | _, [] => []
  | 0, l => l
  | fuel + 1, c :: cs =>
    if isHttpAt (c :: cs) then
      stripHttpF fuel ((cs.drop 3).dropWhile (fun d => !pyIsSpace d))
    else
      c :: stripHttpF fuel cs

/-- `re.sub(r"http\S+", "", text)`: leftmost-first removal of each occurrence
of `http` together with the maximal following run of non-whitespace
characters. -/
def stripHttp (l : List Char) : List Char :=
  stripHttpF l.length l

theorem stripHttpF_nilF (f : Nat) : stripHttpF f [] = [] := by
  cases f <;> rfl

theorem stripHttpF_congr :
    ∀ {f : Nat} {g : Nat} {l : List Char}, l.length ≤ f → l.length ≤ g →
      stripHttpF f l = stripHttpF g l := by
  intro f
  induction f with
  | zero =>
    intro g l hf _
    have hl : l = [] := by cases l <;> simp_all
    subst hl
    rw [stripHttpF_nilF, stripHttpF_nilF]
  | succ f ih =>
    intro g l hf hg
    match l with
    | [] => rw [stripHttpF_nilF, stripHttpF_nilF]
    | c :: cs =>
      match g with
      | 0 => simp at hg
      | g + 1 =>
        simp only [List.length_cons] at hf hg
        have hcs : cs.length ≤ f := by omega
        have hcs' : cs.length ≤ g := by omega
        have hjump : ((cs.drop 3).dropWhile (fun d => !pyIsSpace d)).length ≤ cs.length := by
          have h1 := ((cs.drop 3).dropWhile_sublist (fun d => !pyIsSpace d)).length_le
          have h2 : (cs.drop 3).length ≤ cs.length := by simp [List.length_drop]
          omega
        show (if isHttpAt (c :: cs) then _ else _) = (if isHttpAt (c :: cs) then _ else _)
        by_cases h : isHttpAt (c :: cs)
        · simp only [h, if_pos]
          exact ih (le_trans hjump hcs) (le_trans hjump hcs')
        · simp only [h, if_neg, Bool.false_eq_true, not_false_iff, ih hcs hcs']

theorem stripHttp_nil : stripHttp [] = [] := rfl

/-- Step equation of the `http\S+` scanner: on a match drop `http` and the
maximal following non-whitespace run, otherwise keep the character. -/
theorem stripHttp_cons (c : Char) (cs : List Char) :
    stripHttp (c :: cs) =
      if isHttpAt (c :: cs) then
        stripHttp ((cs.drop 3).dropWhile (fun d => !pyIsSpace d))
      else
        c :: stripHttp cs := by
  have hjump : ((cs.drop 3).dropWhile (fun d => !pyIsSpace d)).length ≤ cs.length := by
    have h1 := ((cs.drop 3).dropWhile_sublist (fun d => !pyIsSpace d)).length_le
    have h2 : (cs.drop 3).length ≤ cs.length := by simp [List.length_drop]
    omega
  show (if isHttpAt (c :: cs) then stripHttpF cs.length _ else c :: stripHttpF cs.length cs) = _
  by_cases h : isHttpAt (c :: cs)
  · simp only [h, if_pos]
    exact stripHttpF_congr hjump le_rfl
  · simp [h]
    exact stripHttpF_congr le_rfl le_rfl

/-- Fuelled scanner for `re.sub(r"\s+", " ", text)`. -/
def collapseWsF : Nat → List Char → List Char
  | _, [] => []
  | 0, l => l
  | fuel + 1, c :: cs =>
    if pyIsSpace c then
      ' ' :: collapseWsF fuel (cs.dropWhile pyIsSpace)
    else
      c :: collapseWsF fuel cs

/-- `re.sub(r"\s+", " ", text)`: replace each maximal whitespace run by a
single space. -/
def collapseWs (l : List Char) : List Char :=
  collapseWsF l.length l

theorem collapseWsF_nilF (f : Nat) : collapseWsF f [] = [] := by
  cases f <;> rfl

theorem collapseWsF_congr :
    ∀ {f : Nat} {g : Nat} {l : List Char}, l.length ≤ f → l.length ≤ g →
      collapseWsF f l = collapseWsF g l := by
  intro f
  induction f with
  | zero =>
    intro g l hf _
    have hl : l = [] := by cases l <;> simp_all
    subst hl
    rw [collapseWsF_nilF, collapseWsF_nilF]
  | succ f ih =>
    intro g l hf hg
    match l with
    | [] => rw [collapseWsF_nilF, collapseWsF_nilF]
    | c :: cs =>
      match g with
      | 0 => simp at hg
      | g + 1 =>
        simp only [List.length_cons] at hf hg
        have hcs : cs.length ≤ f := by omega
        have hcs' : cs.length ≤ g := by omega
        have hdrop := (cs.dropWhile_sublist pyIsSpace).length_le
        show (if pyIsSpace c then _ else _) = (if pyIsSpace c then _ else _)
        by_cases h : pyIsSpace c
        · simp only [h, if_pos]
          rw [ih (le_trans hdrop hcs) (le_trans hdrop hcs')]
        · simp only [h, if_neg, Bool.false_eq_true, not_false_iff, ih hcs hcs']

theorem collapseWs_nil : collapseWs [] = [] := rfl

/-- Step equation of the whitespace collapser. -/
theorem collapseWs_cons (c : Char) (cs : List Char) :
    collapseWs (c :: cs) =
      if pyIsSpace c then
        ' ' :: collapseWs (cs.dropWhile pyIsSpace)
      else
        c :: collapseWs cs := by
  have hdrop := (cs.dropWhile_sublist pyIsSpace).length_le
  show (if pyIsSpace c then ' ' :: collapseWsF cs.length _ else c :: collapseWsF cs.length cs) = _
  by_cases h : pyIsSpace c
  · simp only [h, if_pos]
    rw [collapseWsF_congr hdrop le_rfl]
    rfl
  · simp [h]
    exact collapseWsF_congr le_rfl le_rfl

/-- `normalize_text` (`app/nithin_corpus_utils.py` lines 17-20): strip
`http\S+` occurrences, collapse whitespace runs to single spaces, and trim. -/
def normalize_text (s : String) : String :=
  ⟨pyStripList (collapseWs (stripHttp s.data))⟩

/-- A character matched by the `tokenize` regex `[A-Za-z0-9']+`. -/
def isWordChar (c : Char) : Bool :=
  c.isAlpha || c.isDigit || c = '\x27'

/-- Fuelled scanner for `re.findall(r"[A-Za-z0-9']+", text)`. -/
def findWordRunsF : Nat → List Char → List (List Char)
  | _, [] => []
  | 0, _ => []
  | fuel + 1, c :: cs =>
    if isWordChar c then
      (c :: cs.takeWhile isWordChar) :: findWordRunsF fuel (cs.dropWhile isWordChar)
    else
      findWordRunsF fuel cs

/-- `re.findall(r"[A-Za-z0-9']+", text)`: the maximal runs of word
characters, in order. -/
def findWordRuns (l : List Char) : List (List Char) :=
  findWordRunsF l.length l

theorem findWordRunsF_nilF (f : Nat) : findWordRunsF f [] = [] := by
  cases f <;> rfl

theorem findWordRunsF_congr :
    ∀ {f : Nat} {g : Nat} {l : List Char}, l.length ≤ f → l.length ≤ g →
      findWordRunsF f l = findWordRunsF g l := by
  intro f
  induction f with
  | zero =>
    intro g l hf _
    have hl : l = [] := by cases l <;> simp_all
    subst hl
    rw [findWordRunsF_nilF, findWordRunsF_nilF]
  | succ f ih =>
    intro g l hf hg
    match l with
    | [] => rw [findWordRunsF_nilF, findWordRunsF_nilF]
    | c :: cs =>
      match g with
      | 0 => simp at hg
      | g + 1 =>
        simp only [List.length_cons] at hf hg
        have hcs : cs.length ≤ f := by omega
        have hcs' : cs.length ≤ g := by omega
        have hdrop := (cs.dropWhile_sublist isWordChar).length_le
        show (if isWordChar c then _ else _) = (if isWordChar c then _ else _)
        by_cases h : isWordChar c
        · simp only [h, if_pos]
          rw [ih (le_trans hdrop hcs) (le_trans hdrop hcs')]
        · simp only [h, if_neg, Bool.false_eq_true, not_false_iff, ih hcs hcs']

theorem findWordRuns_nil : findWordRuns [] = [] := rfl

/-- Step equation of the word-run scanner. -/
theorem findWordRuns_cons (c : Char) (cs : List Char) :
    findWordRuns (c :: cs) =
      if isWordChar c then
        (c :: cs.takeWhile isWordChar) :: findWordRuns (cs.dropWhile isWordChar)
      else
        findWordRuns cs := by
  have hdrop := (cs.dropWhile_sublist isWordChar).length_le
  show (if isWordChar c then _ :: findWordRunsF cs.length _ else findWordRunsF cs.length cs) = _
  by_cases h : isWordChar c
  · simp only [h, if_pos]
    rw [findWordRunsF_congr hdrop le_rfl]
    rfl
  · simp [h]
    exact findWordRunsF_congr le_rfl le_rfl

/-- `tokenize` (`app/nithin_corpus_utils.py` lines 23-24): word runs of the
lowercased text.  Python's Unicode `str.lower` is modelled by Lean's
ASCII `String.toLower`; the word-character class is ASCII anyway. -/
def pyToLower (s : String) : String :=
  ⟨s.data.map Char.toLower⟩

def tokenize (s : String) : List String :=
  (findWordRuns (pyToLower s).data).map (fun l => ⟨l⟩)

/-- A sentence-ending character of the `split_sentences` regex `[.!?]+`. -/
def isSentEnd (c : Char) : Bool :=
  c = '.' || c = '!' || c = '?'

/-- Fuelled scanner for `re.split(r"[.!?]+", text)`. -/
def splitSentRawF : Nat → List Char → List (List Char)
  | _, [] => [[]]
  | 0, l => [l]
  | fuel + 1, c :: cs =>
    if isSentEnd c then
      [] :: splitSentRawF fuel (cs.dropWhile isSentEnd)
    else
      match splitSentRawF fuel cs with
      | [] => [[c]]
      | h :: t => (c :: h) :: t

/-- `re.split(r"[.!?]+", text)`: the (possibly empty) segments between
maximal runs of sentence-ending characters. -/
def splitSentRaw (l : List Char) : List (List Char) :=
  splitSentRawF l.length l

theorem splitSentRawF_nilF (f : Nat) : splitSentRawF f [] = [[]] := by
  cases f <;> rfl

theorem splitSentRawF_congr :
    ∀ {f : Nat} {g : Nat} {l : List Char}, l.length ≤ f → l.length ≤ g →
      splitSentRawF f l = splitSentRawF g l := by
  intro f
  induction f with
  | zero =>
    intro g l hf _
    have hl : l = [] := by cases l <;> simp_all
    subst hl
    rw [splitSentRawF_nilF, splitSentRawF_nilF]
  | succ f ih =>
    intro g l hf hg
    match l with
    | [] => rw [splitSentRawF_nilF, splitSentRawF_nilF]
    | c :: cs =>
      match g with
      | 0 => simp at hg
      | g + 1 =>
        simp only [List.length_cons] at hf hg
        have hcs : cs.length ≤ f := by omega
        have hcs' : cs.length ≤ g := by omega
        have hdrop := (cs.dropWhile_sublist isSentEnd).length_le
        show (if isSentEnd c then _ else _) = (if isSentEnd c then _ else _)
        by_cases h : isSentEnd c
        · simp only [h, if_pos]
          rw [ih (le_trans hdrop hcs) (le_trans hdrop hcs')]
        · simp only [h, if_neg, Bool.false_eq_true, not_false_iff, ih hcs hcs']

theorem splitSentRaw_nil : splitSentRaw [] = [[]] := rfl

/-- Step equation of the sentence splitter. -/
theorem splitSentRaw_cons (c : Char) (cs : List Char) :
    splitSentRaw (c :: cs) =
      if isSentEnd c then
        [] :: splitSentRaw (cs.dropWhile isSentEnd)
      else
        match splitSentRaw cs with
        | [] => [[c]]
        | h :: t => (c :: h) :: t := by
  have hdrop := (cs.dropWhile_sublist isSentEnd).length_le
  show (if isSentEnd c then [] :: splitSentRawF cs.length _ else _) = _
  by_cases h : isSentEnd c
  · simp only [h, if_pos]
    rw [splitSentRawF_congr hdrop le_rfl]
    rfl
  · simp only [h, if_neg, Bool.false_eq_true, not_false_iff]
    rw [show splitSentRawF cs.length cs = splitSentRaw cs from rfl]

/-- `split_sentences` (`app/nithin_corpus_utils.py` lines 27-28): split on
`[.!?]+`, strip each fragment, drop the empty ones. -/
def split_sentences (s : String) : List String :=
  (((splitSentRaw s.data).map pyStripList).filter (fun l => !l.isEmpty)).map (fun l => ⟨l⟩)

/-- `is_emoji` (`app/nithin_corpus_utils.py` lines 31-39): the code point
lies in one of the four fixed ranges. -/
def is_emoji (c : Char) : Bool :=
  let code := c.toNat
  (0x1F300 ≤ code && code ≤ 0x1FAFF) ||
  (0x2600 ≤ code && code ≤ 0x26FF) ||
  (0x2700 ≤ code && code ≤ 0x27BF) ||
  (0x1F1E6 ≤ code && code ≤ 0x1F1FF)

/-- `STOPWORDS` (`app/nithin_corpus_utils.py` lines 9-14). -/
def STOPWORDS : List String :=
  ["the", "a", "an", "and", "or", "but", "if", "then", "this", "that",
   "these", "those", "is", "are", "was", "were", "be", "been", "being",
   "to", "of", "in", "on", "for", "with", "as", "at", "by", "from",
   "it", "its", "we", "our", "you", "your", "i", "me", "my", "us"]

theorem stripHttpF_zero (l : List Char) : stripHttpF 0 l = l := by
  cases l <;> rfl

theorem collapseWsF_zero (l : List Char) : collapseWsF 0 l = l := by
  cases l <;> rfl

theorem head_of_dropWhile {p : Char → Bool} {l : List Char} {x : Char}
    (h : (l.dropWhile p).head? = some x) : p x = false := by
  induction l with
  | nil => simp [List.dropWhile] at h
  | cons c cs ih =>
    rw [List.dropWhile_cons] at h
    by_cases hc : p c
    · simp only [hc, if_pos] at h
      exact ih h
    · simp only [hc, Bool.false_eq_true, if_neg, not_false_iff, List.head?_cons,
        Option.some.injEq] at h
      subst h
      simpa using hc

theorem dropWhile_eq_self {p : Char → Bool} {l : List Char}
    (h : ∀ x, l.head? = some x → p x = false) : l.dropWhile p = l := by
  cases l with
  | nil => rfl
  | cons c cs =>
    rw [List.dropWhile_cons]
    simp [h c rfl]

/-- Characterisation of an `http\S+` match position. -/
theorem isHttpAt_iff (l : List Char) :
    isHttpAt l = true ↔
      ∃ e rest, l = 'h' :: 't' :: 't' :: 'p' :: e :: rest ∧ pyIsSpace e = false := by
  unfold isHttpAt
  split
  · rename_i c rest
    simp
  · rename_i hne
    simp only [Bool.false_eq_true, false_iff]
    rintro ⟨e, rest, rfl, he⟩
    exact (hne e rest rfl).elim

theorem isHttpAt_head {c : Char} {cs : List Char} (h : isHttpAt (c :: cs) = true) : c = 'h' := by
  rcases (isHttpAt_iff _).mp h with ⟨e, rest, heq, -⟩
  exact (List.cons.injEq _ _ _ _ ▸ heq).1

/-- Does the list contain, at any position, the pattern `http` followed by a
non-whitespace character (that is, a position where the `http\S+` regex of
`normalize_text` would match)? -/
def hasBadHttp : List Char → Bool
  | [] => false
  | c :: cs => isHttpAt (c :: cs) || hasBadHttp cs

theorem hasBadHttp_tail {c : Char} {cs : List Char} (h : hasBadHttp (c :: cs) = false) :
    hasBadHttp cs = false := by
  rw [show hasBadHttp (c :: cs) = (isHttpAt (c :: cs) || hasBadHttp cs) from rfl] at h
  exact (Bool.or_eq_false_iff.mp h).2

theorem isHttpAt_of_head {c : Char} {cs : List Char} (h : hasBadHttp (c :: cs) = false) :
    isHttpAt (c :: cs) = false := by
  rw [show hasBadHttp (c :: cs) = (isHttpAt (c :: cs) || hasBadHttp cs) from rfl] at h
  exact (Bool.or_eq_false_iff.mp h).1

theorem hasBadHttp_append_right {a b : List Char} (h : hasBadHttp (a ++ b) = false) :
    hasBadHttp b = false := by
  induction a with
  | nil => exact h
  | cons c cs ih => exact ih (hasBadHttp_tail h)

theorem hasBadHttp_append_left {a b : List Char} (h : hasBadHttp (a ++ b) = false) :
    hasBadHttp a = false := by
  induction a with
  | nil => rfl
  | cons c cs ih =>
    rw [List.cons_append] at h
    rw [show hasBadHttp (c :: cs) = (isHttpAt (c :: cs) || hasBadHttp cs) from rfl]
    rw [Bool.or_eq_false_iff]
    refine ⟨?_, ih (hasBadHttp_tail h)⟩
    by_contra hbad
    rcases (isHttpAt_iff _).mp (Bool.of_not_eq_false hbad) with ⟨e, rest, heq, he⟩
    have : isHttpAt (c :: (cs ++ b)) = true := by
      rw [isHttpAt_iff]
      refine ⟨e, rest ++ b, ?_, he⟩
      have := congrArg (fun l => l ++ b) heq
      simpa using this
    rw [isHttpAt_of_head h] at this
    exact Bool.false_ne_true this

theorem hasBadHttp_dropWhile {p : Char → Bool} {l : List Char}
    (h : hasBadHttp l = false) : hasBadHttp (l.dropWhile p) = false := by
  induction l with
  | nil => exact h
  | cons c cs ih =>
    rw [List.dropWhile_cons]
    by_cases hc : p c
    · simp only [hc, if_pos]
      exact ih (hasBadHttp_tail h)
    · simpa [hc] using h

/-- A position of the bad pattern inside a context makes `hasBadHttp` true. -/
theorem hasBadHttp_of_mid (l1 : List Char) {e : Char} (rest l2 : List Char)
    (he : pyIsSpace e = false) :
    hasBadHttp (l1 ++ ('h' :: 't' :: 't' :: 'p' :: e :: rest) ++ l2) = true := by
  induction l1 with
  | nil =>
    have hmat : isHttpAt ('h' :: 't' :: 't' :: 'p' :: e :: (rest ++ l2)) = true :=
      (isHttpAt_iff _).mpr ⟨e, rest ++ l2, rfl, he⟩
    simp only [List.nil_append, List.cons_append]
    rw [show hasBadHttp ('h' :: 't' :: 't' :: 'p' :: e :: (rest ++ l2))
          = (isHttpAt ('h' :: 't' :: 't' :: 'p' :: e :: (rest ++ l2))
             || hasBadHttp ('t' :: 't' :: 'p' :: e :: (rest ++ l2))) from rfl, hmat]
    simp
  | cons c cs ih =>
    simp only [List.cons_append]
    rw [show hasBadHttp (c :: (cs ++ 'h' :: 't' :: 't' :: 'p' :: e :: rest ++ l2))
          = (isHttpAt (c :: (cs ++ 'h' :: 't' :: 't' :: 'p' :: e :: rest ++ l2))
             || hasBadHttp (cs ++ 'h' :: 't' :: 't' :: 'p' :: e :: rest ++ l2)) from rfl]
    rw [ih]
    simp

/-- The head of a `stripHttpF` output is the head of the input or a
whitespace character. -/
theorem stripHttpF_head :
    ∀ {f : Nat} {l : List Char} {x : Char} {out : List Char},
      stripHttpF f l = x :: out → l.head? = some x ∨ pyIsSpace x = true := by
  intro f
  induction f with
  | zero =>
    intro l x out h
    rw [stripHttpF_zero] at h
    rw [h]
    exact Or.inl rfl
  | succ f ih =>
    intro l x out h
    match l with
    | [] => simp [stripHttpF] at h
    | c :: cs =>
      rw [show stripHttpF (f + 1) (c :: cs)
            = if isHttpAt (c :: cs) then
                stripHttpF f ((cs.drop 3).dropWhile (fun d => !pyIsSpace d))
              else c :: stripHttpF f cs from rfl] at h
      by_cases hm : isHttpAt (c :: cs)
      · simp only [hm, if_pos] at h
        rcases ih h with hhead | hsp
        · have := head_of_dropWhile hhead
          simp only [Bool.not_eq_false'] at this
          exact Or.inr this
        · exact Or.inr hsp
      · simp only [hm, Bool.false_eq_true, if_neg, not_false_iff] at h
        obtain ⟨rfl, -⟩ := List.cons.injEq _ _ _ _ ▸ h
        exact Or.inl rfl

/-- If a `stripHttpF` output starts with a non-whitespace character, the input
started with that same character and the tail of the output is again a
scanner output. -/
theorem strip_uncons {f : Nat} {cs : List Char} {x : Char} {out : List Char}
    (hout : stripHttpF f cs = x :: out) (hx : pyIsSpace x = false) :
    ∃ g cs2, cs = x :: cs2 ∧ stripHttpF g cs2 = out := by
  match f with
  | 0 =>
    rw [stripHttpF_zero] at hout
    exact ⟨0, out, hout, stripHttpF_zero out⟩
  | f + 1 =>
    match cs with
    | [] => simp [stripHttpF] at hout
    | c :: cs1 =>
      rw [show stripHttpF (f + 1) (c :: cs1)
            = if isHttpAt (c :: cs1) then
                stripHttpF f ((cs1.drop 3).dropWhile (fun d => !pyIsSpace d))
              else c :: stripHttpF f cs1 from rfl] at hout
      by_cases hm : isHttpAt (c :: cs1)
      · simp only [hm, if_pos] at hout
        rcases stripHttpF_head hout with hhead | hsp
        · have := head_of_dropWhile hhead
          simp only [Bool.not_eq_false'] at this
          rw [this] at hx
          exact absurd hx (by simp)
        · rw [hsp] at hx
          exact absurd hx (by simp)
      · simp only [hm, Bool.false_eq_true, if_neg, not_false_iff] at hout
        obtain ⟨rfl, hrest⟩ := List.cons.injEq _ _ _ _ ▸ hout
        exact ⟨f, cs1, rfl, hrest⟩

/-- The head of a `collapseWsF` output is the head of the input or a single
space. -/
theorem collapseWsF_head {f : Nat} {l : List Char} {x : Char} {out : List Char}
    (h : collapseWsF f l = x :: out) : l.head? = some x ∨ x = ' ' := by
  match f with
  | 0 =>
    rw [collapseWsF_zero] at h
    rw [h]
    exact Or.inl rfl
  | f + 1 =>
    match l with
    | [] => simp [collapseWsF] at h
    | c :: cs =>
      rw [show collapseWsF (f + 1) (c :: cs)
            = if pyIsSpace c then ' ' :: collapseWsF f (cs.dropWhile pyIsSpace)
              else c :: collapseWsF f cs from rfl] at h
      by_cases hc : pyIsSpace c
      · simp only [hc, if_pos] at h
        obtain ⟨rfl, -⟩ := List.cons.injEq _ _ _ _ ▸ h
        exact Or.inr rfl
      · simp only [hc, Bool.false_eq_true, if_neg, not_false_iff] at h
        obtain ⟨rfl, -⟩ := List.cons.injEq _ _ _ _ ▸ h
        exact Or.inl rfl

/-- If a `collapseWsF` output starts with a non-whitespace character, the
input started with that character and the tail of the output is again a
collapse output. -/
theorem collapse_uncons {f : Nat} {cs : List Char} {x : Char} {out : List Char}
    (hout : collapseWsF f cs = x :: out) (hx : pyIsSpace x = false) :
    ∃ g cs2, cs = x :: cs2 ∧ collapseWsF g cs2 = out := by
  match f with
  | 0 =>
    rw [collapseWsF_zero] at hout
    exact ⟨0, out, hout, collapseWsF_zero out⟩
  | f + 1 =>
    match cs with
    | [] => simp [collapseWsF] at hout
    | c :: cs1 =>
      rw [show collapseWsF (f + 1) (c :: cs1)
            = if pyIsSpace c then ' ' :: collapseWsF f (cs1.dropWhile pyIsSpace)
              else c :: collapseWsF f cs1 from rfl] at hout
      by_cases hc : pyIsSpace c
      · simp only [hc, if_pos] at hout
        obtain ⟨rfl, -⟩ := List.cons.injEq _ _ _ _ ▸ hout
        exact absurd hx (by simp [pyIsSpace])
      · simp only [hc, Bool.false_eq_true, if_neg, not_false_iff] at hout
        obtain ⟨rfl, hrest⟩ := List.cons.injEq _ _ _ _ ▸ hout
        exact ⟨f, cs1, rfl, hrest⟩

/-- A non-match position stays a non-match after the rest of the input is
scanned: `stripHttp` cannot create a new `http\S+` match. -/
theorem isHttpAt_stripHttpF {f : Nat} {c : Char} {cs : List Char}
    (h : isHttpAt (c :: cs) = false) : isHttpAt (c :: stripHttpF f cs) = false := by
  by_contra hbad
  rcases (isHttpAt_iff _).mp (Bool.of_not_eq_false hbad) with ⟨e, rest, heq, he⟩
  obtain ⟨rfl, hout⟩ := List.cons.injEq _ _ _ _ ▸ heq
  obtain ⟨g1, cs1, rfl, hout1⟩ := strip_uncons hout (by decide)
  obtain ⟨g2, cs2, rfl, hout2⟩ := strip_uncons hout1 (by decide)
  obtain ⟨g3, cs3, rfl, hout3⟩ := strip_uncons hout2 (by decide)
  obtain ⟨g4, cs4, rfl, -⟩ := strip_uncons hout3 he
  have hcon : isHttpAt ('h' :: 't' :: 't' :: 'p' :: e :: cs4) = true :=
    (isHttpAt_iff _).mpr ⟨e, cs4, rfl, he⟩
  rw [h] at hcon
  exact Bool.noConfusion hcon

/-- The output of the `http\S+` scanner contains no remaining match
position. -/
theorem hasBadHttp_stripHttpF :
    ∀ {f : Nat} {l : List Char}, l.length ≤ f → hasBadHttp (stripHttpF f l) = false := by
  intro f
  induction f with
  | zero =>
    intro l hf
    have hl : l = [] := by cases l <;> simp_all
    subst hl
    rfl
  | succ f ih =>
    intro l hf
    match l with
    | [] => rw [show stripHttpF (f + 1) ([] : List Char) = [] from rfl]; rfl
    | c :: cs =>
      simp only [List.length_cons] at hf
      rw [show stripHttpF (f + 1) (c :: cs)
            = if isHttpAt (c :: cs) then
                stripHttpF f ((cs.drop 3).dropWhile (fun d => !pyIsSpace d))
              else c :: stripHttpF f cs from rfl]
      by_cases hm : isHttpAt (c :: cs)
      · simp only [hm, if_pos]
        have hlen : ((cs.drop 3).dropWhile (fun d => !pyIsSpace d)).length ≤ f := by
          have h1 := ((cs.drop 3).dropWhile_sublist (fun d => !pyIsSpace d)).length_le
          have h2 : (cs.drop 3).length ≤ cs.length := by simp [List.length_drop]
          omega
        exact ih hlen
      · simp only [hm, Bool.false_eq_true, if_neg, not_false_iff]
        rw [show hasBadHttp (c :: stripHttpF f cs)
              = (isHttpAt (c :: stripHttpF f cs) || hasBadHttp (stripHttpF f cs)) from rfl]
        rw [isHttpAt_stripHttpF (Bool.not_eq_true _ ▸ hm), ih (by omega)]
        rfl

/-- On an input with no match position, the `http\S+` scanner is the
identity. -/
theorem stripHttpF_self :
    ∀ {f : Nat} {l : List Char}, hasBadHttp l = false → stripHttpF f l = l := by
  intro f
  induction f with
  | zero => intro l _; exact stripHttpF_zero l
  | succ f ih =>
    intro l h
    match l with
    | [] => rfl
    | c :: cs =>
      rw [show stripHttpF (f + 1) (c :: cs)
            = if isHttpAt (c :: cs) then
                stripHttpF f ((cs.drop 3).dropWhile (fun d => !pyIsSpace d))
              else c :: stripHttpF f cs from rfl]
      rw [isHttpAt_of_head h]
      simp only [Bool.false_eq_true, if_neg, not_false_iff]
      rw [ih (hasBadHttp_tail h)]

theorem hasBadHttp_stripHttp (l : List Char) : hasBadHttp (stripHttp l) = false :=
  hasBadHttp_stripHttpF le_rfl

theorem stripHttp_self {l : List Char} (h : hasBadHttp l = false) : stripHttp l = l :=
  stripHttpF_self h

/-- Every whitespace character of the list is a plain space. -/
def onlyPlainSpaces (l : List Char) : Bool :=
  l.all (fun c => !pyIsSpace c || c = ' ')

/-- No two adjacent whitespace characters. -/
def noDoubleSpace : List Char → Bool
  | c :: d :: rest => (!(pyIsSpace c && pyIsSpace d)) && noDoubleSpace (d :: rest)
  | _ => true

theorem noDoubleSpace_tail {c : Char} {cs : List Char}
    (h : noDoubleSpace (c :: cs) = true) : noDoubleSpace cs = true := by
  cases cs with
  | nil => rfl
  | cons d ds =>
    rw [show noDoubleSpace (c :: d :: ds)
          = ((!(pyIsSpace c && pyIsSpace d)) && noDoubleSpace (d :: ds)) from rfl] at h
    exact (Bool.and_eq_true_iff.mp h).2

theorem noDoubleSpace_append_left {a b : List Char}
    (h : noDoubleSpace (a ++ b) = true) : noDoubleSpace a = true := by
  induction a with
  | nil => rfl
  | cons c a2 ih =>
    cases a2 with
    | nil => rfl
    | cons d a3 =>
      rw [List.cons_append] at h
      rw [show noDoubleSpace (c :: d :: a3)
            = ((!(pyIsSpace c && pyIsSpace d)) && noDoubleSpace (d :: a3)) from rfl]
      rw [Bool.and_eq_true_iff]
      constructor
      · rw [List.cons_append] at h
        exact (Bool.and_eq_true_iff.mp h).1
      · exact ih (noDoubleSpace_tail h)

theorem noDoubleSpace_append_right {a b : List Char}
    (h : noDoubleSpace (a ++ b) = true) : noDoubleSpace b = true := by
  induction a with
  | nil => exact h
  | cons c a2 ih => exact ih (noDoubleSpace_tail h)

/-- The whitespace collapser emits only plain spaces. -/
theorem onlyPlainSpaces_collapseWsF :
    ∀ {f : Nat} {l : List Char}, l.length ≤ f → onlyPlainSpaces (collapseWsF f l) = true := by
  intro f
  induction f with
  | zero =>
    intro l hf
    have hl : l = [] := by cases l <;> simp_all
    subst hl
    rfl
  | succ f ih =>
    intro l hf
    match l with
    | [] => rfl
    | c :: cs =>
      simp only [List.length_cons] at hf
      have hdrop := (cs.dropWhile_sublist pyIsSpace).length_le
      rw [show collapseWsF (f + 1) (c :: cs)
            = if pyIsSpace c then ' ' :: collapseWsF f (cs.dropWhile pyIsSpace)
              else c :: collapseWsF f cs from rfl]
      by_cases hc : pyIsSpace c
      · simp only [hc, if_pos]
        have := ih (l := cs.dropWhile pyIsSpace) (by omega)
        simp only [onlyPlainSpaces, List.all_cons] at this ⊢
        simp [this]
      · simp only [hc, Bool.false_eq_true, if_neg, not_false_iff]
        have := ih (l := cs) (by omega)
        simp only [onlyPlainSpaces, List.all_cons] at this ⊢
        simp [this, hc]

/-- The whitespace collapser never emits two adjacent whitespace
characters. -/
theorem noDoubleSpace_collapseWsF :
    ∀ {f : Nat} {l : List Char}, l.length ≤ f → noDoubleSpace (collapseWsF f l) = true := by
  intro f
  induction f with
  | zero =>
    intro l hf
    have hl : l = [] := by cases l <;> simp_all
    subst hl
    rfl
  | succ f ih =>
    intro l hf
    match l with
    | [] => rfl
    | c :: cs =>
      simp only [List.length_cons] at hf
      have hdrop := (cs.dropWhile_sublist pyIsSpace).length_le
      rw [show collapseWsF (f + 1) (c :: cs)
            = if pyIsSpace c then ' ' :: collapseWsF f (cs.dropWhile pyIsSpace)
              else c :: collapseWsF f cs from rfl]
      by_cases hc : pyIsSpace c
      · simp only [hc, if_pos]
        rcases hout : collapseWsF f (cs.dropWhile pyIsSpace) with _ | ⟨d, ds⟩
        · rfl
        · have htail : noDoubleSpace (d :: ds) = true := hout ▸ ih (by omega)
          have hd : pyIsSpace d = false := by
            rcases hdw : cs.dropWhile pyIsSpace with _ | ⟨e, tl⟩
            · rw [hdw, collapseWsF_nilF] at hout
              exact absurd hout (by simp)
            · have he : pyIsSpace e = false := head_of_dropWhile (by rw [hdw]; rfl)
              have hlen : (e :: tl).length ≤ f := by rw [← hdw]; omega
              match f with
              | 0 => simp at hlen
              | f1 + 1 =>
                rw [hdw] at hout
                rw [show collapseWsF (f1 + 1 : Nat) (e :: tl)
                      = if pyIsSpace e then ' ' :: collapseWsF f1 (tl.dropWhile pyIsSpace)
                        else e :: collapseWsF f1 tl from rfl] at hout
                simp only [he, Bool.false_eq_true, if_neg, not_false_iff] at hout
                obtain ⟨rfl, -⟩ := List.cons.injEq _ _ _ _ ▸ hout
                exact he
          rw [show noDoubleSpace (' ' :: d :: ds)
                = ((!(pyIsSpace ' ' && pyIsSpace d)) && noDoubleSpace (d :: ds)) from rfl]
          simp [hd, htail]
      · simp only [hc, Bool.false_eq_true, if_neg, not_false_iff]
        rcases hout : collapseWsF f cs with _ | ⟨d, ds⟩
        · rfl
        · have htail : noDoubleSpace (d :: ds) = true := hout ▸ ih (by omega)
          rw [show noDoubleSpace (c :: d :: ds)
                = ((!(pyIsSpace c && pyIsSpace d)) && noDoubleSpace (d :: ds)) from rfl]
          simp [hc, htail]

/-- On an input with single plain spaces only, the collapser is the
identity. -/
theorem collapseWsF_self :
    ∀ {f : Nat} {l : List Char}, onlyPlainSpaces l = true → noDoubleSpace l = true →
      collapseWsF f l = l := by
  intro f
  induction f with
  | zero => intro l _ _; exact collapseWsF_zero l
  | succ f ih =>
    intro l h1 h2
    match l with
    | [] => rfl
    | c :: cs =>
      rw [show collapseWsF (f + 1) (c :: cs)
            = if pyIsSpace c then ' ' :: collapseWsF f (cs.dropWhile pyIsSpace)
              else c :: collapseWsF f cs from rfl]
      have hpair : ((!pyIsSpace c || decide (c = ' ')) && onlyPlainSpaces cs) = true := by
        rw [onlyPlainSpaces, List.all_cons] at h1
        exact h1
      have h1t : onlyPlainSpaces cs = true := (Bool.and_eq_true_iff.mp hpair).2
      by_cases hc : pyIsSpace c
      · simp only [hc, if_pos]
        have hcsp : c = ' ' := by
          rcases Bool.or_eq_true_iff.mp (Bool.and_eq_true_iff.mp hpair).1 with hne | heq
          · rw [hc] at hne
            simp at hne
          · exact of_decide_eq_true heq
        have hdw : cs.dropWhile pyIsSpace = cs := by
          apply dropWhile_eq_self
          intro x hx
          cases cs with
          | nil => simp at hx
          | cons d ds =>
            rw [List.head?_cons, Option.some.injEq] at hx
            rw [show noDoubleSpace (c :: d :: ds)
                  = ((!(pyIsSpace c && pyIsSpace d)) && noDoubleSpace (d :: ds)) from rfl] at h2
            have hnd := (Bool.and_eq_true_iff.mp h2).1
            rw [hc] at hnd
            simp only [Bool.true_and] at hnd
            rw [← hx]
            simpa using hnd
        rw [hdw, ih h1t (noDoubleSpace_tail h2), hcsp]
      · simp only [hc, Bool.false_eq_true, if_neg, not_false_iff]
        rw [ih h1t (noDoubleSpace_tail h2)]

/-- A non-match position stays a non-match through the whitespace
collapser. -/
theorem isHttpAt_collapseWsF {f : Nat} {c : Char} {cs : List Char}
    (h : isHttpAt (c :: cs) = false) : isHttpAt (c :: collapseWsF f cs) = false := by
  by_contra hbad
  rcases (isHttpAt_iff _).mp (Bool.of_not_eq_false hbad) with ⟨e, rest, heq, he⟩
  obtain ⟨rfl, hout⟩ := List.cons.injEq _ _ _ _ ▸ heq
  obtain ⟨g1, cs1, rfl, hout1⟩ := collapse_uncons hout (by decide)
  obtain ⟨g2, cs2, rfl, hout2⟩ := collapse_uncons hout1 (by decide)
  obtain ⟨g3, cs3, rfl, hout3⟩ := collapse_uncons hout2 (by decide)
  obtain ⟨g4, cs4, rfl, -⟩ := collapse_uncons hout3 he
  have : isHttpAt ('h' :: 't' :: 't' :: 'p' :: e :: cs4) = true :=
    (isHttpAt_iff _).mpr ⟨e, cs4, rfl, he⟩
  rw [h] at this
  exact Bool.false_ne_true this

/-- The whitespace collapser preserves the absence of `http\S+` match
positions. -/
theorem hasBadHttp_collapseWsF :
    ∀ {f : Nat} {l : List Char}, l.length ≤ f → hasBadHttp l = false →
      hasBadHttp (collapseWsF f l) = false := by
  intro f
  induction f with
  | zero =>
    intro l hf _
    have hl : l = [] := by cases l <;> simp_all
    subst hl
    rfl
  | succ f ih =>
    intro l hf h
    match l with
    | [] => rfl
    | c :: cs =>
      simp only [List.length_cons] at hf
      have hdrop := (cs.dropWhile_sublist pyIsSpace).length_le
      rw [show collapseWsF (f + 1) (c :: cs)
            = if pyIsSpace c then ' ' :: collapseWsF f (cs.dropWhile pyIsSpace)
              else c :: collapseWsF f cs from rfl]
      by_cases hc : pyIsSpace c
      · simp only [hc, if_pos]
        rw [show hasBadHttp (' ' :: collapseWsF f (cs.dropWhile pyIsSpace))
              = (isHttpAt (' ' :: collapseWsF f (cs.dropWhile pyIsSpace))
                 || hasBadHttp (collapseWsF f (cs.dropWhile pyIsSpace))) from rfl]
        have hsp : isHttpAt (' ' :: collapseWsF f (cs.dropWhile pyIsSpace)) = false := by
          by_contra hx
          have := isHttpAt_head (Bool.of_not_eq_false hx)
          exact absurd this (by decide)
        rw [hsp, ih (by omega) (hasBadHttp_dropWhile (hasBadHttp_tail h))]
        rfl
      · simp only [hc, Bool.false_eq_true, if_neg, not_false_iff]
        rw [show hasBadHttp (c :: collapseWsF f cs)
              = (isHttpAt (c :: collapseWsF f cs) || hasBadHttp (collapseWsF f cs)) from rfl]
        rw [isHttpAt_collapseWsF (isHttpAt_of_head h), ih (by omega) (hasBadHttp_tail h)]
        rfl

/-- `str.strip` only removes characters from the two ends: the stripped list
sits contiguously inside the original. -/
theorem pyStripList_decomp (l : List Char) :
    ∃ l1 l2, l = l1 ++ pyStripList l ++ l2 := by
  refine ⟨l.takeWhile pyIsSpace,
    ((l.dropWhile pyIsSpace).reverse.takeWhile pyIsSpace).reverse, ?_⟩
  have h1 : l.takeWhile pyIsSpace ++ l.dropWhile pyIsSpace = l :=
    List.takeWhile_append_dropWhile ..
  have h2 : (l.dropWhile pyIsSpace).reverse.takeWhile pyIsSpace ++
      (l.dropWhile pyIsSpace).reverse.dropWhile pyIsSpace = (l.dropWhile pyIsSpace).reverse :=
    List.takeWhile_append_dropWhile ..
  have h3 : ((l.dropWhile pyIsSpace).reverse.dropWhile pyIsSpace).reverse ++
      ((l.dropWhile pyIsSpace).reverse.takeWhile pyIsSpace).reverse = l.dropWhile pyIsSpace := by
    have h4 := congrArg List.reverse h2
    rw [List.reverse_append, List.reverse_reverse] at h4
    exact h4
  conv_lhs => rw [← h1, ← h3]
  simp [pyStripList, List.append_assoc]

/-- The head of a stripped list is not whitespace. -/
theorem pyStripList_head {l : List Char} {c : Char}
    (h : (pyStripList l).head? = some c) : pyIsSpace c = false := by
  rw [pyStripList, List.head?_reverse] at h
  have hz : (l.dropWhile pyIsSpace).reverse.dropWhile pyIsSpace ≠ [] := by
    intro hnil
    rw [hnil] at h
    exact Option.noConfusion h
  have h2 : (l.dropWhile pyIsSpace).reverse.takeWhile pyIsSpace ++
      (l.dropWhile pyIsSpace).reverse.dropWhile pyIsSpace = (l.dropWhile pyIsSpace).reverse :=
    List.takeWhile_append_dropWhile ..
  have h3 : (l.dropWhile pyIsSpace).reverse.getLast? = some c := by
    rw [← h2, List.getLast?_append_of_ne_nil _ hz]
    exact h
  rw [List.getLast?_reverse] at h3
  exact head_of_dropWhile h3

/-- The last character of a stripped list is not whitespace. -/
theorem pyStripList_last {l : List Char} {c : Char}
    (h : (pyStripList l).getLast? = some c) : pyIsSpace c = false := by
  rw [pyStripList, List.getLast?_reverse] at h
  exact head_of_dropWhile h

/-- `str.strip` is the identity when neither end is whitespace. -/
theorem pyStripList_self {l : List Char}
    (hh : ∀ c, l.head? = some c → pyIsSpace c = false)
    (hl : ∀ c, l.getLast? = some c → pyIsSpace c = false) : pyStripList l = l := by
  rw [pyStripList, dropWhile_eq_self hh]
  rw [dropWhile_eq_self (p := pyIsSpace) (l := l.reverse) ?_]
  · exact List.reverse_reverse l
  · intro c hc
    rw [List.head?_reverse] at hc
    exact hl c hc

theorem pyStripList_idem (l : List Char) :
    pyStripList (pyStripList l) = pyStripList l :=
  pyStripList_self (fun _ h => pyStripList_head h) (fun _ h => pyStripList_last h)

/-- Fuelled scanner producing the maximal whitespace-separated tokens of a
list (the runs of non-whitespace characters). -/
def tokensOfF : Nat → List Char → List (List Char)
  | _, [] => []
  | 0, _ => []
  | f + 1, c :: cs =>
    if pyIsSpace c then
      tokensOfF f cs
    else
      (c :: cs.takeWhile (fun d => !pyIsSpace d)) ::
        tokensOfF f (cs.dropWhile (fun d => !pyIsSpace d))

/-- The whitespace-separated tokens of a list. -/
def wsTokens (l : List Char) : List (List Char) :=
  tokensOfF l.length l

/-- Every token is a contiguous part of the input. -/
theorem tokensOfF_part :
    ∀ {f : Nat} {l t : List Char}, t ∈ tokensOfF f l → ∃ l1 l2, l = l1 ++ t ++ l2 := by
  intro f
  induction f with
  | zero =>
    intro l t ht
    cases l <;> simp [tokensOfF] at ht
  | succ f ih =>
    intro l t ht
    match l with
    | [] => simp [tokensOfF] at ht
    | c :: cs =>
      rw [show tokensOfF (f + 1) (c :: cs)
            = if pyIsSpace c then tokensOfF f cs
              else (c :: cs.takeWhile (fun d => !pyIsSpace d)) ::
                tokensOfF f (cs.dropWhile (fun d => !pyIsSpace d)) from rfl] at ht
      by_cases hc : pyIsSpace c
      · simp only [hc, if_pos] at ht
        obtain ⟨l1, l2, heq⟩ := ih ht
        exact ⟨c :: l1, l2, by rw [heq]; simp⟩
      · simp only [hc, Bool.false_eq_true, if_neg, not_false_iff, List.mem_cons] at ht
        rcases ht with rfl | ht
        · refine ⟨[], cs.dropWhile (fun d => !pyIsSpace d), ?_⟩
          have hsp := List.takeWhile_append_dropWhile (p := fun d => !pyIsSpace d) (l := cs)
          simp only [List.nil_append, List.cons_append]
          rw [hsp]
        · obtain ⟨l1, l2, heq⟩ := ih ht
          refine ⟨c :: (cs.takeWhile (fun d => !pyIsSpace d) ++ l1), l2, ?_⟩
          have hsplit := List.takeWhile_append_dropWhile (p := fun d => !pyIsSpace d) (l := cs)
          conv_lhs => rw [← hsplit, heq]
          simp [List.append_assoc]

/-- Every character of a token is non-whitespace. -/
theorem tokensOfF_nonspace :
    ∀ {f : Nat} {l t : List Char}, t ∈ tokensOfF f l → ∀ x ∈ t, pyIsSpace x = false := by
  intro f
  induction f with
  | zero =>
    intro l t ht
    cases l <;> simp [tokensOfF] at ht
  | succ f ih =>
    intro l t ht
    match l with
    | [] => simp [tokensOfF] at ht
    | c :: cs =>
      rw [show tokensOfF (f + 1) (c :: cs)
            = if pyIsSpace c then tokensOfF f cs
              else (c :: cs.takeWhile (fun d => !pyIsSpace d)) ::
                tokensOfF f (cs.dropWhile (fun d => !pyIsSpace d)) from rfl] at ht
      by_cases hc : pyIsSpace c
      · simp only [hc, if_pos] at ht
        exact ih ht
      · simp only [hc, Bool.false_eq_true, if_neg, not_false_iff, List.mem_cons] at ht
        rcases ht with rfl | ht
        · intro x hx
          rcases List.mem_cons.mp hx with rfl | hx
          · exact Bool.of_not_eq_true hc
          · have := List.mem_takeWhile_imp hx
            simpa using this
        · exact ih ht

/-- The behaviour the claim asserts of `normalize_text`, built from the
claim's own words: remove every whitespace-delimited token beginning with
`http`, collapse whitespace runs, trim (the tokens are rejoined with single
spaces). -/
def normalizeSpec (s : String) : String :=
  ⟨List.intercalate [' ']
    ((wsTokens s.data).filter (fun t => !(t.take 4 == ['h', 't', 't', 'p'])))⟩

/-- The three invariants of `normalize_text` output: no surviving `http\S+`
match position, fully collapsed whitespace, and trimmed ends. -/
theorem normalize_text_invariants (s : String) :
    hasBadHttp (normalize_text s).data = false ∧
    onlyPlainSpaces (normalize_text s).data = true ∧
    noDoubleSpace (normalize_text s).data = true ∧
    pyStripList (normalize_text s).data = (normalize_text s).data := by
  have hx : (normalize_text s).data = pyStripList (collapseWs (stripHttp s.data)) := rfl
  obtain ⟨l1, l2, hdec⟩ := pyStripList_decomp (collapseWs (stripHttp s.data))
  have hbady : hasBadHttp (collapseWs (stripHttp s.data)) = false :=
    hasBadHttp_collapseWsF le_rfl (hasBadHttp_stripHttp s.data)
  have hop : onlyPlainSpaces (collapseWs (stripHttp s.data)) = true :=
    onlyPlainSpaces_collapseWsF le_rfl
  have hnd : noDoubleSpace (collapseWs (stripHttp s.data)) = true :=
    noDoubleSpace_collapseWsF le_rfl
  rw [hdec] at hbady hop hnd
  refine ⟨?_, ?_, ?_, ?_⟩
  · rw [hx]
    rw [List.append_assoc] at hbady
    exact hasBadHttp_append_left (hasBadHttp_append_right hbady)
  · rw [hx]
    simp only [onlyPlainSpaces, List.all_append, Bool.and_eq_true] at hop
    exact hop.1.2
  · rw [hx]
    rw [List.append_assoc] at hnd
    exact noDoubleSpace_append_left (noDoubleSpace_append_right hnd)
  · rw [hx]
    exact pyStripList_idem _

/-- C8 counterexample: the claim defines an http(s)-URL token as "a
contiguous run of non-whitespace characters beginning with `http`" and
asserts every such token is stripped.  The bare token `http` is such a run,
but `re.sub(r"http\S+", "", ...)` requires at least one non-whitespace
character after `http`, so `normalize_text "http"` keeps the token instead
of producing the empty string demanded by the claim (`normalizeSpec`, the
claim's own words, strips it). -/
theorem c8_counterexample :
    normalize_text "http" = "http" ∧ normalizeSpec "http" = "" := by
  constructor
  · decide
  · decide

/-- C8 (amended): `normalize_text` strips every http(s)-URL token that has at
least one character after the `http` head (equivalently, every
whitespace-delimited token of the output that begins with `http` is the bare
word `http`, and no `http` in the output is followed by a non-whitespace
character), collapses every whitespace run to a single plain space, and trims
both ends; in particular
`normalize_text "check https://x.co now  now" = "check now now"`. -/
theorem c8_normalize_strips_http_and_collapses :
    normalize_text "check https://x.co now  now" = "check now now" ∧
    ∀ s : String,
      (∀ t ∈ wsTokens (normalize_text s).data,
          t.take 4 = ['h', 't', 't', 'p'] → t = ['h', 't', 't', 'p']) ∧
      hasBadHttp (normalize_text s).data = false ∧
      onlyPlainSpaces (normalize_text s).data = true ∧
      noDoubleSpace (normalize_text s).data = true ∧
      pyStripList (normalize_text s).data = (normalize_text s).data := by
  refine ⟨by decide, ?_⟩
  intro s
  obtain ⟨hbad, hop, hnd, htrim⟩ := normalize_text_invariants s
  refine ⟨?_, hbad, hop, hnd, htrim⟩
  intro t ht htake
  by_contra htne
  obtain ⟨l1, l2, hdec⟩ := tokensOfF_part ht
  have hsplit : t = t.take 4 ++ t.drop 4 := (List.take_append_drop 4 t).symm
  rw [htake] at hsplit
  rcases hdrop : t.drop 4 with _ | ⟨e, rest⟩
  · rw [hdrop] at hsplit
    simp only [List.append_nil] at hsplit
    exact htne hsplit
  · rw [hdrop] at hsplit
    have he : pyIsSpace e = false := by
      refine tokensOfF_nonspace ht e ?_
      rw [hsplit]
      simp
    have : hasBadHttp (normalize_text s).data = true := by
      rw [hdec, hsplit]
      have := hasBadHttp_of_mid l1 rest l2 he
      simpa using this
    rw [hbad] at this
    exact Bool.noConfusion this

/-- C9: `normalize_text` is idempotent.  One pass leaves no `http` followed
by a non-whitespace character, only single plain spaces, and trimmed ends, so
the second pass's three stages are each the identity. -/
theorem c9_normalize_text_idempotent (s : String) :
    normalize_text (normalize_text s) = normalize_text s := by
  obtain ⟨hbad, hop, hnd, htrim⟩ := normalize_text_invariants s
  show (⟨pyStripList (collapseWs (stripHttp (normalize_text s).data))⟩ : String)
      = normalize_text s
  rw [show stripHttp (normalize_text s).data = (normalize_text s).data from
      stripHttp_self hbad]
  rw [show collapseWs (normalize_text s).data = (normalize_text s).data from
      collapseWsF_self hop hnd]
  rw [htrim]

/-- Witness for the amended C8 theorem: in `normalize_text "a http b"` the
bare token `http` survives, and the theorem's token clause applies to it. -/
theorem c8_witness :
    "http".data ∈ wsTokens (normalize_text "a http b").data ∧
    "http".data = ['h', 't', 't', 'p'] :=
  ⟨by decide,
   (c8_normalize_strips_http_and_collapses.2 "a http b").1 "http".data
     (by decide) (by decide)⟩

/-- A Python `datetime.datetime`: proleptic-Gregorian date and time with an
optional fixed UTC offset in minutes (`tz = none` is a naive datetime).
Microseconds are not modelled (no caller uses them). -/
structure PyDateTime where
  year : Int
  month : Nat
  day : Nat
  hour : Nat
  minute : Nat
  second : Nat
  tz : Option Int
deriving DecidableEq

/-- A Python `datetime.date`. -/
structure PyDate where
  year : Int
  month : Nat
  day : Nat
deriving DecidableEq

/-- The leap-year rule used both by `datetime` and by the explicit table in
`parse_activity_date` (`scripts/ingest_linkedin_pdf.py` line 119):
`y % 4 == 0 and (y % 100 != 0 or y % 400 == 0)`. -/
def isLeapYear (y : Int) : Bool :=
  y % 4 = 0 && (y % 100 ≠ 0 || y % 400 = 0)

/-- Month lengths `[31, 29/28, 31, 30, 31, 30, 31, 31, 30, 31, 30, 31]`,
indexed by `month - 1` as in the source's table lookup. -/
def monthLengthTable (y : Int) (month : Nat) : Nat :=
  [31, if isLeapYear y then 29 else 28,
   31, 30, 31, 30, 31, 31, 30, 31, 30, 31].getD (month - 1) 0

/-- The `datetime` constructor: validates ranges and otherwise raises
(`none`). -/
def mkDateTime (y : Int) (mo d h mi sec : Nat) (tz : Option Int) : Option PyDateTime :=
  if 1 ≤ y ∧ y ≤ 9999 ∧ 1 ≤ mo ∧ mo ≤ 12 ∧ 1 ≤ d ∧ d ≤ monthLengthTable y mo ∧
      h ≤ 23 ∧ mi ≤ 59 ∧ sec ≤ 59 then
    some ⟨y, mo, d, h, mi, sec, tz⟩
  else
    none

def digitsToNat (l : List Char) : Nat :=
  l.foldl (fun a c => a * 10 + (c.toNat - 48)) 0

def allDigits (l : List Char) : Bool :=
  !l.isEmpty && l.all Char.isDigit

/-- Split on a separator character, keeping empty segments. -/
def splitOnChar (sep : Char) (l : List Char) : List (List Char) :=
  l.foldr
    (fun c acc =>
      if c = sep then [] :: acc
      else
        match acc with
        | [] => [[c]]
        | h :: t => (c :: h) :: t)
    [[]]

/-- Accumulator of `strptime` directive results (CPython `_strptime`):
absent fields keep their documented defaults (1900-01-01 00:00:00, naive). -/
structure StrpAcc where
  y : Option Int := none
  mon : Option Nat := none
  d : Option Nat := none
  h : Option Nat := none
  mi : Option Nat := none
  sec : Option Nat := none
  h12 : Option Nat := none
  pm : Option Bool := none
  tzmin : Option Int := none

def charVal (c : Char) : Nat := c.toNat - 48

/-- CPython `%m`/`%I` regex `1[0-2]|0[1-9]|[1-9]`. -/
def scanMonthNum : List Char → Option (Nat × List Char)
  | a :: b :: rest =>
    if a = '1' ∧ '0' ≤ b ∧ b ≤ '2' then some (10 + charVal b, rest)
    else if a = '0' ∧ '1' ≤ b ∧ b ≤ '9' then some (charVal b, rest)
    else if '1' ≤ a ∧ a ≤ '9' then some (charVal a, b :: rest)
    else none
  | [a] => if '1' ≤ a ∧ a ≤ '9' then some (charVal a, []) else none
  | [] => none

/-- CPython `%d` regex `3[01]|[12]\d|0[1-9]|[1-9]`. -/
def scanDayNum : List Char → Option (Nat × List Char)
  | a :: b :: rest =>
    if a = '3' ∧ ('0' = b ∨ b = '1') then some (30 + charVal b, rest)
    else if ('1' = a ∨ a = '2') ∧ b.isDigit then some (10 * charVal a + charVal b, rest)
    else if a = '0' ∧ '1' ≤ b ∧ b ≤ '9' then some (charVal b, rest)
    else if '1' ≤ a ∧ a ≤ '9' then some (charVal a, b :: rest)
    else none
  | [a] => if '1' ≤ a ∧ a ≤ '9' then some (charVal a, []) else none
  | [] => none

/-- CPython `%H` regex `2[0-3]|[0-1]\d|\d`. -/
def scanHourNum : List Char → Option (Nat × List Char)
  | a :: b :: rest =>
    if a = '2' ∧ '0' ≤ b ∧ b ≤ '3' then some (20 + charVal b, rest)
    else if ('0' = a ∨ a = '1') ∧ b.isDigit then some (10 * charVal a + charVal b, rest)
    else if a.isDigit then some (charVal a, b :: rest)
    else none
  | [a] => if a.isDigit then some (charVal a, []) else none
  | [] => none

/-- CPython `%M`/`%S` regex `[0-5]\d|\d`. -/
def scanMinSec : List Char → Option (Nat × List Char)
  | a :: b :: rest =>
    if '0' ≤ a ∧ a ≤ '5' ∧ b.isDigit then some (10 * charVal a + charVal b, rest)
    else if a.isDigit then some (charVal a, b :: rest)
    else none
  | [a] => if a.isDigit then some (charVal a, []) else none
  | [] => none

/-- Exactly four digits (`%Y`). -/
def scanYear4 : List Char → Option (Int × List Char)
  | a :: b :: c :: d :: rest =>
    if a.isDigit ∧ b.isDigit ∧ c.isDigit ∧ d.isDigit then
      some ((digitsToNat [a, b, c, d] : Nat), rest)
    else none
  | _ => none

def monthAbbrevs : List String :=
  ["jan", "feb", "mar", "apr", "may", "jun", "jul", "aug", "sep", "oct", "nov", "dec"]

def monthFullNames : List String :=
  ["january", "february", "march", "april", "may", "june", "july",
   "august", "september", "october", "november", "december"]

def lowerStr (l : List Char) : String :=
  ⟨l.map Char.toLower⟩

/-- `%b`: a month-name abbreviation, case-insensitively. -/
def scanMonthAbbrev (inp : List Char) : Option (Nat × List Char) :=
  (monthAbbrevs.findIdx? (fun name => name = lowerStr (inp.take 3))).map
    (fun i => (i + 1, inp.drop 3))

/-- `%p`: `AM`/`PM`, case-insensitively. -/
def scanAmPm (inp : List Char) : Option (Bool × List Char) :=
  if lowerStr (inp.take 2) = "am" then some (false, inp.drop 2)
  else if lowerStr (inp.take 2) = "pm" then some (true, inp.drop 2)
  else none

/-- `%z`: `[+-]HH[:]MM` (an optional trailing seconds group is accepted and
ignored) or the literal `Z`; offsets of 24 hours or more fail like the
`timezone` constructor does. -/
def scanUtcOffset (inp : List Char) : Option (Int × List Char) :=
  match inp with
  | 'Z' :: rest => some (0, rest)
  | sign :: a :: b :: rest =>
    if (sign = '+' ∨ sign = '-') ∧ a.isDigit ∧ b.isDigit then
      let hh := 10 * charVal a + charVal b
      let scan2 : List Char → Option (Nat × List Char) := fun l =>
        match l with
        | c :: d :: r => if c.isDigit ∧ d.isDigit then some (10 * charVal c + charVal d, r) else none
        | _ => none
      let withMin : Option (Nat × List Char) :=
        match rest with
        | ':' :: r2 => scan2 r2
        | _ => scan2 rest
      match withMin with
      | none => none
      | some (mm, r3) =>
        let r4 :=
          match r3 with
          | ':' :: c :: d :: r5 => if c.isDigit ∧ d.isDigit then r5 else r3
          | _ => r3
        if hh * 60 + mm < 24 * 60 then
          some ((if sign = '-' then -(hh * 60 + mm : Int) else (hh * 60 + mm : Int)), r4)
        else none
    else none
  | _ => none

/-- `%Z`: the recognised timezone names (`UTC`/`GMT`, case-insensitively);
the matched name does not make the result timezone-aware. -/
def scanTzName (inp : List Char) : Option (List Char) :=
  if lowerStr (inp.take 3) = "utc" ∨ lowerStr (inp.take 3) = "gmt" then
    some (inp.drop 3)
  else none

/-- One `strptime` directive: parse the input head, update the accumulator. -/
def strpDirective (d : Char) (inp : List Char) (acc : StrpAcc) :
    Option (StrpAcc × List Char) :=
  match d with
  | 'Y' => (scanYear4 inp).map (fun p => ({ acc with y := some p.1 }, p.2))
  | 'm' => (scanMonthNum inp).map (fun p => ({ acc with mon := some p.1 }, p.2))
  | 'd' => (scanDayNum inp).map (fun p => ({ acc with d := some p.1 }, p.2))
  | 'H' => (scanHourNum inp).map (fun p => ({ acc with h := some p.1 }, p.2))
  | 'I' => (scanMonthNum inp).map (fun p => ({ acc with h12 := some p.1 }, p.2))
  | 'M' => (scanMinSec inp).map (fun p => ({ acc with mi := some p.1 }, p.2))
  | 'S' => (scanMinSec inp).map (fun p => ({ acc with sec := some p.1 }, p.2))
  | 'b' => (scanMonthAbbrev inp).map (fun p => ({ acc with mon := some p.1 }, p.2))
  | 'p' => (scanAmPm inp).map (fun p => ({ acc with pm := some p.1 }, p.2))
  | 'z' => (scanUtcOffset inp).map (fun p => ({ acc with tzmin := some p.1 }, p.2))
  | 'Z' => (scanTzName inp).map (fun rest => (acc, rest))
  | _ => none

/-- The `strptime` matcher: walk the format; `%x` runs a directive, a
whitespace character in the format matches one-or-more whitespace characters
(as CPython compiles it), any other character matches itself, and the whole
input must be consumed. -/
def strpGo : List Char → List Char → StrpAcc → Option StrpAcc
  | [], inp, acc => if inp.isEmpty then some acc else none
  | '%' :: d :: fmtRest, inp, acc =>
    match strpDirective d inp acc with
    | none => none
    | some (acc2, inpRest) => strpGo fmtRest inpRest acc2
  | c :: fmtRest, inp, acc =>
    if pyIsSpace c then
      match inp with
      | i :: irest =>
        if pyIsSpace i then strpGo fmtRest (irest.dropWhile pyIsSpace) acc else none
      | [] => none
    else
      match inp with
      | i :: irest => if i = c then strpGo fmtRest irest acc else none
      | [] => none

/-- `datetime.strptime(cleaned, fmt)` restricted to the directives used by
`parse_date`'s format list, modelling CPython `_strptime` (including the
`%I`/`%p` hour resolution and the constructor's range validation). -/
def strptimeModel (fmt : String) (l : List Char) : Option PyDateTime :=
  match strpGo fmt.data l {} with
  | none => none
  | some acc =>
    let hour : Nat :=
      match acc.h12 with
      | some h12 =>
        match acc.pm with
        | some true => if h12 ≠ 12 then h12 + 12 else 12
        | _ => if h12 = 12 then 0 else h12
      | none => acc.h.getD 0
    mkDateTime (acc.y.getD 1900) (acc.mon.getD 1) (acc.d.getD 1) hour
      (acc.mi.getD 0) (acc.sec.getD 0) acc.tzmin

/-- Fuelled scanner for Python `str.replace(pat, rep)`: leftmost,
non-overlapping, all occurrences.  (All call sites use a non-empty
pattern.) -/
def replaceAllF : Nat → List Char → List Char → List Char → List Char
  | _, _, _, [] => []
  | 0, _, _, l => l
  | f + 1, pat, rep, c :: cs =>
    if !pat.isEmpty && pat.isPrefixOf (c :: cs) then
      rep ++ replaceAllF f pat rep ((c :: cs).drop pat.length)
    else
      c :: replaceAllF f pat rep cs

/-- Python `str.replace`. -/
def pyReplace (s pat rep : String) : String :=
  ⟨replaceAllF s.data.length pat.data rep.data s.data⟩

/-- The cleaning prefix of `parse_date` (`app/nithin_corpus_utils.py` lines
46-47): strip, drop the mojibake `Â·` separator, the no-op `UTC`
replacement, and squeeze double spaces once. -/
def cleanDateString (s : String) : String :=
  pyReplace (pyReplace (pyReplace (pyStrip s) "Â·" "") "UTC" "UTC") "  " " "

def dayNames : List String :=
  ["mon", "tue", "wed", "thu", "fri", "sat", "sun"]

/-- A month-name token (abbreviated or full, case-insensitively) as accepted
by `email.utils`. -/
def monthFromName (t : List Char) : Option Nat :=
  match monthAbbrevs.findIdx? (fun name => name = lowerStr t) with
  | some i => some (i + 1)
  | none =>
    match monthFullNames.findIdx? (fun name => name = lowerStr t) with
    | some i => some (i + 1)
    | none => none

/-- RFC-2822 two-digit years: `yy > 68` is 19yy, otherwise 20yy. -/
def rfcYear (n : Nat) : Int :=
  if n < 100 then (if n > 68 then n + 1900 else n + 2000) else n

/-- The `HH:MM[:SS]` time token of an RFC-2822 date. -/
def parseRfcTime (t : List Char) : Option (Nat × Nat × Nat) :=
  match splitOnChar ':' t with
  | [hh, mm] =>
    if allDigits hh ∧ allDigits mm then some (digitsToNat hh, digitsToNat mm, 0) else none
  | [hh, mm, ss] =>
    if allDigits hh ∧ allDigits mm ∧ allDigits ss then
      some (digitsToNat hh, digitsToNat mm, digitsToNat ss)
    else none
  | _ => none

/-- An RFC-2822 zone token: `±HHMM` gives an offset; the zero zone names give
UTC; an unknown alphabetic name gives a naive result (as
`email.utils.parsedate_tz` reports no offset for it). -/
def parseRfcZone (t : List Char) : Option (Option Int) :=
  match t with
  | sign :: rest =>
    if (sign = '+' ∨ sign = '-') ∧ allDigits rest ∧ rest.length = 4 then
      let hh := digitsToNat (rest.take 2)
      let mm := digitsToNat (rest.drop 2)
      some (some (if sign = '-' then -(hh * 60 + mm : Int) else (hh * 60 + mm : Int)))
    else if lowerStr t = "ut" ∨ lowerStr t = "utc" ∨ lowerStr t = "gmt" ∨ lowerStr t = "z" then
      some (some 0)
    else if !t.isEmpty && t.all Char.isAlpha then
      some none
    else none
  | [] => none

/-- Model of the stdlib collaborator `email.utils.parsedate_to_datetime`,
restricted to the common RFC-2822 shapes `[Day[,]] DD Mon YYYY [HH:MM[:SS]]
[zone]` (with the day/month swap `Mon DD ...` that `parsedate_tz` also
accepts).  Anything else — in particular any one- or two-token string — is a
parse failure, as the stdlib raises and `parse_date` catches. -/
def rfc2822Model (l : List Char) : Option PyDateTime :=
  let toks := wsTokens l
  let toks :=
    match toks with
    | t :: rest =>
      if t.getLast? = some ',' ∨ dayNames.contains (lowerStr t) then rest else t :: rest
    | [] => []
  match toks with
  | t1 :: t2 :: t3 :: rest =>
    let (dd, mm) := if (t1.head?.map Char.isDigit).getD false then (t1, t2) else (t2, t1)
    match monthFromName mm with
    | none => none
    | some month =>
      if allDigits dd ∧ allDigits t3 then
        let day := digitsToNat dd
        let year := rfcYear (digitsToNat t3)
        match rest with
        | [] => mkDateTime year month day 0 0 0 none
        | tTok :: rest2 =>
          match parseRfcTime tTok with
          | none => none
          | some (h, mi, sec) =>
            match rest2 with
            | [] => mkDateTime year month day h mi sec none
            | [zTok] =>
              match parseRfcZone zTok with
              | none => none
              | some tz => mkDateTime year month day h mi sec tz
            | _ => none
      else none
  | _ => none

/-- The `HH:MM[:SS[.fff[fff]]][±HH:MM[:SS]]` time-and-offset tail of the
CPython 3.10 `fromisoformat` grammar.  Fractional seconds are validated (3
or 6 digits) and dropped (microseconds are not modelled). -/
def parseIsoTimeTail (t : List Char) : Option (Nat × Nat × Nat × Option Int) :=
  let digits2 : List Char → Option (Nat × List Char) := fun l =>
    match l with
    | a :: b :: r => if a.isDigit ∧ b.isDigit then some (10 * charVal a + charVal b, r) else none
    | _ => none
  match digits2 t with
  | none => none
  | some (h, r1) =>
    match r1 with
    | ':' :: r2 =>
      match digits2 r2 with
      | none => none
      | some (mi, r3) =>
        let secPart : Option (Nat × List Char) :=
          match r3 with
          | ':' :: r4 =>
            match digits2 r4 with
            | none => none
            | some (sec, r5) =>
              match r5 with
              | '.' :: r6 =>
                let fr := r6.takeWhile Char.isDigit
                if fr.length = 3 ∨ fr.length = 6 then some (sec, r6.drop fr.length) else none
              | _ => some (sec, r5)
          | _ => some (0, r3)
        match secPart with
        | none => none
        | some (sec, r7) =>
          match r7 with
          | [] => some (h, mi, sec, none)
          | sign :: r8 =>
            if sign = '+' ∨ sign = '-' then
              match digits2 r8 with
              | none => none
              | some (oh, r9) =>
                match r9 with
                | ':' :: r10 =>
                  match digits2 r10 with
                  | none => none
                  | some (om, r11) =>
                    let r12 :=
                      match r11 with
                      | ':' :: r13 =>
                        match digits2 r13 with
                        | none => r11
                        | some (_, r14) => r14
                      | _ => r11
                    if r12.isEmpty then
                      some (h, mi, sec,
                        some (if sign = '-' then -(oh * 60 + om : Int) else (oh * 60 + om : Int)))
                    else none
                | _ => none
            else none
    | _ => none

/-- Model of the stdlib collaborator `datetime.fromisoformat` (the strict
CPython 3.10 grammar): `YYYY-MM-DD`, optionally followed by one separator
character and `HH:MM[:SS[.fff[fff]]][±HH:MM[:SS]]`. -/
def isoModel (l : List Char) : Option PyDateTime :=
  match l with
  | y1 :: y2 :: y3 :: y4 :: '-' :: m1 :: m2 :: '-' :: d1 :: d2 :: rest =>
    if y1.isDigit ∧ y2.isDigit ∧ y3.isDigit ∧ y4.isDigit ∧
        m1.isDigit ∧ m2.isDigit ∧ d1.isDigit ∧ d2.isDigit then
      let y : Int := (digitsToNat [y1, y2, y3, y4] : Nat)
      let mo := 10 * charVal m1 + charVal m2
      let d := 10 * charVal d1 + charVal d2
      match rest with
      | [] => mkDateTime y mo d 0 0 0 none
      | _sep :: t =>
        match parseIsoTimeTail t with
        | none => none
        | some (h, mi, sec, tz) => mkDateTime y mo d h mi sec tz
    else none
  | _ => none

/-- The format list of `parse_date` (`app/nithin_corpus_utils.py` lines
65-80). -/
def pyDateFormats : List String :=
  ["%Y-%m-%d",
   "%Y-%m-%d %H:%M:%S",
   "%Y-%m-%d %H:%M:%S %z",
   "%Y-%m-%d %H:%M:%S %Z",
   "%Y-%m-%d %H:%M",
   "%b %d, %Y",
   "%b %d, %Y %H:%M",
   "%b %d, %Y %I:%M %p",
   "%b %d, %Y %I:%M %p %Z",
   "%d %b %Y",
   "%d %b %Y %H:%M",
   "%d %b %Y %I:%M %p",
   "%m/%d/%Y",
   "%d/%m/%Y"]

/-- The `for fmt in formats` loop: first format that parses wins. -/
def tryFormats : List String → List Char → Option PyDateTime
  | [], _ => none
  | fmt :: rest, l =>
    match strptimeModel fmt l with
    | some dt => some dt
    | none => tryFormats rest l

/-- `dt if dt.tzinfo else dt.replace(tzinfo=timezone.utc)`. -/
def utcDefault (dt : PyDateTime) : PyDateTime :=
  { dt with tz := some (dt.tz.getD 0) }

/-- `parse_date` (`app/nithin_corpus_utils.py` lines 42-89): falsy guard,
cleaning, then the cascade RFC-2822 → ISO (with `Z` mapped to `+00:00`) →
the fixed `strptime` format list; the first success wins and naive results
are assumed UTC. -/
def parse_date (value : Option String) : Option PyDateTime :=
  match value with
  | none => none
  | some v =>
    if v = "" then none
    else
      let cleaned := cleanDateString v
      match rfc2822Model cleaned.data with
      | some dt => some (utcDefault dt)
      | none =>
        match isoModel (pyReplace cleaned "Z" "+00:00").data with
        | some dt => some (utcDefault dt)
        | none =>
          match tryFormats pyDateFormats cleaned.data with
          | some dt => some (utcDefault dt)
          | none => none

example : parse_date (some "2024-03-05T06:07:08Z") = some ⟨2024, 3, 5, 6, 7, 8, some 0⟩ := by
  decide
example : parse_date (some "2024-01-02") = some ⟨2024, 1, 2, 0, 0, 0, some 0⟩ := by decide
example : parse_date (some "") = none := by decide
example : parse_date none = none := by decide
example : parse_date (some "not a date at all") = none := by decide
example : parse_date (some "Jan 5, 2024 7:03 PM") = some ⟨2024, 1, 5, 19, 3, 0, some 0⟩ := by
  decide
example : parse_date (some "Mon, 20 Nov 1995 19:12:08 -0500")
    = some ⟨1995, 11, 20, 19, 12, 8, some (-300)⟩ := by decide
example : parse_date (some "1mo") = none := by decide
example : parse_date (some "1y") = none := by decide
example : parse_date (some "2024-02-30") = none := by decide

/-- First non-`none` result of an ordered parser cascade (the spec's
"ordered list of independent parser functions; first non-empty result
short-circuits"). -/
def firstSome : List (Option PyDateTime) → Option PyDateTime
  | [] => none
  | some x :: _ => some x
  | none :: rest => firstSome rest

/-- The ordered parser list of `parse_date`: RFC-2822 first, then ISO-8601
with a trailing `Z` mapped to `+00:00`, then the fixed `strptime`
patterns. -/
def dateParserList : List (String → Option PyDateTime) :=
  (fun c => rfc2822Model c.data) ::
    (fun c => isoModel (pyReplace c "Z" "+00:00").data) ::
    pyDateFormats.map (fun fmt => fun c => strptimeModel fmt c.data)

theorem tryFormats_eq_firstSome (fmts : List String) (l : List Char) :
    tryFormats fmts l = firstSome (fmts.map (fun fmt => strptimeModel fmt l)) := by
  induction fmts with
  | nil => rfl
  | cons fmt rest ih =>
    rw [show tryFormats (fmt :: rest) l
          = (match strptimeModel fmt l with
             | some dt => some dt
             | none => tryFormats rest l) from rfl]
    rcases h : strptimeModel fmt l with _ | dt
    · simp only [List.map_cons, h, firstSome, ih]
    · simp only [List.map_cons, h, firstSome]

/-- C4: the Temporal Normalizer `parse_date` is total — for every input
(including `None`, the empty string and garbage) it returns either a
timezone-aware datetime or no match, never an exception (the embedding is a
total function and every returned value carries an offset); the format
cascade is the ordered parser list — RFC-2822 style first, then ISO-8601
with trailing `Z` mapped to `+00:00`, then the fixed `strptime` pattern
list — with the first success winning and naive results assumed UTC
(offset 0). -/
theorem c4_parse_date_contract :
    (parse_date none = none ∧ parse_date (some "") = none ∧
      parse_date (some "garbage $$ input") = none ∧
      parse_date (some "2024-03-05T06:07:08Z") = some ⟨2024, 3, 5, 6, 7, 8, some 0⟩) ∧
    (∀ (v : String) (dt : PyDateTime), parse_date (some v) = some dt → dt.tz.isSome = true) ∧
    (∀ v : String, v ≠ "" →
      parse_date (some v)
        = (firstSome (dateParserList.map (fun p => p (cleanDateString v)))).map utcDefault) := by
  refine ⟨⟨by decide, by decide, by decide, by decide⟩, ?_, ?_⟩
  · intro v dt h
    rw [show parse_date (some v)
          = if v = "" then none
            else
              match rfc2822Model (cleanDateString v).data with
              | some d => some (utcDefault d)
              | none =>
                match isoModel (pyReplace (cleanDateString v) "Z" "+00:00").data with
                | some d => some (utcDefault d)
                | none =>
                  match tryFormats pyDateFormats (cleanDateString v).data with
                  | some d => some (utcDefault d)
                  | none => none from rfl] at h
    by_cases hv : v = ""
    · rw [if_pos hv] at h
      exact Option.noConfusion h
    · rw [if_neg hv] at h
      rcases h1 : rfc2822Model (cleanDateString v).data with _ | d1 <;> rw [h1] at h
      · rcases h2 : isoModel (pyReplace (cleanDateString v) "Z" "+00:00").data with _ | d2 <;>
          rw [h2] at h
        · rcases h3 : tryFormats pyDateFormats (cleanDateString v).data with _ | d3 <;>
            rw [h3] at h
          · exact Option.noConfusion h
          · simp only [Option.some.injEq] at h
            rw [← h]
            simp [utcDefault]
        · simp only [Option.some.injEq] at h
          rw [← h]
          simp [utcDefault]
      · simp only [Option.some.injEq] at h
        rw [← h]
        simp [utcDefault]
  · intro v hv
    rw [show parse_date (some v)
          = if v = "" then none
            else
              match rfc2822Model (cleanDateString v).data with
              | some d => some (utcDefault d)
              | none =>
                match isoModel (pyReplace (cleanDateString v) "Z" "+00:00").data with
                | some d => some (utcDefault d)
                | none =>
                  match tryFormats pyDateFormats (cleanDateString v).data with
                  | some d => some (utcDefault d)
                  | none => none from rfl]
    rw [if_neg hv]
    rw [show dateParserList.map (fun p => p (cleanDateString v))
          = rfc2822Model (cleanDateString v).data ::
              isoModel (pyReplace (cleanDateString v) "Z" "+00:00").data ::
              pyDateFormats.map (fun fmt => strptimeModel fmt (cleanDateString v).data) from by
        simp [dateParserList]]
    rcases h1 : rfc2822Model (cleanDateString v).data with _ | d1
    · rcases h2 : isoModel (pyReplace (cleanDateString v) "Z" "+00:00").data with _ | d2
      · rw [firstSome, firstSome, ← tryFormats_eq_firstSome]
        rcases h3 : tryFormats pyDateFormats (cleanDateString v).data with _ | d3 <;> simp
      · simp [firstSome]
    · simp [firstSome]

/-- Witness for C4: the universally quantified clauses applied at a concrete
input. -/
theorem c4_witness :
    ("2024-01-02" : String) ≠ "" ∧
    parse_date (some "2024-01-02")
      = (firstSome (dateParserList.map (fun p => p (cleanDateString "2024-01-02")))).map
          utcDefault ∧
    (⟨2024, 1, 2, 0, 0, 0, some 0⟩ : PyDateTime).tz.isSome = true :=
  ⟨by decide,
   c4_parse_date_contract.2.2 "2024-01-02" (by decide),
   c4_parse_date_contract.2.1 "2024-01-02" ⟨2024, 1, 2, 0, 0, 0, some 0⟩ (by decide)⟩

/-- One calendar day back (proleptic Gregorian), used to model
`datetime - timedelta(days=n)` by iteration. -/
def predDay (dt : PyDateTime) : PyDateTime :=
  if dt.day > 1 then { dt with day := dt.day - 1 }
  else if dt.month > 1 then
    { dt with month := dt.month - 1, day := monthLengthTable dt.year (dt.month - 1) }
  else
    { dt with year := dt.year - 1, month := 12, day := 31 }

/-- `dt - timedelta(days=n)`. -/
def subDays (dt : PyDateTime) : Nat → PyDateTime
  | 0 => dt
  | n + 1 => predDay (subDays dt n)

/-- `dt - timedelta(hours=v)`. -/
def subHours (dt : PyDateTime) (v : Nat) : PyDateTime :=
  let daysBack := v / 24
  let rem := v % 24
  if rem ≤ dt.hour then { subDays dt daysBack with hour := dt.hour - rem }
  else { subDays dt (daysBack + 1) with hour := dt.hour + 24 - rem }

/-- The `y`/`yr` branch (`scripts/ingest_linkedin_pdf.py` lines 107-112):
`ref_dt.replace(year=ref_dt.year - value)`, and on the `ValueError` raised
for a Feb-29 reference and a non-leap target year, the Feb-28 fallback
`replace(month=2, day=28, year=...)`.  (Year-range overflow of `datetime` is
outside the `Int`-year model.) -/
def subYears (dt : PyDateTime) (v : Nat) : PyDateTime :=
  let target := dt.year - v
  if dt.month = 2 ∧ dt.day = 29 ∧ ¬ isLeapYear target then
    ⟨target, 2, 28, dt.hour, dt.minute, dt.second, dt.tz⟩
  else
    { dt with year := target }

/-- The `while month <= 0: month += 12; year -= 1` loop of the `mo`/`m`
branch, with enough fuel for every iteration. -/
def normMonthF : Nat → Int → Int → Int × Int
  | 0, y, m => (y, m)
  | f + 1, y, m => if m ≤ 0 then normMonthF f (y - 1) (m + 12) else (y, m)

/-- The `mo`/`m` branch (`scripts/ingest_linkedin_pdf.py` lines 113-120):
decrement the month with year borrow, clamp the day to the explicit
leap-aware table, and return a fresh midnight `datetime`. -/
def subMonths (dt : PyDateTime) (v : Nat) : PyDateTime :=
  let ym := normMonthF (v + 1) dt.year ((dt.month : Int) - (v : Int))
  let month := ym.2.toNat
  let day := min dt.day (monthLengthTable ym.1 month)
  ⟨ym.1, month, day, 0, 0, 0, none⟩

/-- The unit alternatives of the relative-age regex
`(\d+)\s*(d|w|mo|m|y|yr|h|hr|hrs|hours)`. -/
def validRelUnits : List String :=
  ["d", "w", "mo", "m", "y", "yr", "h", "hr", "hrs", "hours"]

/-- `re.fullmatch` of the relative-age regex (case-insensitive): the whole
string is digits, then whitespace, then one of the unit alternatives;
returns the value and the lowercased unit. -/
def matchRelParts (l : List Char) : Option (Nat × String) :=
  let ds := l.takeWhile Char.isDigit
  if ds.isEmpty then none
  else
    let unit := lowerStr ((l.dropWhile Char.isDigit).dropWhile pyIsSpace)
    if validRelUnits.contains unit then some (digitsToNat ds, unit) else none

/-- The label cleaning of `parse_activity_date`: drop `•`, strip, drop
`ago`, strip. -/
def cleanActivityLabel (label : String) : String :=
  pyStrip (pyReplace (pyStrip (pyReplace label "•" "")) "ago" "")

/-- `parse_activity_date` (`scripts/ingest_linkedin_pdf.py` lines 85-122):
absolute dates via `parse_date` first, then the relative-age units. -/
def parse_activity_date (label : String) (ref : PyDate) : Option PyDateTime :=
  let cleaned := cleanActivityLabel label
  match parse_date (some cleaned) with
  | some dt => some dt
  | none =>
    match matchRelParts cleaned.data with
    | none => none
    | some (value, unit) =>
      let refDt : PyDateTime := ⟨ref.year, ref.month, ref.day, 0, 0, 0, none⟩
      if unit = "d" then some (subDays refDt value)
      else if unit = "w" then some (subDays refDt (7 * value))
      else if unit = "h" ∨ unit = "hr" ∨ unit = "hrs" ∨ unit = "hours" then
        some (subHours refDt value)
      else if unit = "y" ∨ unit = "yr" then some (subYears refDt value)
      else if unit = "mo" ∨ unit = "m" then some (subMonths refDt value)
      else none

theorem normMonthF_range :
    ∀ (f : Nat) (y m : Int), 1 - 12 * f ≤ m → m ≤ 12 →
      1 ≤ (normMonthF f y m).2 ∧ (normMonthF f y m).2 ≤ 12 := by
  intro f
  induction f with
  | zero =>
    intro y m h1 h2
    simp only [normMonthF]
    omega
  | succ f ih =>
    intro y m h1 h2
    rw [show normMonthF (f + 1) y m
          = if m ≤ 0 then normMonthF f (y - 1) (m + 12) else (y, m) from rfl]
    by_cases hm : m ≤ 0
    · rw [if_pos hm]
      refine ih (y - 1) (m + 12) (by push_cast at h1 ⊢; omega) (by omega)
    · rw [if_neg hm]
      constructor <;> [omega; exact h2]

/-- C3: relative-age resolution.  "1mo" against 2024-03-31 gives 2024-02-29
(leap clamp), against 2023-03-31 gives 2023-02-28; "1y" against 2024-02-29
gives 2023-02-28 (Feb-29 clamp); month arithmetic always lands on a month in
1..12 with the day clamped to the leap-aware table; and a label whose unit
field is not one of `d|w|mo|m|y|yr|h|hr|hrs|hours` yields no match. -/
theorem c3_parse_activity_date_relative :
    (parse_activity_date "1mo" ⟨2024, 3, 31⟩ = some ⟨2024, 2, 29, 0, 0, 0, none⟩) ∧
    (parse_activity_date "1mo" ⟨2023, 3, 31⟩ = some ⟨2023, 2, 28, 0, 0, 0, none⟩) ∧
    (parse_activity_date "1y" ⟨2024, 2, 29⟩ = some ⟨2023, 2, 28, 0, 0, 0, none⟩) ∧
    (∀ (dt : PyDateTime) (v : Nat), 1 ≤ dt.month → dt.month ≤ 12 →
      1 ≤ (subMonths dt v).month ∧ (subMonths dt v).month ≤ 12 ∧
      (subMonths dt v).day
        = min dt.day (monthLengthTable (subMonths dt v).year (subMonths dt v).month)) ∧
    (∀ (label : String) (ref : PyDate),
      parse_date (some (cleanActivityLabel label)) = none →
      matchRelParts (cleanActivityLabel label).data = none →
      parse_activity_date label ref = none) ∧
    (∀ l : List Char,
      validRelUnits.contains (lowerStr ((l.dropWhile Char.isDigit).dropWhile pyIsSpace))
        = false →
      matchRelParts l = none) := by
  refine ⟨by decide, by decide, by decide, ?_, ?_, ?_⟩
  · intro dt v h1 h2
    have hrange := normMonthF_range (v + 1) dt.year ((dt.month : Int) - (v : Int))
      (by push_cast; omega) (by omega)
    refine ⟨?_, ?_, rfl⟩
    · show 1 ≤ (normMonthF (v + 1) dt.year ((dt.month : Int) - (v : Int))).2.toNat
      omega
    · show (normMonthF (v + 1) dt.year ((dt.month : Int) - (v : Int))).2.toNat ≤ 12
      omega
  · intro label ref h1 h2
    rw [show parse_activity_date label ref
          = (match parse_date (some (cleanActivityLabel label)) with
             | some dt => some dt
             | none =>
               match matchRelParts (cleanActivityLabel label).data with
               | none => none
               | some (value, unit) =>
                 let refDt : PyDateTime := ⟨ref.year, ref.month, ref.day, 0, 0, 0, none⟩
                 if unit = "d" then some (subDays refDt value)
                 else if unit = "w" then some (subDays refDt (7 * value))
                 else if unit = "h" ∨ unit = "hr" ∨ unit = "hrs" ∨ unit = "hours" then
                   some (subHours refDt value)
                 else if unit = "y" ∨ unit = "yr" then some (subYears refDt value)
                 else if unit = "mo" ∨ unit = "m" then some (subMonths refDt value)
                 else none) from rfl]
    rw [h1, h2]
  · intro l hu
    rw [show matchRelParts l
          = (if (l.takeWhile Char.isDigit).isEmpty then none
             else
               if validRelUnits.contains
                   (lowerStr ((l.dropWhile Char.isDigit).dropWhile pyIsSpace)) then
                 some (digitsToNat (l.takeWhile Char.isDigit),
                   lowerStr ((l.dropWhile Char.isDigit).dropWhile pyIsSpace))
               else none) from rfl]
    rw [hu]
    simp

/-- Witness for C3: the quantified clauses applied at concrete inputs. -/
theorem c3_witness :
    (1 ≤ (subMonths ⟨2024, 1, 15, 0, 0, 0, none⟩ 25).month ∧
      (subMonths ⟨2024, 1, 15, 0, 0, 0, none⟩ 25).month ≤ 12 ∧
      (subMonths ⟨2024, 1, 15, 0, 0, 0, none⟩ 25).day
        = min (15 : Nat)
            (monthLengthTable (subMonths ⟨2024, 1, 15, 0, 0, 0, none⟩ 25).year
              (subMonths ⟨2024, 1, 15, 0, 0, 0, none⟩ 25).month)) ∧
    parse_activity_date "3 fortnights" ⟨2024, 1, 1⟩ = none ∧
    matchRelParts "5q".data = none :=
  ⟨c3_parse_activity_date_relative.2.2.2.1 ⟨2024, 1, 15, 0, 0, 0, none⟩ 25
      (by decide) (by decide),
   c3_parse_activity_date_relative.2.2.2.2.1 "3 fortnights" ⟨2024, 1, 1⟩
      (by decide) (by decide),
   c3_parse_activity_date_relative.2.2.2.2.2 "5q".data (by decide)⟩

/-- A post record as the Style Analyzer sees it: `post.get("platform")` and
`post.get("text", "")` may both be absent. -/
structure RawPost where
  platform : Option String
  text : Option String
deriving DecidableEq

/-- Substring containment, Python's `pat in s`. -/
def containsSub (pat : List Char) : List Char → Bool
  | [] => pat.isEmpty
  | c :: cs => pat.isPrefixOf (c :: cs) || containsSub pat cs

/-- `collections.Counter` insertion-ordered increment. -/
def bumpCount (key : String) : List (String × Nat) → List (String × Nat)
  | [] => [(key, 1)]
  | (k, n) :: rest => if k = key then (k, n + 1) :: rest else (k, n) :: bumpCount key rest

/-- A `Counter` built from a key sequence, preserving first-seen order. -/
def countList (keys : List String) : List (String × Nat) :=
  keys.foldl (fun acc k => bumpCount k acc) []

/-- Stable descending insertion (ties keep earlier elements first), modelling
the stable sort underlying `Counter.most_common`. -/
def insertDesc (x : String × Nat) : List (String × Nat) → List (String × Nat)
  | [] => [x]
  | y :: ys => if y.2 < x.2 then x :: y :: ys else y :: insertDesc x ys

/-- `Counter.most_common(n)`: keys of the `n` largest counts, ties in
first-seen order. -/
def mostCommon (n : Nat) (counts : List (String × Nat)) : List String :=
  (((counts.foldl (fun acc x => insertDesc x acc) []).take n).map (fun p => p.1))

/-- Python `round(x, nd)` on an exact rational: round-half-to-even.  (The
source computes on IEEE floats; the claims never depend on the numeric
values.) -/
def pyRound (q : ℚ) (nd : Nat) : ℚ :=
  let scale : ℚ := (10 : ℚ) ^ nd
  let x := q * scale
  let fl : Int := x.floor
  let frac := x - (fl : ℚ)
  let r : Int :=
    if frac > 1 / 2 then fl + 1
    else if frac < 1 / 2 then fl
    else if fl % 2 = 0 then fl else fl + 1
  (r : ℚ) / scale

/-- The per-platform statistics computed by the inner loop of
`analyze_posts` (`app/nithin_corpus_utils.py` lines 111-156). -/
structure PlatformStats where
  avgWords : ℚ
  avgSentence : ℚ
  questionRate : ℚ
  emojiRate : ℚ
  linkRate : ℚ
  openers : List String
  closers : List String
  phrases : List String
deriving DecidableEq

def platformStats (items : List RawPost) : PlatformStats :=
  let pairs := items.map (fun p => (p.text.getD "", normalize_text (p.text.getD "")))
  let kept := pairs.filter (fun t => !(t.2 = ""))
  let wordCounts := kept.map (fun t => (tokenize t.2).length)
  let sentenceLengths :=
    kept.flatMap (fun t => (split_sentences t.2).map (fun sen => (tokenize sen).length))
  let questionPosts := (kept.filter (fun t => t.2.data.contains '?')).length
  let emojiPosts := (kept.filter (fun t => t.2.data.any is_emoji)).length
  let linkPosts :=
    (kept.filter (fun t => containsSub "http".data t.1.data ||
      containsSub "www.".data t.1.data)).length
  let kept3 := kept.filter (fun t => 3 ≤ (tokenize t.2).length)
  let openerKeys := kept3.map (fun t => String.intercalate " " ((tokenize t.2).take 3))
  let closerKeys := kept3.map (fun t =>
    String.intercalate " " ((tokenize t.2).drop ((tokenize t.2).length - 3)))
  let phraseKeys := kept.flatMap (fun t =>
    let ws := tokenize t.2
    (List.range (ws.length - 2)).filterMap (fun i =>
      let ph := (ws.drop i).take 3
      if ph.all (fun w => STOPWORDS.contains w) then none
      else some (String.intercalate " " ph)))
  { avgWords := pyRound ((wordCounts.sum : ℚ) / (max wordCounts.length 1 : ℚ)) 2
    avgSentence := pyRound ((sentenceLengths.sum : ℚ) / (max sentenceLengths.length 1 : ℚ)) 2
    questionRate := pyRound ((questionPosts : ℚ) / (max items.length 1 : ℚ)) 3
    emojiRate := pyRound ((emojiPosts : ℚ) / (max items.length 1 : ℚ)) 3
    linkRate := pyRound ((linkPosts : ℚ) / (max items.length 1 : ℚ)) 3
    openers := mostCommon 8 (countList openerKeys)
    closers := mostCommon 8 (countList closerKeys)
    phrases := mostCommon 12 (countList phraseKeys) }

/-- The `derived` statistics document of `analyze_posts`. -/
structure Derived where
  analysis_date : String
  sample_size : List (String × Nat)
  avg_words_per_post : List (String × ℚ)
  avg_sentence_words : List (String × ℚ)
  question_rate : List (String × ℚ)
  emoji_rate : List (String × ℚ)
  link_rate : List (String × ℚ)
  common_openers : List (String × List String)
  common_closers : List (String × List String)
  common_phrases : List (String × List String)
deriving DecidableEq

/-- `analyze_posts` (`app/nithin_corpus_utils.py` lines 92-158).
`date.today()` is impure, so the analysis date is a parameter.  The
`per_platform` dict has exactly the keys `x` and `linkedin`; posts with any
other (or missing) platform are never collected.  A platform with an empty
item list is skipped by the `if not items: continue` guard, so its key is
added to `sample_size` only. -/
def analyze_posts (today : String) (posts : List RawPost) : Derived :=
  let itemsX := posts.filter (fun p => p.platform == some "x")
  let itemsL := posts.filter (fun p => p.platform == some "linkedin")
  let sx := platformStats itemsX
  let sl := platformStats itemsL
  { analysis_date := today
    sample_size := [("x", itemsX.length), ("linkedin", itemsL.length)]
    avg_words_per_post :=
      (if itemsX.isEmpty then [] else [("x", sx.avgWords)]) ++
        (if itemsL.isEmpty then [] else [("linkedin", sl.avgWords)])
    avg_sentence_words :=
      (if itemsX.isEmpty then [] else [("x", sx.avgSentence)]) ++
        (if itemsL.isEmpty then [] else [("linkedin", sl.avgSentence)])
    question_rate :=
      (if itemsX.isEmpty then [] else [("x", sx.questionRate)]) ++
        (if itemsL.isEmpty then [] else [("linkedin", sl.questionRate)])
    emoji_rate :=
      (if itemsX.isEmpty then [] else [("x", sx.emojiRate)]) ++
        (if itemsL.isEmpty then [] else [("linkedin", sl.emojiRate)])
    link_rate :=
      (if itemsX.isEmpty then [] else [("x", sx.linkRate)]) ++
        (if itemsL.isEmpty then [] else [("linkedin", sl.linkRate)])
    common_openers :=
      (if itemsX.isEmpty then [] else [("x", sx.openers)]) ++
        (if itemsL.isEmpty then [] else [("linkedin", sl.openers)])
    common_closers :=
      (if itemsX.isEmpty then [] else [("x", sx.closers)]) ++
        (if itemsL.isEmpty then [] else [("linkedin", sl.closers)])
    common_phrases :=
      (if itemsX.isEmpty then [] else [("x", sx.phrases)]) ++
        (if itemsL.isEmpty then [] else [("linkedin", sl.phrases)]) }

theorem pmap_lookup_x {α : Type} (hxe hle : Bool) (a b : α) (h : hxe = true) :
    (((if hxe then [] else [("x", a)]) ++ (if hle then [] else [("linkedin", b)])) :
        List (String × α)).lookup "x" = none := by
  subst h
  have hb : (("linkedin" : String) == "x") = false := by decide
  cases hle <;> simp [List.lookup, hb]

theorem pmap_lookup_l {α : Type} (hxe hle : Bool) (a b : α) (h : hle = true) :
    (((if hxe then [] else [("x", a)]) ++ (if hle then [] else [("linkedin", b)])) :
        List (String × α)).lookup "linkedin" = none := by
  subst h
  have hb : (("x" : String) == "linkedin") = false := by decide
  cases hxe <;> simp [List.lookup, hb]

theorem filter_of_filter_keep {α : Type} (px keep : α → Bool)
    (h : ∀ p, px p = true → keep p = true) :
    ∀ l : List α, (l.filter keep).filter px = l.filter px := by
  intro l
  induction l with
  | nil => rfl
  | cons p ps ih =>
    by_cases hk : keep p
    · by_cases hp : px p
      · simp [List.filter_cons, hk, hp, ih]
      · simp [List.filter_cons, hk, hp, ih]
    · have hp : px p = false := by
        by_contra hne
        exact hk (h p (Bool.of_not_eq_false hne))
      simp [List.filter_cons, hk, hp, ih]

/-- C6: for every corpus, `analyze_posts` reports `sample_size` for both
platforms (possibly zero); a platform with zero posts is absent from every
other derived map; and posts whose platform is neither `x` nor `linkedin`
are ignored. -/
theorem c6_analyze_posts_zero_platform_absent (today : String) (posts : List RawPost) :
    (analyze_posts today posts).sample_size
      = [("x", (posts.filter (fun p => p.platform == some "x")).length),
         ("linkedin", (posts.filter (fun p => p.platform == some "linkedin")).length)] ∧
    (∀ platform : String, platform = "x" ∨ platform = "linkedin" →
      (posts.filter (fun p => p.platform == some platform)).length = 0 →
      (analyze_posts today posts).avg_words_per_post.lookup platform = none ∧
      (analyze_posts today posts).avg_sentence_words.lookup platform = none ∧
      (analyze_posts today posts).question_rate.lookup platform = none ∧
      (analyze_posts today posts).emoji_rate.lookup platform = none ∧
      (analyze_posts today posts).link_rate.lookup platform = none ∧
      (analyze_posts today posts).common_openers.lookup platform = none ∧
      (analyze_posts today posts).common_closers.lookup platform = none ∧
      (analyze_posts today posts).common_phrases.lookup platform = none) ∧
    analyze_posts today posts
      = analyze_posts today
          (posts.filter (fun p => p.platform == some "x" || p.platform == some "linkedin")) := by
  refine ⟨rfl, ?_, ?_⟩
  · intro platform hp h0
    rcases hp with rfl | rfl
    · have hxe : (posts.filter (fun p => p.platform == some "x")).isEmpty = true := by
        cases hl : posts.filter (fun p => p.platform == some "x")
        · rfl
        · rw [hl] at h0
          simp at h0
      exact ⟨pmap_lookup_x _ _ _ _ hxe, pmap_lookup_x _ _ _ _ hxe, pmap_lookup_x _ _ _ _ hxe,
        pmap_lookup_x _ _ _ _ hxe, pmap_lookup_x _ _ _ _ hxe, pmap_lookup_x _ _ _ _ hxe,
        pmap_lookup_x _ _ _ _ hxe, pmap_lookup_x _ _ _ _ hxe⟩
    · have hle : (posts.filter (fun p => p.platform == some "linkedin")).isEmpty = true := by
        cases hl : posts.filter (fun p => p.platform == some "linkedin")
        · rfl
        · rw [hl] at h0
          simp at h0
      exact ⟨pmap_lookup_l _ _ _ _ hle, pmap_lookup_l _ _ _ _ hle, pmap_lookup_l _ _ _ _ hle,
        pmap_lookup_l _ _ _ _ hle, pmap_lookup_l _ _ _ _ hle, pmap_lookup_l _ _ _ _ hle,
        pmap_lookup_l _ _ _ _ hle, pmap_lookup_l _ _ _ _ hle⟩
  · have hx := filter_of_filter_keep
      (fun p : RawPost => p.platform == some "x")
      (fun p : RawPost => p.platform == some "x" || p.platform == some "linkedin")
      (fun p hp => by simp [hp]) posts
    have hl := filter_of_filter_keep
      (fun p : RawPost => p.platform == some "linkedin")
      (fun p : RawPost => p.platform == some "x" || p.platform == some "linkedin")
      (fun p hp => by simp [hp]) posts
    simp only [analyze_posts, hx, hl]

/-- Witness for C6: a corpus with one LinkedIn post and one ignored post has
no `x` entries, and the `x` key is absent from every derived map. -/
theorem c6_witness :
    (analyze_posts "2026-01-01"
        [⟨some "linkedin", some "hello world again"⟩, ⟨some "mastodon", some "hi"⟩]
      ).avg_words_per_post.lookup "x" = none ∧
    (analyze_posts "2026-01-01"
        [⟨some "linkedin", some "hello world again"⟩, ⟨some "mastodon", some "hi"⟩]
      ).common_phrases.lookup "x" = none :=
  ⟨((c6_analyze_posts_zero_platform_absent "2026-01-01"
      [⟨some "linkedin", some "hello world again"⟩, ⟨some "mastodon", some "hi"⟩]).2.1
        "x" (Or.inl rfl) (by decide)).1,
   ((c6_analyze_posts_zero_platform_absent "2026-01-01"
      [⟨some "linkedin", some "hello world again"⟩, ⟨some "mastodon", some "hi"⟩]).2.1
        "x" (Or.inl rfl) (by decide)).2.2.2.2.2.2.2⟩

/-- Days since 1970-01-01 of a proleptic-Gregorian date (civil-from-days
inverse), for comparing `datetime` instants. -/
def daysFromCivil (y : Int) (m d : Nat) : Int :=
  let y2 : Int := y - (if m ≤ 2 then 1 else 0)
  let era : Int := (if 0 ≤ y2 then y2 else y2 - 399) / 400
  let yoe : Int := y2 - era * 400
  let mp : Int := (m : Int) + (if 2 < m then -3 else 9)
  let doy : Int := (153 * mp + 2) / 5 + d - 1
  let doe : Int := yoe * 365 + yoe / 4 - yoe / 100 + doy
  era * 146097 + doe - 719468

/-- The instant of an (aware) `datetime` in seconds since the epoch. -/
def toInstantSec (dt : PyDateTime) : Int :=
  daysFromCivil dt.year dt.month dt.day * 86400 +
    dt.hour * 3600 + dt.minute * 60 + dt.second - dt.tz.getD 0 * 60

/-- Python `<` on two aware datetimes: instant comparison. -/
def pyDtLt (a b : PyDateTime) : Bool :=
  decide (toInstantSec a < toInstantSec b)

/-- One extracted post as the ingestion `main` loop sees it
(`scripts/ingest_nitter_pdf.py` lines 156-183 and
`scripts/ingest_linkedin_pdf.py` lines 216-243): the extractor always sets
`platform` and `text`; `id` and `source` ride along unchanged. -/
structure IngestPost where
  platform : String
  text : String
  created_at : Option String
  id : Option String
  source : Option String
deriving DecidableEq

/-- The `platform + ":" + text.lower()` dedup key of a record. -/
def recKey (p : IngestPost) : String :=
  p.platform ++ ":" ++ pyToLower p.text

/-- The three `continue` filters at the top of the loop body: empty
normalized text, fewer than `min_words` tokens, and the optional date-range
filter (where a missing or unparseable date is a skip).  Returns the
normalized text of a post that passes. -/
def passFilters (minWords : Nat) (sinceDt untilDt : Option PyDateTime)
    (p : IngestPost) : Option String :=
  let t := normalize_text p.text
  if t = "" then none
  else if (tokenize t).length < minWords then none
  else
    let dateSkip : Bool :=
      if sinceDt.isSome || untilDt.isSome then
        match parse_date p.created_at with
        | none => true
        | some dt =>
          (match sinceDt with | some sdt => pyDtLt dt sdt | none => false) ||
            (match untilDt with | some udt => pyDtLt udt dt | none => false)
      else false
    if dateSkip then none else some t

/-- The cleaning/filter/dedup loop shared verbatim by both ingestion
scripts: apply the three filters, set `post["text"]` to the normalized text,
and keep the first record per `platform:lowercased-text` key (the `seen`
set). -/
def cleanPosts (minWords : Nat) (sinceDt untilDt : Option PyDateTime) :
    List IngestPost → List String → List IngestPost
  | [], _ => []
  | p :: rest, seen =>
    match passFilters minWords sinceDt untilDt p with
    | none => cleanPosts minWords sinceDt untilDt rest seen
    | some t =>
      let key := p.platform ++ ":" ++ pyToLower t
      if key ∈ seen then cleanPosts minWords sinceDt untilDt rest seen
      else { p with text := t } :: cleanPosts minWords sinceDt untilDt rest (key :: seen)

/-- The `cleaned` list passed to `write_corpus` by `main`. -/
def mainCleanedPosts (posts : List IngestPost) (minWords : Nat)
    (sinceDt untilDt : Option PyDateTime) : List IngestPost :=
  cleanPosts minWords sinceDt untilDt posts []

theorem cleanPosts_invariant (minWords : Nat) (sinceDt untilDt : Option PyDateTime) :
    ∀ (posts : List IngestPost) (seen : List String),
      ((cleanPosts minWords sinceDt untilDt posts seen).map recKey).Nodup ∧
      ∀ r ∈ cleanPosts minWords sinceDt untilDt posts seen, recKey r ∉ seen := by
  intro posts
  induction posts with
  | nil => exact fun seen => ⟨List.nodup_nil, by simp [cleanPosts]⟩
  | cons p rest ih =>
    intro seen
    rw [show cleanPosts minWords sinceDt untilDt (p :: rest) seen
          = (match passFilters minWords sinceDt untilDt p with
             | none => cleanPosts minWords sinceDt untilDt rest seen
             | some t =>
               let key := p.platform ++ ":" ++ pyToLower t
               if key ∈ seen then cleanPosts minWords sinceDt untilDt rest seen
               else
                 { p with text := t } :: cleanPosts minWords sinceDt untilDt rest (key :: seen))
        from rfl]
    rcases hf : passFilters minWords sinceDt untilDt p with _ | t
    · exact ih seen
    · show ((if (p.platform ++ ":" ++ pyToLower t) ∈ seen then
            cleanPosts minWords sinceDt untilDt rest seen
          else
            { p with text := t } ::
              cleanPosts minWords sinceDt untilDt rest
                ((p.platform ++ ":" ++ pyToLower t) :: seen)).map recKey).Nodup ∧
        ∀ r ∈ (if (p.platform ++ ":" ++ pyToLower t) ∈ seen then
            cleanPosts minWords sinceDt untilDt rest seen
          else
            { p with text := t } ::
              cleanPosts minWords sinceDt untilDt rest
                ((p.platform ++ ":" ++ pyToLower t) :: seen)), recKey r ∉ seen
      by_cases h4 : (p.platform ++ ":" ++ pyToLower t) ∈ seen
      · simp only [if_pos h4]
        exact ih seen
      · simp only [if_neg h4]
        obtain ⟨ihn, ihs⟩ := ih ((p.platform ++ ":" ++ pyToLower t) :: seen)
        have hkey : recKey { p with text := t } = p.platform ++ ":" ++ pyToLower t := rfl
        constructor
        · rw [List.map_cons, hkey]
          refine List.nodup_cons.mpr ⟨?_, ihn⟩
          intro hmem
          obtain ⟨r, hr, hrk⟩ := List.mem_map.mp hmem
          exact (ihs r hr) (hrk ▸ List.mem_cons_self _ _)
        · intro r hr
          rcases List.mem_cons.mp hr with rfl | hr
          · rw [hkey]
            exact h4
          · intro hmem
            exact (ihs r hr) (List.mem_cons_of_mem _ hmem)

/-- C5: within one ingestion run, the list handed to the corpus write has at
most one record per `platform:lowercased-normalized-text` key, and ingesting
the same pair twice keeps exactly the first occurrence. -/
theorem c5_ingest_dedup_unique_keys :
    (∀ (posts : List IngestPost) (minWords : Nat) (sinceDt untilDt : Option PyDateTime),
      ((mainCleanedPosts posts minWords sinceDt untilDt).map recKey).Nodup) ∧
    mainCleanedPosts
        [⟨"x", "Hello World Again", some "2024-01-01", none, some "nitter_pdf"⟩,
         ⟨"x", "hello   world again", some "2023-05-05", none, some "nitter_pdf"⟩]
        3 none none
      = [⟨"x", "Hello World Again", some "2024-01-01", none, some "nitter_pdf"⟩] :=
  ⟨fun posts minWords sinceDt untilDt =>
    (cleanPosts_invariant minWords sinceDt untilDt posts []).1,
   by decide⟩

/-- A JSON-serializable Python value, the domain of the corpus records.
JSON numbers are restricted to integers (floating-point literals are outside
the embedding; the corpus records carry strings and nulls). -/
inductive PyJson where
  | null
  | bool (b : Bool)
  | int (n : Int)
  | str (s : String)
  | arr (xs : List PyJson)
  | obj (fields : List (String × PyJson))

/-- Lowercase hex digit, as `'\u{0:04x}'.format(i)` produces. -/
def hexDigit (n : Nat) : Char :=
  if n < 10 then Char.ofNat (48 + n) else Char.ofNat (87 + n)

/-- Fuelled decimal printer for a natural number. -/
def natDigitsF : Nat → Nat → List Char
  | 0, n => [Char.ofNat (48 + n % 10)]
  | f + 1, n =>
    if n < 10 then [Char.ofNat (48 + n)]
    else natDigitsF f (n / 10) ++ [Char.ofNat (48 + n % 10)]

/-- The decimal digits of a natural number, most significant first. -/
def natDigits (n : Nat) : List Char :=
  natDigitsF (n + 1) n

theorem natDigitsF_congr :
    ∀ {f g n : Nat}, n ≤ f → n ≤ g → natDigitsF f n = natDigitsF g n := by
  intro f
  induction f with
  | zero =>
    intro g n hf _
    have hn : n = 0 := by omega
    subst hn
    cases g <;> rfl
  | succ f ih =>
    intro g n hf hg
    match g with
    | 0 =>
      have hn : n = 0 := by omega
      subst hn
      rfl
    | g + 1 =>
      show (if n < 10 then _ else _) = (if n < 10 then _ else _)
      by_cases h : n < 10
      · rw [if_pos h, if_pos h]
      · rw [if_neg h, if_neg h]
        have hd : n / 10 ≤ f := by omega
        have hd' : n / 10 ≤ g := by omega
        rw [ih hd hd']

theorem natDigits_lt {n : Nat} (h : n < 10) : natDigits n = [Char.ofNat (48 + n)] := by
  rw [natDigits]
  show (if n < 10 then _ else _) = _
  rw [if_pos h]

theorem natDigits_ge {n : Nat} (h : 10 ≤ n) :
    natDigits n = natDigits (n / 10) ++ [Char.ofNat (48 + n % 10)] := by
  rw [natDigits]
  show (if n < 10 then _ else _) = _
  rw [if_neg (by omega)]
  rw [natDigitsF_congr (f := n) (g := n / 10 + 1) (by omega) (by omega)]
  rfl

theorem charOfNat_digit_isDigit {n : Nat} (h : n < 10) :
    (Char.ofNat (48 + n)).isDigit = true := by
  interval_cases n <;> decide

theorem charOfNat_digit_toNat {n : Nat} (h : n < 10) :
    (Char.ofNat (48 + n)).toNat = 48 + n := by
  interval_cases n <;> decide

theorem natDigits_all_digit (n : Nat) : ∀ c ∈ natDigits n, c.isDigit = true := by
  induction n using Nat.strong_induction_on with
  | _ n ih =>
    by_cases h : n < 10
    · rw [natDigits_lt h]
      intro c hc
      rcases List.mem_singleton.mp hc with rfl
      exact charOfNat_digit_isDigit h
    · rw [natDigits_ge (by omega)]
      intro c hc
      rcases List.mem_append.mp hc with hc | hc
      · exact ih (n / 10) (by omega) c hc
      · rcases List.mem_singleton.mp hc with rfl
        exact charOfNat_digit_isDigit (Nat.mod_lt _ (by omega))

theorem natDigits_ne_nil (n : Nat) : natDigits n ≠ [] := by
  by_cases h : n < 10
  · rw [natDigits_lt h]
    simp
  · rw [natDigits_ge (by omega)]
    simp

/-- Python `repr(int)`. -/
def intDigits (n : Int) : List Char :=
  if n < 0 then '-' :: natDigits n.natAbs else natDigits n.toNat

/-- The escape of one character in a `json.dumps(..., ensure_ascii=False)`
string: `"` and `\` are escaped, control characters get their short escapes
or `\u00xx`, everything else is emitted raw. -/
def escChar (c : Char) : List Char :=
  if c = '"' then ['\\', '"']
  else if c = '\\' then ['\\', '\\']
  else if c = '\x08' then ['\\', 'b']
  else if c = '\x09' then ['\\', 't']
  else if c = '\x0a' then ['\\', 'n']
  else if c = '\x0c' then ['\\', 'f']
  else if c = '\x0d' then ['\\', 'r']
  else if c.toNat < 0x20 then
    ['\\', 'u', '0', '0', hexDigit (c.toNat / 16), hexDigit (c.toNat % 16)]
  else [c]

def escString (l : List Char) : List Char :=
  l.flatMap escChar

mutual

/-- `json.dumps(v, ensure_ascii=False)` with the default separators
`", "` and `": "`. -/
def dumps : PyJson → List Char
  | .null => "null".data
  | .bool true => "true".data
  | .bool false => "false".data
  | .int n => intDigits n
  | .str s => '"' :: (escString s.data ++ ['"'])
  | .arr xs => '[' :: (dumpsList xs ++ [']'])
  | .obj fs => '\x7b' :: (dumpsFields fs ++ ['\x7d'])

/-- `", ".join` of the printed elements. -/
def dumpsList : List PyJson → List Char
  | [] => []
  | x :: xs => dumps x ++ dumpsListTail xs

def dumpsListTail : List PyJson → List Char
  | [] => []
  | y :: r => ',' :: ' ' :: (dumps y ++ dumpsListTail r)

/-- `", ".join` of the printed `"key": value` members. -/
def dumpsFields : List (String × PyJson) → List Char
  | [] => []
  | (k, v) :: fs =>
    ('"' :: (escString k.data ++ ['"', ':', ' '])) ++ dumps v ++ dumpsFieldsTail fs

def dumpsFieldsTail : List (String × PyJson) → List Char
  | [] => []
  | (k, v) :: fs =>
    ',' :: ' ' ::
      (('"' :: (escString k.data ++ ['"', ':', ' '])) ++ dumps v ++ dumpsFieldsTail fs)

end

mutual

/-- Fuel bookkeeping for the recursive-descent reader: an upper bound on the
call depth needed to read back a printed value. -/
def jsize : PyJson → Nat
  | .null => 1
  | .bool _ => 1
  | .int _ => 1
  | .str _ => 1
  | .arr xs => 1 + jsizeList xs
  | .obj fs => 1 + jsizeFields fs

def jsizeList : List PyJson → Nat
  | [] => 1
  | x :: xs => 1 + jsize x + jsizeList xs

def jsizeFields : List (String × PyJson) → Nat
  | [] => 1
  | (_, v) :: fs => 1 + jsize v + jsizeFields fs

end

/-- JSON whitespace (`json.decoder`'s ` \t\n\r`). -/
def jsonWs (c : Char) : Bool :=
  c = ' ' || c = '\t' || c = '\n' || c = '\r'

def hexDigitVal (c : Char) : Option Nat :=
  if '0' ≤ c ∧ c ≤ '9' then some (c.toNat - 48)
  else if 'a' ≤ c ∧ c ≤ 'f' then some (c.toNat - 87)
  else if 'A' ≤ c ∧ c ≤ 'F' then some (c.toNat - 55)
  else none

/-- The body of a JSON string after the opening quote (strict mode: raw
control characters are an error; a `\uXXXX` escape must denote a scalar
value, as Lean characters cannot carry lone surrogates). -/
def parseStringBody : List Char → Option (List Char × List Char)
  | [] => none
  | c :: rest =>
    if c = '"' then some ([], rest)
    else if c = '\\' then
      match rest with
      | [] => none
      | e :: rest2 =>
        if e = '"' then (parseStringBody rest2).map (fun p => ('"' :: p.1, p.2))
        else if e = '\\' then (parseStringBody rest2).map (fun p => ('\\' :: p.1, p.2))
        else if e = '/' then (parseStringBody rest2).map (fun p => ('/' :: p.1, p.2))
        else if e = 'b' then (parseStringBody rest2).map (fun p => ('\x08' :: p.1, p.2))
        else if e = 'f' then (parseStringBody rest2).map (fun p => ('\x0c' :: p.1, p.2))
        else if e = 'n' then (parseStringBody rest2).map (fun p => ('\x0a' :: p.1, p.2))
        else if e = 'r' then (parseStringBody rest2).map (fun p => ('\x0d' :: p.1, p.2))
        else if e = 't' then (parseStringBody rest2).map (fun p => ('\x09' :: p.1, p.2))
        else if e = 'u' then
          match rest2 with
          | h1 :: h2 :: h3 :: h4 :: rest3 =>
            match hexDigitVal h1, hexDigitVal h2, hexDigitVal h3, hexDigitVal h4 with
            | some v1, some v2, some v3, some v4 =>
              let v := ((v1 * 16 + v2) * 16 + v3) * 16 + v4
              if v < 0xd800 ∨ 0xdfff < v then
                (parseStringBody rest3).map (fun p => (Char.ofNat v :: p.1, p.2))
              else none
            | _, _, _, _ => none
          | _ => none
        else none
    else if c.toNat < 0x20 then none
    else (parseStringBody rest).map (fun p => (c :: p.1, p.2))

/-- Does the head of the remainder end a number literal?  A digit would have
been consumed, and a fraction or exponent marker would make the literal a
float, which is outside the value model. -/
def numBoundary (l : List Char) : Bool :=
  match l.head? with
  | none => true
  | some c => !(c.isDigit || c = '.' || c = 'e' || c = 'E')

/-- A JSON integer literal (no leading zeros); a fraction or exponent would
be a float, which is outside the value model. -/
def parseNatNum (l : List Char) : Option (Nat × List Char) :=
  let ds := l.takeWhile Char.isDigit
  if ds.isEmpty then none
  else if 1 < ds.length ∧ ds.head? = some '0' then none
  else
    let rest := l.dropWhile Char.isDigit
    if rest.head? = some '.' ∨ rest.head? = some 'e' ∨ rest.head? = some 'E' then none
    else some (digitsToNat ds, rest)

mutual

/-- Recursive-descent JSON value reader (model of `json.loads`'s scanner),
with explicit fuel; `loads` passes fuel that covers any input of its
length. -/
def parseValue : Nat → List Char → Option (PyJson × List Char)
  | 0, _ => none
  | f + 1, l =>
    match l.dropWhile jsonWs with
    | 'n' :: 'u' :: 'l' :: 'l' :: rest => some (.null, rest)
    | 't' :: 'r' :: 'u' :: 'e' :: rest => some (.bool true, rest)
    | 'f' :: 'a' :: 'l' :: 's' :: 'e' :: rest => some (.bool false, rest)
    | '"' :: rest => (parseStringBody rest).map (fun p => (.str ⟨p.1⟩, p.2))
    | '[' :: rest => parseElems f (rest.dropWhile jsonWs)
    | '\x7b' :: rest => parseMembers f (rest.dropWhile jsonWs)
    | '-' :: rest => (parseNatNum rest).map (fun p => (.int (-(p.1 : Int)), p.2))
    | c :: rest =>
      if c.isDigit then (parseNatNum (c :: rest)).map (fun p => (.int (p.1 : Int), p.2))
      else none
    | [] => none

/-- Array elements after `[` (whitespace already skipped). -/
def parseElems : Nat → List Char → Option (PyJson × List Char)
  | 0, _ => none
  | f + 1, l =>
    match l with
    | ']' :: rest => some (.arr [], rest)
    | _ =>
      match parseValue f l with
      | none => none
      | some (v, rest) =>
        match parseElemsTail f (rest.dropWhile jsonWs) with
        | none => none
        | some (.arr vs, rest2) => some (.arr (v :: vs), rest2)
        | some _ => none

/-- `, value`* `]` after one array element. -/
def parseElemsTail : Nat → List Char → Option (PyJson × List Char)
  | 0, _ => none
  | f + 1, l =>
    match l with
    | ']' :: rest => some (.arr [], rest)
    | ',' :: rest =>
      match parseValue f rest with
      | none => none
      | some (v, rest2) =>
        match parseElemsTail f (rest2.dropWhile jsonWs) with
        | none => none
        | some (.arr vs, rest3) => some (.arr (v :: vs), rest3)
        | some _ => none
    | _ => none

/-- Object members after `{` (whitespace already skipped). -/
def parseMembers : Nat → List Char → Option (PyJson × List Char)
  | 0, _ => none
  | f + 1, l =>
    match l with
    | '\x7d' :: rest => some (.obj [], rest)
    | '"' :: rest =>
      match parseStringBody rest with
      | none => none
      | some (k, rest2) =>
        match rest2.dropWhile jsonWs with
        | ':' :: rest3 =>
          match parseValue f rest3 with
          | none => none
          | some (v, rest4) =>
            match parseMembersTail f (rest4.dropWhile jsonWs) with
            | none => none
            | some (.obj ms, rest5) => some (.obj ((⟨k⟩, v) :: ms), rest5)
            | some _ => none
        | _ => none
    | _ => none

/-- `, "key": value`* `}` after one object member. -/
def parseMembersTail : Nat → List Char → Option (PyJson × List Char)
  | 0, _ => none
  | f + 1, l =>
    match l with
    | '\x7d' :: rest => some (.obj [], rest)
    | ',' :: rest =>
      match rest.dropWhile jsonWs with
      | '"' :: rest1 =>
        match parseStringBody rest1 with
        | none => none
        | some (k, rest2) =>
          match rest2.dropWhile jsonWs with
          | ':' :: rest3 =>
            match parseValue f rest3 with
            | none => none
            | some (v, rest4) =>
              match parseMembersTail f (rest4.dropWhile jsonWs) with
              | none => none
              | some (.obj ms, rest5) => some (.obj ((⟨k⟩, v) :: ms), rest5)
              | some _ => none
          | _ => none
      | _ => none
    | _ => none

end

/-- `json.loads(line)`: parse one value with surrounding whitespace; extra
data is an error.  The fuel covers any input: each reader call either
consumes a character first or is one of the at most two bracket-entry calls
per character. -/
def loads (s : String) : Option PyJson :=
  match parseValue (2 * s.data.length + 4) s.data with
  | some (v, rest) => if (rest.dropWhile jsonWs).isEmpty then some v else none
  | none => none

/-- `write_corpus` (`app/nithin_corpus_utils.py` lines 161-165) on the file
contents: truncate or keep the existing contents, then one
`json.dumps(post, ensure_ascii=False) + "\n"` per record. -/
def write_corpus (existing : String) (posts : List PyJson) (append : Bool) : String :=
  (if append then existing else "") ++
    String.join (posts.map (fun p => (⟨dumps p⟩ : String) ++ "\n"))

/-- Universal-newline translation of text-mode reading: `\r\n` and `\r`
become `\n`. -/
def translateNewlines : List Char → List Char
  | [] => []
  | '\x0d' :: '\x0a' :: rest => '\x0a' :: translateNewlines rest
  | '\x0d' :: rest => '\x0a' :: translateNewlines rest
  | c :: rest => c :: translateNewlines rest

/-- `read_corpus` (`app/nithin_corpus_utils.py` lines 168-181) on the file
contents (the missing-file case returns the empty list before any read):
iterate the lines, strip each, skip blanks, and skip lines `json.loads`
rejects. -/
def read_corpus (contents : String) : List PyJson :=
  ((splitOnChar '\x0a' (translateNewlines contents.data)).map
      (fun l => (⟨l⟩ : String))).filterMap
    (fun line =>
      let stripped := pyStrip line
      if stripped = "" then none else loads stripped)

theorem takeWhile_append_all {p : Char → Bool} :
    ∀ {l rest : List Char}, (∀ c ∈ l, p c = true) → (∀ c, rest.head? = some c → p c = false) →
      (l ++ rest).takeWhile p = l ∧ (l ++ rest).dropWhile p = rest := by
  intro l
  induction l with
  | nil =>
    intro rest _ hrest
    refine ⟨?_, dropWhile_eq_self hrest⟩
    cases rest with
    | nil => rfl
    | cons c cs =>
      rw [List.nil_append, List.takeWhile_cons, hrest c rfl]
      rfl
  | cons c l ih =>
    intro rest hall hrest
    have hc := hall c (List.mem_cons_self _ _)
    obtain ⟨ht, hd⟩ := ih (fun d hdm => hall d (List.mem_cons_of_mem _ hdm)) hrest
    constructor
    · rw [List.cons_append, List.takeWhile_cons, hc]
      simp [ht]
    · rw [List.cons_append, List.dropWhile_cons, hc]
      simp [hd]

theorem hexDigitVal_hexDigit {m : Nat} (h : m < 16) : hexDigitVal (hexDigit m) = some m := by
  interval_cases m <;> decide

theorem natDigits_head_ne_zero {n : Nat} (h : 1 ≤ n) :
    (natDigits n).head? ≠ some '0' := by
  induction n using Nat.strong_induction_on with
  | _ n ih =>
    intro hcon
    by_cases h10 : n < 10
    · rw [natDigits_lt h10, List.head?_cons, Option.some.injEq] at hcon
      have htn := congrArg Char.toNat hcon
      rw [charOfNat_digit_toNat h10] at htn
      have h0 : ('0' : Char).toNat = 48 := rfl
      rw [h0] at htn
      omega
    · rw [natDigits_ge (by omega)] at hcon
      rcases hq : natDigits (n / 10) with _ | ⟨d, ds⟩
      · exact natDigits_ne_nil (n / 10) hq
      · rw [hq, List.cons_append, List.head?_cons] at hcon
        refine ih (n / 10) (by omega)
          (Nat.one_le_div_iff (by omega) |>.mpr (by omega)) ?_
        rw [hq, List.head?_cons]
        exact hcon

theorem digitsToNat_append_last (a : List Char) (d : Char) :
    digitsToNat (a ++ [d]) = digitsToNat a * 10 + (d.toNat - 48) := by
  rw [digitsToNat, digitsToNat, List.foldl_append]
  rfl

theorem digitsToNat_natDigits (n : Nat) : digitsToNat (natDigits n) = n := by
  induction n using Nat.strong_induction_on with
  | _ n ih =>
    by_cases h : n < 10
    · rw [natDigits_lt h]
      show 0 * 10 + ((Char.ofNat (48 + n)).toNat - 48) = n
      rw [charOfNat_digit_toNat h]
      omega
    · rw [natDigits_ge (by omega), digitsToNat_append_last, ih (n / 10) (by omega),
        charOfNat_digit_toNat (Nat.mod_lt _ (by omega))]
      omega

theorem numBoundary_head {rest : List Char} (h : numBoundary rest = true) :
    ∀ c, rest.head? = some c → c.isDigit = false ∧ c ≠ '.' ∧ c ≠ 'e' ∧ c ≠ 'E' := by
  intro c hc
  rw [numBoundary, hc] at h
  simp only [Bool.not_eq_true', Bool.or_eq_false_iff] at h
  obtain ⟨⟨⟨h1, h2⟩, h3⟩, h4⟩ := h
  refine ⟨h1, ?_, ?_, ?_⟩ <;> intro heq <;> subst heq <;> simp_all

/-- A printed decimal reads back as the same number when the remainder does
not continue the literal. -/
theorem parseNatNum_natDigits (n : Nat) (rest : List Char) (hrest : numBoundary rest = true) :
    parseNatNum (natDigits n ++ rest) = some (n, rest) := by
  obtain ⟨ht, hd⟩ := @takeWhile_append_all Char.isDigit (natDigits n) rest
    (natDigits_all_digit n)
    (fun c hc => ((numBoundary_head hrest) c hc).1)
  simp only [parseNatNum, ht, hd]
  rw [if_neg (by simp [natDigits_ne_nil n])]
  rw [if_neg ?_, if_neg ?_]
  · rw [digitsToNat_natDigits]
  · rcases hr : rest.head? with _ | c
    · simp
    · obtain ⟨-, h2, h3, h4⟩ := (numBoundary_head hrest) c hr
      simp [hr, h2, h3, h4]
  · rintro ⟨hlen, hzero⟩
    by_cases h : n < 10
    · rw [natDigits_lt h] at hlen
      simp at hlen
    · exact natDigits_head_ne_zero (by omega) hzero

/-- A printed escaped string body, closing quote included, reads back as the
original characters. -/
theorem parseStringBody_escString :
    ∀ (cs rest : List Char), parseStringBody (escString cs ++ '"' :: rest) = some (cs, rest) := by
  intro cs
  induction cs with
  | nil =>
    intro rest
    rw [show escString [] = [] from rfl, List.nil_append]
    rw [parseStringBody.eq_def]
    simp
  | cons c cs ih =>
    intro rest
    rw [show escString (c :: cs) = escChar c ++ escString cs from List.flatMap_cons ..]
    rw [escChar]
    by_cases h1 : c = '"'
    · subst h1
      simp only [if_pos rfl, List.cons_append, List.nil_append, List.append_assoc]
      rw [parseStringBody.eq_def]
      simp [ih]
    · rw [if_neg h1]
      by_cases h2 : c = '\\'
      · subst h2
        simp only [if_pos rfl, List.cons_append, List.nil_append, List.append_assoc]
        rw [parseStringBody.eq_def]
        simp [ih]
      · rw [if_neg h2]
        by_cases h3 : c = '\x08'
        · subst h3
          simp only [if_pos rfl, List.cons_append, List.nil_append, List.append_assoc]
          rw [parseStringBody.eq_def]
          simp [ih]
        · rw [if_neg h3]
          by_cases h4 : c = '\x09'
          · subst h4
            simp only [if_pos rfl, List.cons_append, List.nil_append, List.append_assoc]
            rw [parseStringBody.eq_def]
            simp [ih]
          · rw [if_neg h4]
            by_cases h5 : c = '\x0a'
            · subst h5
              simp only [if_pos rfl, List.cons_append, List.nil_append, List.append_assoc]
              rw [parseStringBody.eq_def]
              simp [ih]
            · rw [if_neg h5]
              by_cases h6 : c = '\x0c'
              · subst h6
                simp only [if_pos rfl, List.cons_append, List.nil_append, List.append_assoc]
                rw [parseStringBody.eq_def]
                simp [ih]
              · rw [if_neg h6]
                by_cases h7 : c = '\x0d'
                · subst h7
                  simp only [if_pos rfl, List.cons_append, List.nil_append, List.append_assoc]
                  rw [parseStringBody.eq_def]
                  simp [ih]
                · rw [if_neg h7]
                  by_cases h8 : c.toNat < 0x20
                  · rw [if_pos h8]
                    have hdv1 : hexDigitVal (hexDigit (c.toNat / 16)) = some (c.toNat / 16) :=
                      hexDigitVal_hexDigit (by omega)
                    have hdv2 : hexDigitVal (hexDigit (c.toNat % 16)) = some (c.toNat % 16) :=
                      hexDigitVal_hexDigit (Nat.mod_lt _ (by omega))
                    have hv : ((0 * 16 + 0) * 16 + c.toNat / 16) * 16 + c.toNat % 16
                        = c.toNat := by omega
                    have hlt : c.toNat < 0xd800 := by omega
                    simp only [List.cons_append, List.nil_append, List.append_assoc]
                    rw [parseStringBody.eq_def]
                    simp only [reduceIte, reduceCtorEq]
                    simp only [show hexDigitVal '0' = some 0 from rfl, hdv1, hdv2]
                    simp only [hv]
                    rw [if_pos (Or.inl hlt), ih]
                    simp [Char.ofNat_toNat]
                  · rw [if_neg h8]
                    simp only [List.cons_append, List.nil_append]
                    rw [parseStringBody.eq_def]
                    simp [h1, h2, h8, ih]

example : normalize_text "check https://x.co now  now" = "check now now" := by decide
example : normalize_text "http" = "http" := by decide
example : tokenize "Hello, world's 2nd!" = ["hello", "world's", "2nd"] := by decide
example : split_sentences "One. Two?! Three" = ["One", "Two", "Three"] := by decide

theorem jsize_pos : ∀ v : PyJson, 1 ≤ jsize v := by
  intro v
  cases v <;> simp only [jsize] <;> omega

theorem jsizeList_pos : ∀ xs : List PyJson, 1 ≤ jsizeList xs := by
  intro xs
  cases xs <;> simp only [jsizeList] <;> omega

theorem jsizeFields_pos : ∀ fs : List (String × PyJson), 1 ≤ jsizeFields fs := by
  intro fs
  rcases fs with _ | ⟨⟨k, v⟩, fs⟩ <;> simp only [jsizeFields] <;> omega

theorem char_ne_of_not_digit {c d : Char} (h : c.isDigit = true) (hd : d.isDigit = false) :
    c ≠ d :=
  fun he => by rw [he, hd] at h; exact Bool.noConfusion h

theorem digit_pyIsSpace {c : Char} (h : c.isDigit = true) : pyIsSpace c = false := by
  have h1 := char_ne_of_not_digit h (show (' ' : Char).isDigit = false by decide)
  have h2 := char_ne_of_not_digit h (show ('\t' : Char).isDigit = false by decide)
  have h3 := char_ne_of_not_digit h (show ('\n' : Char).isDigit = false by decide)
  have h4 := char_ne_of_not_digit h (show ('\r' : Char).isDigit = false by decide)
  have h5 := char_ne_of_not_digit h (show ('\x0b' : Char).isDigit = false by decide)
  have h6 := char_ne_of_not_digit h (show ('\x0c' : Char).isDigit = false by decide)
  simp [pyIsSpace, h1, h2, h3, h4, h5, h6]

theorem digit_jsonWs {c : Char} (h : c.isDigit = true) : jsonWs c = false := by
  have h1 := char_ne_of_not_digit h (show (' ' : Char).isDigit = false by decide)
  have h2 := char_ne_of_not_digit h (show ('\t' : Char).isDigit = false by decide)
  have h3 := char_ne_of_not_digit h (show ('\n' : Char).isDigit = false by decide)
  have h4 := char_ne_of_not_digit h (show ('\r' : Char).isDigit = false by decide)
  simp [jsonWs, h1, h2, h3, h4]

theorem digit_noNL {c : Char} (h : c.isDigit = true) : c ≠ '\x0a' ∧ c ≠ '\x0d' :=
  ⟨char_ne_of_not_digit h (by decide), char_ne_of_not_digit h (by decide)⟩

theorem hexDigit_noNL {m : Nat} (h : m < 16) :
    hexDigit m ≠ '\x0a' ∧ hexDigit m ≠ '\x0d' := by
  interval_cases m <;> exact ⟨by decide, by decide⟩

theorem escChar_noNL (a : Char) : ∀ c ∈ escChar a, c ≠ '\x0a' ∧ c ≠ '\x0d' := by
  intro c hc
  rw [escChar] at hc
  split_ifs at hc with h1 h2 h3 h4 h5 h6 h7 h8
  · simp at hc; rcases hc with rfl | rfl <;> exact ⟨by decide, by decide⟩
  · simp at hc; rcases hc with rfl | rfl <;> exact ⟨by decide, by decide⟩
  · simp at hc; rcases hc with rfl | rfl <;> exact ⟨by decide, by decide⟩
  · simp at hc; rcases hc with rfl | rfl <;> exact ⟨by decide, by decide⟩
  · simp at hc; rcases hc with rfl | rfl <;> exact ⟨by decide, by decide⟩
  · simp at hc; rcases hc with rfl | rfl <;> exact ⟨by decide, by decide⟩
  · simp at hc; rcases hc with rfl | rfl <;> exact ⟨by decide, by decide⟩
  · rw [List.mem_cons, List.mem_cons, List.mem_cons, List.mem_cons, List.mem_cons,
      List.mem_singleton] at hc
    rcases hc with rfl | rfl | rfl | rfl | rfl | rfl <;>
      first
      | exact hexDigit_noNL (by omega)
      | exact ⟨by decide, by decide⟩
  · simp at hc
    subst hc
    constructor <;> rintro rfl <;> exact h8 (by decide)

theorem escString_noNL (l : List Char) : ∀ c ∈ escString l, c ≠ '\x0a' ∧ c ≠ '\x0d' := by
  intro c hc
  rw [escString] at hc
  obtain ⟨a, -, hca⟩ := List.mem_flatMap.mp hc
  exact escChar_noNL a c hca

theorem natDigits_noNL (n : Nat) : ∀ c ∈ natDigits n, c ≠ '\x0a' ∧ c ≠ '\x0d' :=
  fun c hc => digit_noNL (natDigits_all_digit n c hc)

theorem dumps_noNL_aux : ∀ N : Nat,
    (∀ v : PyJson, jsize v ≤ N → ∀ c ∈ dumps v, c ≠ '\x0a' ∧ c ≠ '\x0d') ∧
    (∀ xs : List PyJson, jsizeList xs ≤ N →
      (∀ c ∈ dumpsList xs, c ≠ '\x0a' ∧ c ≠ '\x0d') ∧
      (∀ c ∈ dumpsListTail xs, c ≠ '\x0a' ∧ c ≠ '\x0d')) ∧
    (∀ fs : List (String × PyJson), jsizeFields fs ≤ N →
      (∀ c ∈ dumpsFields fs, c ≠ '\x0a' ∧ c ≠ '\x0d') ∧
      (∀ c ∈ dumpsFieldsTail fs, c ≠ '\x0a' ∧ c ≠ '\x0d')) := by
  intro N
  induction N with
  | zero =>
    refine ⟨fun v hv => absurd hv (by have := jsize_pos v; omega),
      fun xs hxs => absurd hxs (by have := jsizeList_pos xs; omega),
      fun fs hfs => absurd hfs (by have := jsizeFields_pos fs; omega)⟩
  | succ N ih =>
    obtain ⟨ihv, ihl, ihf⟩ := ih
    refine ⟨?_, ?_, ?_⟩
    · intro v hv
      cases v with
      | null =>
        intro c hc
        rw [show dumps PyJson.null = ['n', 'u', 'l', 'l'] from rfl] at hc
        fin_cases hc <;> exact ⟨by decide, by decide⟩
      | bool b =>
        cases b with
        | true =>
          intro c hc
          rw [show dumps (PyJson.bool true) = ['t', 'r', 'u', 'e'] from rfl] at hc
          fin_cases hc <;> exact ⟨by decide, by decide⟩
        | false =>
          intro c hc
          rw [show dumps (PyJson.bool false) = ['f', 'a', 'l', 's', 'e'] from rfl] at hc
          fin_cases hc <;> exact ⟨by decide, by decide⟩
      | int n =>
        intro c hc
        rw [show dumps (PyJson.int n) = intDigits n from rfl, intDigits] at hc
        split_ifs at hc
        · rcases List.mem_cons.mp hc with rfl | h
          · exact ⟨by decide, by decide⟩
          · exact natDigits_noNL _ c h
        · exact natDigits_noNL _ c hc
      | str s =>
        intro c hc
        rw [show dumps (PyJson.str s) = '"' :: (escString s.data ++ ['"']) from rfl] at hc
        rcases List.mem_cons.mp hc with rfl | h
        · exact ⟨by decide, by decide⟩
        · rcases List.mem_append.mp h with h | h
          · exact escString_noNL _ c h
          · rcases List.mem_singleton.mp h with rfl
            exact ⟨by decide, by decide⟩
      | arr xs =>
        intro c hc
        rw [show dumps (PyJson.arr xs) = '[' :: (dumpsList xs ++ [']']) from rfl] at hc
        rcases List.mem_cons.mp hc with rfl | h
        · exact ⟨by decide, by decide⟩
        · rcases List.mem_append.mp h with h | h
          · exact (ihl xs (by simp only [jsize] at hv; omega)).1 c h
          · rcases List.mem_singleton.mp h with rfl
            exact ⟨by decide, by decide⟩
      | obj fs =>
        intro c hc
        rw [show dumps (PyJson.obj fs) = '\x7b' :: (dumpsFields fs ++ ['\x7d']) from rfl] at hc
        rcases List.mem_cons.mp hc with rfl | h
        · exact ⟨by decide, by decide⟩
        · rcases List.mem_append.mp h with h | h
          · exact (ihf fs (by simp only [jsize] at hv; omega)).1 c h
          · rcases List.mem_singleton.mp h with rfl
            exact ⟨by decide, by decide⟩
    · intro xs hxs
      cases xs with
      | nil => exact ⟨fun c hc => absurd hc (by simp [dumpsList]),
          fun c hc => absurd hc (by simp [dumpsListTail])⟩
      | cons x xs =>
        have hx : jsize x ≤ N := by
          simp only [jsizeList] at hxs
          have := jsizeList_pos xs
          omega
        have hxs' : jsizeList xs ≤ N := by
          simp only [jsizeList] at hxs
          have := jsize_pos x
          omega
        constructor
        · intro c hc
          rw [show dumpsList (x :: xs) = dumps x ++ dumpsListTail xs from rfl] at hc
          rcases List.mem_append.mp hc with h | h
          · exact ihv x hx c h
          · exact (ihl xs hxs').2 c h
        · intro c hc
          rw [show dumpsListTail (x :: xs)
              = ',' :: ' ' :: (dumps x ++ dumpsListTail xs) from rfl] at hc
          rcases List.mem_cons.mp hc with rfl | h
          · exact ⟨by decide, by decide⟩
          · rcases List.mem_cons.mp h with rfl | h
            · exact ⟨by decide, by decide⟩
            · rcases List.mem_append.mp h with h | h
              · exact ihv x hx c h
              · exact (ihl xs hxs').2 c h
    · intro fs hfs
      rcases fs with _ | ⟨⟨k, v⟩, fs⟩
      · exact ⟨fun c hc => absurd hc (by simp [dumpsFields]),
          fun c hc => absurd hc (by simp [dumpsFieldsTail])⟩
      · have hv : jsize v ≤ N := by
          simp only [jsizeFields] at hfs
          have := jsizeFields_pos fs
          omega
        have hfs' : jsizeFields fs ≤ N := by
          simp only [jsizeFields] at hfs
          have := jsize_pos v
          omega
        have hkey : ∀ c ∈ ('"' :: (escString k.data ++ ['"', ':', ' '])) ++ dumps v ++
            dumpsFieldsTail fs, c ≠ '\x0a' ∧ c ≠ '\x0d' := by
          intro c hc
          rcases List.mem_append.mp hc with h | h
          · rcases List.mem_append.mp h with h | h
            · rcases List.mem_cons.mp h with rfl | h
              · exact ⟨by decide, by decide⟩
              · rcases List.mem_append.mp h with h | h
                · exact escString_noNL _ c h
                · fin_cases h <;> exact ⟨by decide, by decide⟩
            · exact ihv v hv c h
          · exact (ihf fs hfs').2 c h
        constructor
        · intro c hc
          rw [show dumpsFields ((k, v) :: fs)
              = ('"' :: (escString k.data ++ ['"', ':', ' '])) ++ dumps v ++
                dumpsFieldsTail fs from rfl] at hc
          exact hkey c hc
        · intro c hc
          rw [show dumpsFieldsTail ((k, v) :: fs)
              = ',' :: ' ' :: (('"' :: (escString k.data ++ ['"', ':', ' '])) ++ dumps v ++
                dumpsFieldsTail fs) from rfl] at hc
          rcases List.mem_cons.mp hc with rfl | h
          · exact ⟨by decide, by decide⟩
          · rcases List.mem_cons.mp h with rfl | h
            · exact ⟨by decide, by decide⟩
            · exact hkey c h

theorem dumps_noNL (v : PyJson) : ∀ c ∈ dumps v, c ≠ '\x0a' ∧ c ≠ '\x0d' :=
  (dumps_noNL_aux (jsize v)).1 v le_rfl

/-- A printed value starts with a non-whitespace character that is not a
closing bracket. -/
theorem dumps_head_spec : ∀ v : PyJson, ∃ c t, dumps v = c :: t ∧
    pyIsSpace c = false ∧ jsonWs c = false ∧ c ≠ ']' := by
  intro v
  cases v with
  | null => exact ⟨'n', ['u', 'l', 'l'], rfl, by decide, by decide, by decide⟩
  | bool b =>
    cases b with
    | true => exact ⟨'t', ['r', 'u', 'e'], rfl, by decide, by decide, by decide⟩
    | false => exact ⟨'f', ['a', 'l', 's', 'e'], rfl, by decide, by decide, by decide⟩
  | int n =>
    by_cases hn : n < 0
    · refine ⟨'-', natDigits n.natAbs, ?_, by decide, by decide, by decide⟩
      show intDigits n = _
      rw [intDigits, if_pos hn]
    · rcases hq : natDigits n.toNat with _ | ⟨c, t⟩
      · exact absurd hq (natDigits_ne_nil _)
      · have hdig : c.isDigit = true :=
          natDigits_all_digit _ c (by rw [hq]; exact List.mem_cons_self _ _)
        refine ⟨c, t, ?_, digit_pyIsSpace hdig, digit_jsonWs hdig,
          char_ne_of_not_digit hdig (by decide)⟩
        show intDigits n = _
        rw [intDigits, if_neg hn, hq]
  | str s => exact ⟨'"', escString s.data ++ ['"'], rfl, by decide, by decide, by decide⟩
  | arr xs => exact ⟨'[', dumpsList xs ++ [']'], rfl, by decide, by decide, by decide⟩
  | obj fs => exact ⟨'\x7b', dumpsFields fs ++ ['\x7d'], rfl, by decide, by decide, by decide⟩

theorem dumps_ne_nil (v : PyJson) : dumps v ≠ [] := by
  obtain ⟨c, t, hct, -⟩ := dumps_head_spec v
  rw [hct]
  exact List.cons_ne_nil _ _

theorem natDigits_last_digit (n : Nat) :
    ∃ c, (natDigits n).getLast? = some c ∧ c.isDigit = true := by
  by_cases h : n < 10
  · rw [natDigits_lt h]
    exact ⟨Char.ofNat (48 + n), rfl, charOfNat_digit_isDigit h⟩
  · rw [natDigits_ge (by omega)]
    exact ⟨Char.ofNat (48 + n % 10), List.getLast?_concat _,
      charOfNat_digit_isDigit (Nat.mod_lt _ (by omega))⟩

/-- A printed value ends with a non-whitespace character. -/
theorem dumps_last_spec : ∀ v : PyJson, ∃ c, (dumps v).getLast? = some c ∧
    pyIsSpace c = false := by
  intro v
  cases v with
  | null => exact ⟨'l', by decide, by decide⟩
  | bool b =>
    cases b with
    | true => exact ⟨'e', by decide, by decide⟩
    | false => exact ⟨'e', by decide, by decide⟩
  | int n =>
    by_cases hn : n < 0
    · obtain ⟨c, hc, hdig⟩ := natDigits_last_digit n.natAbs
      refine ⟨c, ?_, digit_pyIsSpace hdig⟩
      show (intDigits n).getLast? = some c
      rw [intDigits, if_pos hn,
        show '-' :: natDigits n.natAbs = ['-'] ++ natDigits n.natAbs from rfl,
        List.getLast?_append_of_ne_nil _ (natDigits_ne_nil _)]
      exact hc
    · obtain ⟨c, hc, hdig⟩ := natDigits_last_digit n.toNat
      refine ⟨c, ?_, digit_pyIsSpace hdig⟩
      show (intDigits n).getLast? = some c
      rw [intDigits, if_neg hn]
      exact hc
  | str s =>
    refine ⟨'"', ?_, by decide⟩
    show ('"' :: (escString s.data ++ ['"'])).getLast? = some '"'
    rw [← List.cons_append, List.getLast?_concat]
  | arr xs =>
    refine ⟨']', ?_, by decide⟩
    show ('[' :: (dumpsList xs ++ [']'])).getLast? = some ']'
    rw [← List.cons_append, List.getLast?_concat]
  | obj fs =>
    refine ⟨'\x7d', ?_, by decide⟩
    show ('\x7b' :: (dumpsFields fs ++ ['\x7d'])).getLast? = some '\x7d'
    rw [← List.cons_append, List.getLast?_concat]

/-- The reader fuel bound: the call depth needed for a printed value is
covered by twice its printed length. -/
theorem jsize_le_dumps_length : ∀ N : Nat,
    (∀ v : PyJson, jsize v ≤ N → jsize v + 1 ≤ 2 * (dumps v).length) ∧
    (∀ xs : List PyJson, jsizeList xs ≤ N →
      jsizeList xs ≤ 2 * (dumpsList xs).length + 1 ∧
      jsizeList xs ≤ 2 * (dumpsListTail xs).length + 1) ∧
    (∀ fs : List (String × PyJson), jsizeFields fs ≤ N →
      jsizeFields fs ≤ 2 * (dumpsFields fs).length + 1 ∧
      jsizeFields fs ≤ 2 * (dumpsFieldsTail fs).length + 1) := by
  intro N
  induction N with
  | zero =>
    refine ⟨fun v hv => absurd hv (by have := jsize_pos v; omega),
      fun xs hxs => absurd hxs (by have := jsizeList_pos xs; omega),
      fun fs hfs => absurd hfs (by have := jsizeFields_pos fs; omega)⟩
  | succ N ih =>
    obtain ⟨ihv, ihl, ihf⟩ := ih
    refine ⟨?_, ?_, ?_⟩
    · intro v hv
      cases v with
      | null => decide
      | bool b => cases b <;> decide
      | int n =>
        have hlen : 1 ≤ (dumps (PyJson.int n)).length := by
          rcases hq : dumps (PyJson.int n) with _ | ⟨c, t⟩
          · exact absurd hq (dumps_ne_nil _)
          · simp
        simp only [jsize]
        omega
      | str s =>
        have : (dumps (PyJson.str s)).length
            = 1 + ((escString s.data).length + 1) := by
          rw [show dumps (PyJson.str s) = '"' :: (escString s.data ++ ['"']) from rfl]
          simp only [List.length_cons, List.length_append, List.length_singleton, List.length_nil]
          omega
        simp only [jsize]
        omega
      | arr xs =>
        have hsz : jsizeList xs ≤ N := by
          simp only [jsize] at hv
          omega
        have hb := (ihl xs hsz).1
        have : (dumps (PyJson.arr xs)).length = 1 + ((dumpsList xs).length + 1) := by
          rw [show dumps (PyJson.arr xs) = '[' :: (dumpsList xs ++ [']']) from rfl]
          simp only [List.length_cons, List.length_append, List.length_singleton, List.length_nil]
          omega
        simp only [jsize] at hv ⊢
        omega
      | obj fs =>
        have hsz : jsizeFields fs ≤ N := by
          simp only [jsize] at hv
          omega
        have hb := (ihf fs hsz).1
        have : (dumps (PyJson.obj fs)).length = 1 + ((dumpsFields fs).length + 1) := by
          rw [show dumps (PyJson.obj fs) = '\x7b' :: (dumpsFields fs ++ ['\x7d']) from rfl]
          simp only [List.length_cons, List.length_append, List.length_singleton, List.length_nil]
          omega
        simp only [jsize] at hv ⊢
        omega
    · intro xs hxs
      cases xs with
      | nil => exact ⟨by decide, by decide⟩
      | cons x xs =>
        have hx : jsize x ≤ N := by
          simp only [jsizeList] at hxs
          have := jsizeList_pos xs
          omega
        have hxs' : jsizeList xs ≤ N := by
          simp only [jsizeList] at hxs
          have := jsize_pos x
          omega
        have hbx := ihv x hx
        have hbxs := (ihl xs hxs').2
        have h1 : (dumpsList (x :: xs)).length
            = (dumps x).length + (dumpsListTail xs).length := by
          rw [show dumpsList (x :: xs) = dumps x ++ dumpsListTail xs from rfl]
          simp only [List.length_append]
        have h2 : (dumpsListTail (x :: xs)).length
            = 2 + ((dumps x).length + (dumpsListTail xs).length) := by
          rw [show dumpsListTail (x :: xs)
              = ',' :: ' ' :: (dumps x ++ dumpsListTail xs) from rfl]
          simp only [List.length_cons, List.length_append]
          omega
        simp only [jsizeList]
        omega
    · intro fs hfs
      rcases fs with _ | ⟨⟨k, v⟩, fs⟩
      · exact ⟨by decide, by decide⟩
      · have hv : jsize v ≤ N := by
          simp only [jsizeFields] at hfs
          have := jsizeFields_pos fs
          omega
        have hfs' : jsizeFields fs ≤ N := by
          simp only [jsizeFields] at hfs
          have := jsize_pos v
          omega
        have hbv := ihv v hv
        have hbfs := (ihf fs hfs').2
        have h1 : (dumpsFields ((k, v) :: fs)).length
            = (1 + ((escString k.data).length + 3)) + (dumps v).length +
              (dumpsFieldsTail fs).length := by
          rw [show dumpsFields ((k, v) :: fs)
              = ('"' :: (escString k.data ++ ['"', ':', ' '])) ++ dumps v ++
                dumpsFieldsTail fs from rfl]
          simp only [List.length_cons, List.length_append, List.length_singleton, List.length_nil]
          omega
        have h2 : (dumpsFieldsTail ((k, v) :: fs)).length
            = 2 + ((1 + ((escString k.data).length + 3)) + (dumps v).length +
              (dumpsFieldsTail fs).length) := by
          rw [show dumpsFieldsTail ((k, v) :: fs)
              = ',' :: ' ' :: (('"' :: (escString k.data ++ ['"', ':', ' '])) ++ dumps v ++
                dumpsFieldsTail fs) from rfl]
          simp only [List.length_cons, List.length_append, List.length_singleton, List.length_nil]
          omega
        simp only [jsizeFields]
        omega

theorem dumps_append_dropWhile (v : PyJson) (X : List Char) :
    (dumps v ++ X).dropWhile jsonWs = dumps v ++ X := by
  obtain ⟨c, t, hct, -, hws, -⟩ := dumps_head_spec v
  rw [hct, List.cons_append, List.dropWhile_cons, hws]
  simp

theorem dumpsList_close_dropWhile (xs : List PyJson) (rest : List Char) :
    (dumpsList xs ++ ']' :: rest).dropWhile jsonWs = dumpsList xs ++ ']' :: rest := by
  cases xs with
  | nil => rfl
  | cons x xs =>
    rw [show dumpsList (x :: xs) = dumps x ++ dumpsListTail xs from rfl, List.append_assoc]
    exact dumps_append_dropWhile x _

theorem dumpsFields_close_dropWhile (fs : List (String × PyJson)) (rest : List Char) :
    (dumpsFields fs ++ '\x7d' :: rest).dropWhile jsonWs = dumpsFields fs ++ '\x7d' :: rest := by
  rcases fs with _ | ⟨⟨k, v⟩, fs⟩
  · rfl
  · rfl

theorem dumpsListTail_close_dropWhile (xs : List PyJson) (rest : List Char) :
    (dumpsListTail xs ++ ']' :: rest).dropWhile jsonWs = dumpsListTail xs ++ ']' :: rest := by
  cases xs with
  | nil => rfl
  | cons y r => rfl

theorem dumpsFieldsTail_close_dropWhile (fs : List (String × PyJson)) (rest : List Char) :
    (dumpsFieldsTail fs ++ '\x7d' :: rest).dropWhile jsonWs
      = dumpsFieldsTail fs ++ '\x7d' :: rest := by
  rcases fs with _ | ⟨⟨k, v⟩, fs⟩
  · rfl
  · rfl

theorem numBoundary_dumpsListTail_close (xs : List PyJson) (rest : List Char) :
    numBoundary (dumpsListTail xs ++ ']' :: rest) = true := by
  cases xs with
  | nil => rfl
  | cons y r => rfl

theorem numBoundary_dumpsFieldsTail_close (fs : List (String × PyJson)) (rest : List Char) :
    numBoundary (dumpsFieldsTail fs ++ '\x7d' :: rest) = true := by
  rcases fs with _ | ⟨⟨k, v⟩, fs⟩
  · rfl
  · rfl

/-- The reader inverts the printer: with enough fuel, each reader returns
the printed value and the untouched remainder of the input. -/
theorem parse_dumps : ∀ f : Nat,
    (∀ v : PyJson, ∀ rest l : List Char, jsize v ≤ f → numBoundary rest = true →
      l.dropWhile jsonWs = dumps v ++ rest → parseValue f l = some (v, rest)) ∧
    (∀ xs : List PyJson, ∀ rest : List Char, jsizeList xs ≤ f →
      parseElems f (dumpsList xs ++ ']' :: rest) = some (.arr xs, rest)) ∧
    (∀ xs : List PyJson, ∀ rest : List Char, jsizeList xs ≤ f →
      parseElemsTail f (dumpsListTail xs ++ ']' :: rest) = some (.arr xs, rest)) ∧
    (∀ fs : List (String × PyJson), ∀ rest : List Char, jsizeFields fs ≤ f →
      parseMembers f (dumpsFields fs ++ '\x7d' :: rest) = some (.obj fs, rest)) ∧
    (∀ fs : List (String × PyJson), ∀ rest : List Char, jsizeFields fs ≤ f →
      parseMembersTail f (dumpsFieldsTail fs ++ '\x7d' :: rest) = some (.obj fs, rest)) := by
  intro f
  induction f with
  | zero =>
    refine ⟨fun v rest l hv _ _ => absurd hv (by have := jsize_pos v; omega),
      fun xs rest hxs => absurd hxs (by have := jsizeList_pos xs; omega),
      fun xs rest hxs => absurd hxs (by have := jsizeList_pos xs; omega),
      fun fs rest hfs => absurd hfs (by have := jsizeFields_pos fs; omega),
      fun fs rest hfs => absurd hfs (by have := jsizeFields_pos fs; omega)⟩
  | succ f ih =>
    obtain ⟨ihv, ihe, ihet, ihm, ihmt⟩ := ih
    refine ⟨?_, ?_, ?_, ?_, ?_⟩
    · intro v rest l hsz hnb hl
      cases v with
      | null =>
        rw [show dumps PyJson.null ++ rest = 'n' :: 'u' :: 'l' :: 'l' :: rest from rfl] at hl
        rw [parseValue.eq_def]
        simp [hl]
      | bool b =>
        cases b with
        | true =>
          rw [show dumps (PyJson.bool true) ++ rest
              = 't' :: 'r' :: 'u' :: 'e' :: rest from rfl] at hl
          rw [parseValue.eq_def]
          simp [hl]
        | false =>
          rw [show dumps (PyJson.bool false) ++ rest
              = 'f' :: 'a' :: 'l' :: 's' :: 'e' :: rest from rfl] at hl
          rw [parseValue.eq_def]
          simp [hl]
      | int n =>
        by_cases hn : n < 0
        · have hshape : dumps (PyJson.int n) ++ rest
              = '-' :: (natDigits n.natAbs ++ rest) := by
            rw [show dumps (PyJson.int n) = intDigits n from rfl, intDigits, if_pos hn,
              List.cons_append]
          rw [hshape] at hl
          have hpn := parseNatNum_natDigits n.natAbs rest hnb
          have hcast : -((n.natAbs : Nat) : Int) = n := by omega
          rw [parseValue.eq_def]
          simp [hl, hpn]
          rw [Int.abs_eq_natAbs]
          omega
        · have hq' : dumps (PyJson.int n) = natDigits n.toNat := by
            rw [show dumps (PyJson.int n) = intDigits n from rfl, intDigits, if_neg hn]
          rcases hq : natDigits n.toNat with _ | ⟨c, t⟩
          · exact absurd hq (natDigits_ne_nil _)
          · have hdig : c.isDigit = true :=
              natDigits_all_digit _ c (by rw [hq]; exact List.mem_cons_self _ _)
            have hne1 := char_ne_of_not_digit hdig (show ('n' : Char).isDigit = false by decide)
            have hne2 := char_ne_of_not_digit hdig (show ('t' : Char).isDigit = false by decide)
            have hne3 := char_ne_of_not_digit hdig (show ('f' : Char).isDigit = false by decide)
            have hne4 := char_ne_of_not_digit hdig (show ('"' : Char).isDigit = false by decide)
            have hne5 := char_ne_of_not_digit hdig (show ('[' : Char).isDigit = false by decide)
            have hne6 :=
              char_ne_of_not_digit hdig (show ('\x7b' : Char).isDigit = false by decide)
            have hne7 := char_ne_of_not_digit hdig (show ('-' : Char).isDigit = false by decide)
            rw [hq', hq, List.cons_append] at hl
            have hpn : parseNatNum (c :: (t ++ rest)) = some (n.toNat, rest) := by
              rw [show c :: (t ++ rest) = natDigits n.toNat ++ rest from
                by rw [hq, List.cons_append]]
              exact parseNatNum_natDigits _ _ hnb
            have hcast : ((n.toNat : Nat) : Int) = n := by omega
            rw [parseValue.eq_def]
            simp [hl, hne1, hne2, hne3, hne4, hne5, hne6, hne7, hdig, hpn, hcast]
      | str s =>
        have hshape : dumps (PyJson.str s) ++ rest
            = '"' :: (escString s.data ++ '"' :: rest) := by
          rw [show dumps (PyJson.str s) = '"' :: (escString s.data ++ ['"']) from rfl]
          simp
        rw [hshape] at hl
        have hps := parseStringBody_escString s.data rest
        rw [parseValue.eq_def]
        simp [hl, hps]
      | arr xs =>
        have hsz' : jsizeList xs ≤ f := by
          simp only [jsize] at hsz
          omega
        have hshape : dumps (PyJson.arr xs) ++ rest
            = '[' :: (dumpsList xs ++ ']' :: rest) := by
          rw [show dumps (PyJson.arr xs) = '[' :: (dumpsList xs ++ [']']) from rfl]
          simp
        rw [hshape] at hl
        rw [parseValue.eq_def]
        simp [hl, dumpsList_close_dropWhile, ihe xs rest hsz']
      | obj fs =>
        have hsz' : jsizeFields fs ≤ f := by
          simp only [jsize] at hsz
          omega
        have hshape : dumps (PyJson.obj fs) ++ rest
            = '\x7b' :: (dumpsFields fs ++ '\x7d' :: rest) := by
          rw [show dumps (PyJson.obj fs) = '\x7b' :: (dumpsFields fs ++ ['\x7d']) from rfl]
          simp
        rw [hshape] at hl
        rw [parseValue.eq_def]
        simp [hl, dumpsFields_close_dropWhile, ihm fs rest hsz']
    · intro xs rest hsz
      cases xs with
      | nil => rfl
      | cons x xs =>
        have hx : jsize x ≤ f := by
          simp only [jsizeList] at hsz
          have := jsizeList_pos xs
          omega
        have hxs' : jsizeList xs ≤ f := by
          simp only [jsizeList] at hsz
          have := jsize_pos x
          omega
        obtain ⟨c, t, hct, -, hws, hne⟩ := dumps_head_spec x
        have hvx := ihv x (dumpsListTail xs ++ ']' :: rest)
          (dumps x ++ (dumpsListTail xs ++ ']' :: rest)) hx
          (numBoundary_dumpsListTail_close xs rest) (dumps_append_dropWhile x _)
        rw [hct, List.cons_append] at hvx
        have het := ihet xs rest hxs'
        show parseElems (f + 1) (dumps x ++ dumpsListTail xs ++ ']' :: rest)
          = some (.arr (x :: xs), rest)
        rw [List.append_assoc, hct, List.cons_append, parseElems.eq_def]
        simp [hne, hvx, dumpsListTail_close_dropWhile, het]
    · intro xs rest hsz
      cases xs with
      | nil => rfl
      | cons y r =>
        have hy : jsize y ≤ f := by
          simp only [jsizeList] at hsz
          have := jsizeList_pos r
          omega
        have hr : jsizeList r ≤ f := by
          simp only [jsizeList] at hsz
          have := jsize_pos y
          omega
        have hdrop : (' ' :: (dumps y ++ (dumpsListTail r ++ ']' :: rest))).dropWhile jsonWs
            = dumps y ++ (dumpsListTail r ++ ']' :: rest) := by
          rw [List.dropWhile_cons]
          simp [show jsonWs ' ' = true from rfl, dumps_append_dropWhile]
        have hvy := ihv y (dumpsListTail r ++ ']' :: rest)
          (' ' :: (dumps y ++ (dumpsListTail r ++ ']' :: rest))) hy
          (numBoundary_dumpsListTail_close r rest) hdrop
        have het := ihet r rest hr
        show parseElemsTail (f + 1)
            ((',' :: ' ' :: (dumps y ++ dumpsListTail r)) ++ ']' :: rest)
          = some (.arr (y :: r), rest)
        rw [List.cons_append, List.cons_append, List.append_assoc, parseElemsTail.eq_def]
        simp [hvy, dumpsListTail_close_dropWhile, het]
    · intro fs rest hsz
      rcases fs with _ | ⟨⟨k, v⟩, fs⟩
      · rfl
      · have hv : jsize v ≤ f := by
          simp only [jsizeFields] at hsz
          have := jsizeFields_pos fs
          omega
        have hfs' : jsizeFields fs ≤ f := by
          simp only [jsizeFields] at hsz
          have := jsize_pos v
          omega
        have hps := parseStringBody_escString k.data
          (':' :: ' ' :: (dumps v ++ (dumpsFieldsTail fs ++ '\x7d' :: rest)))
        have hdrop : (' ' :: (dumps v ++ (dumpsFieldsTail fs ++ '\x7d' :: rest))).dropWhile
            jsonWs = dumps v ++ (dumpsFieldsTail fs ++ '\x7d' :: rest) := by
          rw [List.dropWhile_cons]
          simp [show jsonWs ' ' = true from rfl, dumps_append_dropWhile]
        have hvv := ihv v (dumpsFieldsTail fs ++ '\x7d' :: rest)
          (' ' :: (dumps v ++ (dumpsFieldsTail fs ++ '\x7d' :: rest))) hv
          (numBoundary_dumpsFieldsTail_close fs rest) hdrop
        have hmt := ihmt fs rest hfs'
        show parseMembers (f + 1)
            ((('"' :: (escString k.data ++ ['"', ':', ' '])) ++ dumps v ++
              dumpsFieldsTail fs) ++ '\x7d' :: rest)
          = some (.obj ((k, v) :: fs), rest)
        have hshape : (('"' :: (escString k.data ++ ['"', ':', ' '])) ++ dumps v ++
              dumpsFieldsTail fs) ++ '\x7d' :: rest
            = '"' :: (escString k.data ++ '"' :: (':' :: ' ' ::
                (dumps v ++ (dumpsFieldsTail fs ++ '\x7d' :: rest)))) := by
          simp
        rw [hshape, parseMembers.eq_def]
        simp [hps, hvv, dumpsFieldsTail_close_dropWhile, hmt, List.dropWhile_cons,
          show jsonWs ':' = false from rfl]
    · intro fs rest hsz
      rcases fs with _ | ⟨⟨k, v⟩, fs⟩
      · rfl
      · have hv : jsize v ≤ f := by
          simp only [jsizeFields] at hsz
          have := jsizeFields_pos fs
          omega
        have hfs' : jsizeFields fs ≤ f := by
          simp only [jsizeFields] at hsz
          have := jsize_pos v
          omega
        have hps := parseStringBody_escString k.data
          (':' :: ' ' :: (dumps v ++ (dumpsFieldsTail fs ++ '\x7d' :: rest)))
        have hdrop : (' ' :: (dumps v ++ (dumpsFieldsTail fs ++ '\x7d' :: rest))).dropWhile
            jsonWs = dumps v ++ (dumpsFieldsTail fs ++ '\x7d' :: rest) := by
          rw [List.dropWhile_cons]
          simp [show jsonWs ' ' = true from rfl, dumps_append_dropWhile]
        have hvv := ihv v (dumpsFieldsTail fs ++ '\x7d' :: rest)
          (' ' :: (dumps v ++ (dumpsFieldsTail fs ++ '\x7d' :: rest))) hv
          (numBoundary_dumpsFieldsTail_close fs rest) hdrop
        have hmt := ihmt fs rest hfs'
        show parseMembersTail (f + 1)
            ((',' :: ' ' :: (('"' :: (escString k.data ++ ['"', ':', ' '])) ++ dumps v ++
              dumpsFieldsTail fs)) ++ '\x7d' :: rest)
          = some (.obj ((k, v) :: fs), rest)
        have hshape : (',' :: ' ' :: (('"' :: (escString k.data ++ ['"', ':', ' '])) ++
              dumps v ++ dumpsFieldsTail fs)) ++ '\x7d' :: rest
            = ',' :: ' ' :: ('"' :: (escString k.data ++ '"' :: (':' :: ' ' ::
                (dumps v ++ (dumpsFieldsTail fs ++ '\x7d' :: rest))))) := by
          simp
        rw [hshape, parseMembersTail.eq_def]
        simp [hps, hvv, dumpsFieldsTail_close_dropWhile, hmt, List.dropWhile_cons,
          show jsonWs ':' = false from rfl, show jsonWs ' ' = true from rfl,
          show jsonWs '"' = false from rfl]

theorem loads_dumps (v : PyJson) : loads ⟨dumps v⟩ = some v := by
  have hb := (jsize_le_dumps_length (jsize v)).1 v le_rfl
  have hfuel : jsize v ≤ 2 * (dumps v).length + 4 := by omega
  have hd : (dumps v).dropWhile jsonWs = dumps v ++ ([] : List Char) := by
    rw [List.append_nil]
    obtain ⟨c, t, hct, -, hws, -⟩ := dumps_head_spec v
    rw [hct, List.dropWhile_cons, hws]
    simp
  have hp := (parse_dumps (2 * (dumps v).length + 4)).1 v [] (dumps v) hfuel rfl hd
  have hu : loads ⟨dumps v⟩
      = (match parseValue (2 * (dumps v).length + 4) (dumps v) with
        | some (w, rest) => if (rest.dropWhile jsonWs).isEmpty then some w else none
        | none => none) := rfl
  rw [hu, hp]
  rfl

theorem translateNewlines_eq_self : ∀ l : List Char, (∀ c ∈ l, c ≠ '\x0d') →
    translateNewlines l = l := by
  intro l
  induction l with
  | nil => intro _; rfl
  | cons c rest ih =>
    intro h
    have hc : c ≠ '\x0d' := h c (List.mem_cons_self _ _)
    rw [translateNewlines.eq_def]
    simp [hc, ih (fun d hd => h d (List.mem_cons_of_mem _ hd))]

theorem splitOnChar_sep_cons (sep : Char) (l : List Char) :
    splitOnChar sep (sep :: l) = [] :: splitOnChar sep l := by
  simp only [splitOnChar, List.foldr_cons, if_pos rfl]
  rfl

theorem splitOnChar_line (sep : Char) :
    ∀ L rest : List Char, (∀ c ∈ L, c ≠ sep) →
      splitOnChar sep (L ++ sep :: rest) = L :: splitOnChar sep rest := by
  intro L
  induction L with
  | nil =>
    intro rest _
    rw [List.nil_append, splitOnChar_sep_cons]
  | cons c L ih =>
    intro rest h
    have hc : c ≠ sep := h c (List.mem_cons_self _ _)
    have hL := ih rest (fun d hd => h d (List.mem_cons_of_mem _ hd))
    rw [List.cons_append]
    simp only [splitOnChar] at hL ⊢
    rw [List.foldr_cons, hL, if_neg hc]

theorem data_foldl_append : ∀ (l : List String) (acc : String),
    (l.foldl (· ++ ·) acc).data = acc.data ++ (l.map String.data).flatten := by
  intro l
  induction l with
  | nil => intro acc; simp
  | cons s l ih =>
    intro acc
    rw [List.foldl_cons, ih, show (acc ++ s).data = acc.data ++ s.data from rfl]
    simp [List.append_assoc]

theorem write_corpus_data (posts : List PyJson) :
    (write_corpus "" posts false).data
      = (posts.map (fun p => dumps p ++ ['\x0a'])).flatten := by
  have h1 : (write_corpus "" posts false).data
      = ((posts.map (fun p => (⟨dumps p⟩ : String) ++ "\n")).foldl (· ++ ·) "").data := rfl
  rw [h1, data_foldl_append,
    show ("" : String).data = ([] : List Char) from rfl, List.nil_append, List.map_map]
  rw [show (String.data ∘ fun p => (⟨dumps p⟩ : String) ++ "\n")
      = fun p : PyJson => dumps p ++ ['\x0a'] from funext (fun p => rfl)]

theorem pyStrip_dumps (v : PyJson) : pyStrip (⟨dumps v⟩ : String) = ⟨dumps v⟩ := by
  show (⟨pyStripList (dumps v)⟩ : String) = ⟨dumps v⟩
  rw [pyStripList_self ?_ ?_]
  · intro c hc
    obtain ⟨c', t, hct, hsp, -, -⟩ := dumps_head_spec v
    rw [hct, List.head?_cons, Option.some.injEq] at hc
    rw [← hc]
    exact hsp
  · intro c hc
    obtain ⟨c', hcl, hsp⟩ := dumps_last_spec v
    rw [hcl, Option.some.injEq] at hc
    rw [← hc]
    exact hsp

theorem dumps_string_ne_empty (v : PyJson) : (⟨dumps v⟩ : String) ≠ "" := by
  intro he
  exact dumps_ne_nil v (congrArg String.data he)

theorem splitOnChar_dumps_flatten : ∀ ps : List PyJson,
    splitOnChar '\x0a' ((ps.map (fun p => dumps p ++ ['\x0a'])).flatten)
      = (ps.map dumps) ++ [[]] := by
  intro ps
  induction ps with
  | nil => rfl
  | cons p ps ih =>
    rw [List.map_cons, List.flatten_cons, List.append_assoc,
      show ['\x0a'] ++ (ps.map (fun p => dumps p ++ ['\x0a'])).flatten
        = '\x0a' :: (ps.map (fun p => dumps p ++ ['\x0a'])).flatten from rfl,
      splitOnChar_line '\x0a' (dumps p) _ (fun c hc => (dumps_noNL p c hc).1), ih,
      List.map_cons, List.cons_append]

theorem filterMap_loads_dumps : ∀ ps : List PyJson,
    ((ps.map dumps).map (fun l => (⟨l⟩ : String))).filterMap
      (fun line =>
        let stripped := pyStrip line
        if stripped = "" then none else loads stripped) = ps := by
  intro ps
  induction ps with
  | nil => rfl
  | cons p ps ih =>
    have hg : (fun line : String =>
        let stripped := pyStrip line
        if stripped = "" then none else loads stripped) (⟨dumps p⟩ : String) = some p := by
      show (if pyStrip (⟨dumps p⟩ : String) = "" then none
        else loads (pyStrip (⟨dumps p⟩ : String))) = some p
      rw [pyStrip_dumps, if_neg (dumps_string_ne_empty p), loads_dumps]
    rw [List.map_cons, List.map_cons]
    refine (List.filterMap_cons_some (f := fun line =>
        let stripped := pyStrip line
        if stripped = "" then none else loads stripped) ?_).trans
      (congrArg (fun t => p :: t) ih)
    exact hg

/-- C10: corpus store round-trip.  Writing any list of JSON values with
`write_corpus` in overwrite mode and reading the contents back with
`read_corpus` returns exactly the original list, in order: every value is
printed on one line with newlines escaped inside strings, so no record is
split, merged, dropped, or reordered. -/
theorem c10_corpus_roundtrip (posts : List PyJson) :
    read_corpus (write_corpus "" posts false) = posts := by
  rw [read_corpus, write_corpus_data]
  have hnr : ∀ c ∈ (posts.map (fun p => dumps p ++ ['\x0a'])).flatten, c ≠ '\x0d' := by
    intro c hc
    obtain ⟨l, hl, hcl⟩ := List.mem_flatten.mp hc
    obtain ⟨p, -, rfl⟩ := List.mem_map.mp hl
    rcases List.mem_append.mp hcl with h | h
    · exact (dumps_noNL p c h).2
    · rcases List.mem_singleton.mp h with rfl
      decide
  rw [translateNewlines_eq_self _ hnr, splitOnChar_dumps_flatten, List.map_append,
    List.filterMap_append]
  have h2 : ((([[]] : List (List Char)).map (fun l => (⟨l⟩ : String))).filterMap
      (fun line =>
        let stripped := pyStrip line
        if stripped = "" then none else loads stripped)) = [] := rfl
  rw [h2, List.append_nil, filterMap_loads_dumps]

/-- One web search hit (`app/research_client.py` `ResearchResult`). -/
structure ResearchResult where
  title : String
  url : String
  snippet : String

/-- The metadata dict `generate` builds (`app/nithin_post_generator.py`
lines 106-115, 135-144, 158-167); its keys are fixed, so it is modelled as
a record.  `sources` holds the `_format_sources` dicts. -/
structure GenMetadata where
  platform : String
  thread : Bool
  variants : Nat
  llm : Bool
  research_used : Bool
  research_query : Option String
  research_summary : String
  sources : List ResearchResult

/-- `GeneratedPost` (`app/nithin_post_generator.py` lines 22-26). -/
structure GeneratedPost where
  text : String
  warnings : List String
  metadata : GenMetadata

/-- The generator's configuration and network collaborators.  The LLM call,
the provider-specific search transports, and the LanguageTool call are
oracles; an `Except.error` is an exception the collaborator raises.  The
two prompt builders are deterministic string computations over the
style-guide JSON (external data), irrelevant to every claim below, so they
enter the environment as functions of the same arguments as in the
source. -/
structure GenEnv where
  llmProvider : Option String
  llm : String → String → Nat → Except String String
  researchProvider : String
  researchApiKey : String
  searchImpl : String → String → Nat → Except String (List ResearchResult)
  ltTool : Option (String → Except String String)
  styleMaxCharsX : Option Nat
  buildSystemPrompt : String → Bool → Nat → Option Nat → String
  buildUserPrompt : String → List String → Option String → Option String →
    List ResearchResult → String → String

/-- `NithinPostGenerator.is_available` (line 62-63):
`llm_provider in ("anthropic", "ollama")`. -/
def pyIsAvailable (env : GenEnv) : Bool :=
  env.llmProvider == some "anthropic" || env.llmProvider == some "ollama"

/-- `_llm_generate` (lines 346-373): dispatch on the provider, raising
`RuntimeError("No LLM provider configured")` when none is set.  The
provider branches (Anthropic / Ollama HTTP calls, both of which strip the
returned text) are the collaborator oracle. -/
def llm_generate (env : GenEnv) (systemPrompt userPrompt : String) (maxTokens : Nat) :
    Except String String :=
  if env.llmProvider == some "anthropic" then env.llm systemPrompt userPrompt maxTokens
  else if env.llmProvider == some "ollama" then env.llm systemPrompt userPrompt maxTokens
  else Except.error "No LLM provider configured"

/-- `ResearchClient.is_available` (lines 27-28): both the provider name and
an API key must be non-empty (`bool(provider and api_key)`). -/
def research_is_available (env : GenEnv) : Bool :=
  !(env.researchProvider == "") && !(env.researchApiKey == "")

/-- `ResearchClient.search` (lines 30-41): empty list when unavailable,
otherwise dispatch to the provider transport (whose `raise_for_status`
failures propagate), and an empty list for an unknown provider. -/
def research_search (env : GenEnv) (query : String) (maxResults : Nat) :
    Except String (List ResearchResult) :=
  if ¬ research_is_available env then Except.ok []
  else if env.researchProvider = "tavily" then env.searchImpl "tavily" query maxResults
  else if env.researchProvider = "serper" then env.searchImpl "serper" query maxResults
  else if env.researchProvider = "brave" then env.searchImpl "brave" query maxResults
  else Except.ok []

/-- Python truthiness of an `Optional[str]`. -/
def pyTruthyStrOpt (o : Option String) : Bool :=
  match o with
  | some s => !(s == "")
  | none => false

/-- Python `a or b` for an `Optional[str]` with a default. -/
def pyOrStr (o : Option String) (d : String) : String :=
  match o with
  | some s => if s == "" then d else s
  | none => d

/-- Python `sep.join(parts)`. -/
def pyJoin (sep : String) : List String → String
  | [] => ""
  | [s] => s
  | s :: rest => s ++ sep ++ pyJoin sep rest

/-- Decimal rendering of a natural number (`str(n)` for `n >= 0`). -/
def natToString (n : Nat) : String :=
  ⟨natDigits n⟩

/-- `_pick_research_query` (lines 273-285): an explicit non-empty query is
stripped and used; otherwise auto-research uses the stripped context when
it has fewer than 20 whitespace-separated words. -/
def pick_research_query (context : String) (researchQuery : Option String)
    (autoResearch : Bool) : Option String :=
  if pyTruthyStrOpt researchQuery then some (pyStrip (researchQuery.getD ""))
  else if ¬ autoResearch then none
  else if (wsTokens context.data).length < 20 then some (pyStrip context)
  else none

/-- The numbered `[i] title: snippet` lines of `_summarize_research`. -/
def summarySources : Nat → List ResearchResult → List String
  | _, [] => []
  | i, r :: rest =>
    ("[" ++ natToString i ++ "] " ++ r.title ++ ": " ++ r.snippet) ::
      summarySources (i + 1) rest

/-- `_summarize_research` (lines 287-314): empty when there are no results
or no LLM; otherwise one LLM call whose failure is swallowed into "". -/
def summarize_research (env : GenEnv) (results : List ResearchResult) (context : String) :
    String :=
  if results.isEmpty || ¬ pyIsAvailable env then ""
  else
    match llm_generate env
      ("You are a research assistant. Summarize the sources into 3-5 bullets. " ++
        "Use only the provided snippets. Do not add new facts.")
      ("Context:\n" ++ context ++ "\n\nSources:\n" ++
        pyJoin "\n" (summarySources 1 results) ++ "\n\nReturn 3-5 concise bullets.") 300 with
    | Except.ok s => s
    | Except.error _ => ""

/-- The constant editor system prompt of `_proofread`. -/
def proofSystemPrompt : String :=
  "You are a careful editor. Fix grammar, spelling, and punctuation only. " ++
    "Do not change meaning, tone, or add/remove facts. Preserve citations like [1]. " ++
    "Keep thread numbering as-is."

/-- `_proofread` (lines 316-344).  With an LLM: one edit call; a raised
error, an empty edit, or an edit longer than 1.2 times the draft yields
`None`.  Without an LLM: the LanguageTool correction under the same length
bound.  `len(edited) > len(draft) * 1.2` is modelled exactly as
`5 * len(edited) > 6 * len(draft)`, which agrees with the float comparison
at every integer length. -/
def proofread (env : GenEnv) (draft platform : String) (thread : Bool) : Option String :=
  if pyIsAvailable env then
    match llm_generate env proofSystemPrompt
      ("Proofread this " ++ platform ++ " draft:\n\n" ++ draft) 900 with
    | Except.error _ => none
    | Except.ok edited =>
      if edited = "" then none
      else if 5 * edited.length > 6 * draft.length then none
      else some edited
  else
    match env.ltTool with
    | none => none
    | some correct =>
      match correct draft with
      | Except.error _ => none
      | Except.ok corrected =>
        if 5 * corrected.length > 6 * draft.length then none
        else some corrected

/-- Python `str.splitlines()` restricted to `\n` separators: split and drop
the suffix after a final newline. -/
def pySplitlines (s : String) : List String :=
  let parts := splitOnChar '\x0a' s.data
  (match parts.getLast? with
   | some [] => parts.dropLast
   | _ => parts).map (fun l => (⟨l⟩ : String))

/-- `_basic_warnings` (lines 381-400): only for platform `x`; the per-post
limit is `max_chars` when truthy, else the style guide's `max_chars`, else
280; threads check each numbered line, single posts the whole text. -/
def basic_warnings (styleMaxCharsX : Option Nat) (text platform : String)
    (maxChars : Option Nat) (thread : Bool) : List String :=
  if platform ≠ "x" then []
  else
    let perPostLimit :=
      match maxChars with
      | some n => if n ≠ 0 then n else styleMaxCharsX.getD 280
      | none => styleMaxCharsX.getD 280
    if thread then
      (pySplitlines text).filterMap (fun line =>
        let cleaned := pyStrip line
        if cleaned = "" then none
        else
          match cleaned.data.head? with
          | some c0 =>
            if c0.isDigit && containsSub ['/'] cleaned.data then
              if cleaned.length > perPostLimit then
                some ("Tweet exceeds " ++ natToString perPostLimit ++ " chars: " ++
                  (⟨cleaned.data.take 60⟩ : String) ++ "...")
              else none
            else none
          | none => none)
    else
      if text.length > perPostLimit then
        ["Post exceeds " ++ natToString perPostLimit ++ " chars."]
      else []

/-- `_fallback_template` (lines 402-430). -/
def fallback_template (context platform : String) (facts : List String)
    (angle cta : Option String) (thread : Bool) : String :=
  let facts_line := if facts.isEmpty then "[ADD FACT]" else pyJoin "; " facts
  let angle_line := pyOrStr angle "pragmatic, balanced take"
  let cta_line := pyOrStr cta "What do you think?"
  if platform = "x" then
    if thread then
      "1/3 " ++ pyStrip context ++ "\n" ++
        "2/3 " ++ ("Data/Example: " ++ facts_line ++ ". " ++ angle_line ++ ".\n") ++
        "3/3 " ++ ("Takeaway: [ADD TAKEAWAY]. " ++ cta_line)
    else
      pyStrip context ++ " Data: " ++ facts_line ++ ". " ++ angle_line ++ ". " ++ cta_line
  else
    pyStrip context ++ "\n\n" ++
      "Data or example: " ++ facts_line ++ ".\n\n" ++
      "What we learned / did: [ADD DETAIL].\n\n" ++
      "Takeaway: " ++ angle_line ++ ". " ++ cta_line

/-- `_format_sources` (lines 375-379). -/
def format_sources (results : List ResearchResult) : List ResearchResult :=
  results.map (fun r => ⟨r.title, r.url, r.snippet⟩)

/-- The research stage of `generate` (lines 86-99): the accumulated
warnings, results, `research_used`, summary, and query used — or the
uncaught exception of the search call. -/
def researchStage (env : GenEnv) (context : String) (allowResearch : Bool)
    (researchQuery : Option String) (autoResearch : Bool) :
    Except String (List String × List ResearchResult × Bool × String × Option String) :=
  if allowResearch then
    if ¬ research_is_available env then
      Except.ok (["Research requested but search API key not configured"], [], false, "", none)
    else
      let q := pick_research_query context researchQuery autoResearch
      if pyTruthyStrOpt q then
        match research_search env (q.getD "") 5 with
        | Except.error e => Except.error e
        | Except.ok results =>
          if ¬ results.isEmpty then
            Except.ok ([], results, true, summarize_research env results context, q)
          else
            Except.ok (["Research returned no results"], results, false, "", q)
      else
        Except.ok (["Research skipped (context sufficient or no query provided)"],
          [], false, "", q)
  else Except.ok ([], [], false, "", none)

/-- `NithinPostGenerator.generate` (lines 65-168).  The research block is
outside any `try`, so a search exception escapes as `Except.error`; only
the `_llm_generate` call at line 129 is wrapped.  `if proofread_text:` is
Python truthiness, so an empty accepted edit also falls to the warning. -/
def generate (env : GenEnv) (context platform : String) (facts : List String)
    (angle cta : Option String) (thread : Bool) (variants : Nat) (maxChars : Option Nat)
    (allowResearch : Bool) (researchQuery : Option String) (autoResearch : Bool)
    (proofreadFlag : Bool) : Except String GeneratedPost :=
  match researchStage env context allowResearch researchQuery autoResearch with
  | Except.error e => Except.error e
  | Except.ok (warnings, research_results, research_used, research_summary,
      research_query_used) =>
    if ¬ pyIsAvailable env then
      Except.ok ⟨fallback_template context platform facts angle cta thread,
        warnings ++ ["No LLM configured. Returned a structured draft template."],
        ⟨platform, thread, 1, false, research_used, research_query_used,
          research_summary, format_sources research_results⟩⟩
    else
      match llm_generate env (env.buildSystemPrompt platform thread variants maxChars)
        (env.buildUserPrompt context facts angle cta research_results research_summary)
        1200 with
      | Except.error exc =>
        Except.ok ⟨fallback_template context platform facts angle cta thread,
          warnings ++ ["LLM error: " ++ exc ++ ". Returned a structured draft template."],
          ⟨platform, thread, 1, false, research_used, research_query_used,
            research_summary, format_sources research_results⟩⟩
      | Except.ok text =>
        let step :=
          if proofreadFlag then
            match proofread env text platform thread with
            | some pt =>
              if pt ≠ "" then (pt, warnings)
              else (text, warnings ++ ["Proofread step failed, returning original draft"])
            | none => (text, warnings ++ ["Proofread step failed, returning original draft"])
          else (text, warnings)
        Except.ok ⟨step.1,
          step.2 ++ basic_warnings env.styleMaxCharsX step.1 platform maxChars thread,
          ⟨platform, thread, variants, true, research_used, research_query_used,
            research_summary, format_sources research_results⟩⟩

theorem llm_generate_of_available {env : GenEnv} (h : pyIsAvailable env = true)
    (s u : String) (n : Nat) : llm_generate env s u n = env.llm s u n := by
  by_cases h1 : env.llmProvider == some "anthropic"
  · simp [llm_generate, h1]
  · have h2 : env.llmProvider == some "ollama" := by
      rw [pyIsAvailable, Bool.or_eq_true_iff] at h
      rcases h with h | h
      · exact absurd h h1
      · exact h
    simp [llm_generate, Bool.of_not_eq_true h1, h2]

/-- C1: contrary to the claim, a transport error raised by the search
collaborator during the research stage of `generate` is NOT caught: the
research block (lines 86-99) sits outside every `try`, so the exception
escapes `generate` itself (and `app/main.py` has no handler around the
call).  Whenever a research query is chosen and the search call raises,
`generate` propagates exactly that error. -/
theorem c1_search_error_escapes_generate (env : GenEnv) (context platform : String)
    (facts : List String) (angle cta : Option String) (thread : Bool) (variants : Nat)
    (maxChars : Option Nat) (researchQuery : Option String) (autoResearch : Bool)
    (proofreadFlag : Bool) (e : String)
    (havail : research_is_available env = true)
    (hq : pyTruthyStrOpt (pick_research_query context researchQuery autoResearch) = true)
    (hsearch : research_search env
      ((pick_research_query context researchQuery autoResearch).getD "") 5
      = Except.error e) :
    generate env context platform facts angle cta thread variants maxChars true
      researchQuery autoResearch proofreadFlag = Except.error e := by
  have hstage : researchStage env context true researchQuery autoResearch
      = Except.error e := by
    rw [researchStage]
    simp [havail, hq, hsearch]
  simp [generate, hstage]

/-- Environment for the C1 example: Tavily configured, and the transport
call raises a timeout. -/
def c1Env : GenEnv :=
  ⟨none, fun _ _ _ => Except.error "", "tavily", "k",
    fun _ _ _ => Except.error "ReadTimeout", none, none,
    fun _ _ _ _ => "", fun _ _ _ _ _ _ => ""⟩

/-- Witness for C1: with a configured search provider whose transport call
times out and an explicit research query, `generate` returns that very
error. -/
theorem c1_witness :
    generate c1Env "ctx" "x" [] none none false 3 none true (some "nifty latest") true true
      = Except.error "ReadTimeout" :=
  c1_search_error_escapes_generate c1Env "ctx" "x" [] none none false 3 none
    (some "nifty latest") true true "ReadTimeout" (by decide) (by decide) rfl

/-- Counterexample for C1 as stated: the transport failure is propagated
out of `generate` as an error, and no templated `GeneratedPost` is
returned to the caller. -/
theorem c1_counterexample :
    research_search c1Env "nifty latest" 5 = Except.error "ReadTimeout" ∧
    generate c1Env "ctx" "x" [] none none false 3 none true (some "nifty latest") true true
      = Except.error "ReadTimeout" ∧
    ∀ post : GeneratedPost,
      generate c1Env "ctx" "x" [] none none false 3 none true (some "nifty latest") true
        true ≠ Except.ok post := by
  refine ⟨rfl, rfl, ?_⟩
  intro post h
  rw [show generate c1Env "ctx" "x" [] none none false 3 none true (some "nifty latest")
      true true = Except.error "ReadTimeout" from rfl] at h
  exact Except.noConfusion h

/-- Environment for the C2 example: no LLM provider and no research key
configured (the default deployment state). -/
def c2Env : GenEnv :=
  ⟨none, fun _ _ _ => Except.error "", "", "",
    fun _ _ _ => Except.ok [], none, none,
    fun _ _ _ _ => "", fun _ _ _ _ _ _ => ""⟩

/-- C2: with no LLM provider configured, any completed `generate` call
returns exactly the deterministic fallback template as its text, carries
the "No LLM configured" warning, and reports `llm = false` and
`variants = 1`; the concrete call of the claim yields a three-line
numbered thread draft containing the literal fact string. -/
theorem c2_no_llm_fallback :
    (∀ (env : GenEnv) (context platform : String) (facts : List String)
      (angle cta : Option String) (thread : Bool) (variants : Nat) (maxChars : Option Nat)
      (allowResearch : Bool) (researchQuery : Option String) (autoResearch : Bool)
      (proofreadFlag : Bool) (post : GeneratedPost),
      pyIsAvailable env = false →
      generate env context platform facts angle cta thread variants maxChars allowResearch
        researchQuery autoResearch proofreadFlag = Except.ok post →
      post.text = fallback_template context platform facts angle cta thread ∧
      "No LLM configured. Returned a structured draft template." ∈ post.warnings ∧
      post.metadata.llm = false ∧
      post.metadata.variants = 1) ∧
    generate c2Env "Markets were volatile" "x" ["Nifty fell 2%"] none none true 3 none
        true none true true
      = Except.ok
          ⟨fallback_template "Markets were volatile" "x" ["Nifty fell 2%"] none none true,
            ["Research requested but search API key not configured",
              "No LLM configured. Returned a structured draft template."],
            ⟨"x", true, 1, false, false, none, "", []⟩⟩ ∧
    fallback_template "Markets were volatile" "x" ["Nifty fell 2%"] none none true
      = "1/3 Markets were volatile\n2/3 Data/Example: Nifty fell 2%. pragmatic, balanced take.\n3/3 Takeaway: [ADD TAKEAWAY]. What do you think?" ∧
    (pySplitlines
        (fallback_template "Markets were volatile" "x" ["Nifty fell 2%"] none none true)
      ).map (fun l => (⟨l.data.take 4⟩ : String)) = ["1/3 ", "2/3 ", "3/3 "] ∧
    containsSub "Nifty fell 2%".data
      (fallback_template "Markets were volatile" "x" ["Nifty fell 2%"] none none
        true).data = true := by
  refine ⟨?_, rfl, by decide, by decide, by decide⟩
  intro env context platform facts angle cta thread variants maxChars allowResearch
    researchQuery autoResearch proofreadFlag post hav hok
  rcases hst : researchStage env context allowResearch researchQuery autoResearch with
    e | ⟨w, rr, ru, rs, rq⟩
  · rw [generate, hst] at hok
    exact Except.noConfusion hok
  · rw [generate, hst] at hok
    simp only [hav, Bool.false_eq_true, not_false_eq_true, if_pos] at hok
    rw [Except.ok.injEq] at hok
    rw [← hok]
    refine ⟨rfl, ?_, rfl, rfl⟩
    simp

/-- Witness for C2: the concrete no-LLM call's result satisfies every
clause of the fallback contract. -/
theorem c2_witness :
    (⟨fallback_template "Markets were volatile" "x" ["Nifty fell 2%"] none none true,
        ["Research requested but search API key not configured",
          "No LLM configured. Returned a structured draft template."],
        ⟨"x", true, 1, false, false, none, "", []⟩⟩ : GeneratedPost).text
      = fallback_template "Markets were volatile" "x" ["Nifty fell 2%"] none none true ∧
    "No LLM configured. Returned a structured draft template." ∈
      (⟨fallback_template "Markets were volatile" "x" ["Nifty fell 2%"] none none true,
        ["Research requested but search API key not configured",
          "No LLM configured. Returned a structured draft template."],
        ⟨"x", true, 1, false, false, none, "", []⟩⟩ : GeneratedPost).warnings ∧
    (⟨fallback_template "Markets were volatile" "x" ["Nifty fell 2%"] none none true,
        ["Research requested but search API key not configured",
          "No LLM configured. Returned a structured draft template."],
        ⟨"x", true, 1, false, false, none, "", []⟩⟩ : GeneratedPost).metadata.llm = false ∧
    (⟨fallback_template "Markets were volatile" "x" ["Nifty fell 2%"] none none true,
        ["Research requested but search API key not configured",
          "No LLM configured. Returned a structured draft template."],
        ⟨"x", true, 1, false, false, none, "", []⟩⟩ : GeneratedPost).metadata.variants
      = 1 :=
  c2_no_llm_fallback.1 c2Env "Markets were volatile" "x" ["Nifty fell 2%"] none none true
    3 none true none true true _ (by decide) rfl

/-- C7: the proofread pass.  With an LLM configured, an edit that is empty
or longer than 1.2 times the draft — or an edit call that raises — yields
`None`, and `generate` then keeps the original draft unchanged and appends
the proofread-failure warning; an edit is accepted exactly when it is
non-empty and within the 1.2x bound. -/
theorem c7_proofread_rejection :
    (∀ (env : GenEnv) (draft platform : String) (thread : Bool) (edited : String),
      pyIsAvailable env = true →
      env.llm proofSystemPrompt ("Proofread this " ++ platform ++ " draft:\n\n" ++ draft)
        900 = Except.ok edited →
      ((edited = "" ∨ 5 * edited.length > 6 * draft.length →
        proofread env draft platform thread = none) ∧
       (edited ≠ "" → 5 * edited.length ≤ 6 * draft.length →
        proofread env draft platform thread = some edited))) ∧
    (∀ (env : GenEnv) (draft platform : String) (thread : Bool) (e : String),
      pyIsAvailable env = true →
      env.llm proofSystemPrompt ("Proofread this " ++ platform ++ " draft:\n\n" ++ draft)
        900 = Except.error e →
      proofread env draft platform thread = none) ∧
    (∀ (env : GenEnv) (context platform : String) (facts : List String)
      (angle cta : Option String) (thread : Bool) (variants : Nat) (maxChars : Option Nat)
      (researchQuery : Option String) (autoResearch : Bool) (draft : String),
      pyIsAvailable env = true →
      research_is_available env = false →
      env.llm (env.buildSystemPrompt platform thread variants maxChars)
        (env.buildUserPrompt context facts angle cta [] "") 1200 = Except.ok draft →
      proofread env draft platform thread = none →
      ∃ post : GeneratedPost,
        generate env context platform facts angle cta thread variants maxChars true
          researchQuery autoResearch true = Except.ok post ∧
        post.text = draft ∧
        "Proofread step failed, returning original draft" ∈ post.warnings) := by
  refine ⟨?_, ?_, ?_⟩
  · intro env draft platform thread edited hav hllm
    constructor
    · intro hrej
      rw [proofread, if_pos hav, llm_generate_of_available hav, hllm]
      rcases hrej with rfl | hlong
      · simp
      · by_cases he : edited = ""
        · simp [he]
        · simp [he, hlong]
    · intro he hle
      rw [proofread, if_pos hav, llm_generate_of_available hav, hllm]
      have hc : ¬ 5 * edited.length > 6 * draft.length := by omega
      simp [he, hc]
  · intro env draft platform thread e hav hllm
    rw [proofread, if_pos hav, llm_generate_of_available hav, hllm]
  · intro env context platform facts angle cta thread variants maxChars researchQuery
      autoResearch draft hav hru hllm hpf
    have hst : researchStage env context true researchQuery autoResearch
        = Except.ok (["Research requested but search API key not configured"],
          [], false, "", none) := by
      rw [researchStage]
      simp [hru]
    refine ⟨⟨draft,
      (["Research requested but search API key not configured"] ++
        ["Proofread step failed, returning original draft"]) ++
        basic_warnings env.styleMaxCharsX draft platform maxChars thread,
      ⟨platform, thread, variants, true, false, none, "", []⟩⟩, ?_, rfl, by simp⟩
    rw [generate, hst]
    simp only [hav, not_true_eq_false, if_neg, ite_false]
    rw [llm_generate_of_available hav, hllm]
    simp [hpf]
    rfl

/-- Environment for the C7 example: an LLM whose draft call returns a short
draft and whose edit call returns an overlong edit. -/
def c7Env : GenEnv :=
  ⟨some "anthropic",
    fun _ _ n =>
      if n == 1200 then Except.ok "draft text"
      else Except.ok "much much longer edited text",
    "", "", fun _ _ _ => Except.ok [], none, none,
    fun _ _ _ _ => "", fun _ _ _ _ _ _ => ""⟩

/-- Witness for C7: the overlong edit is rejected, and `generate` keeps the
original draft and appends the proofread-failure warning. -/
theorem c7_witness :
    proofread c7Env "draft text" "x" false = none ∧
    (∃ post : GeneratedPost,
      generate c7Env "ctx" "x" [] none none false 3 none true none true true
        = Except.ok post ∧
      post.text = "draft text" ∧
      "Proofread step failed, returning original draft" ∈ post.warnings) := by
  refine ⟨?_, ?_⟩
  · exact (c7_proofread_rejection.1 c7Env "draft text" "x" false
      "much much longer edited text" (by decide) rfl).1 (Or.inr (by decide))
  · exact c7_proofread_rejection.2.2 c7Env "ctx" "x" [] none none false 3 none none true
      "draft text" (by decide) (by decide) rfl (by decide)
